import Mathlib

/-!
# sql-replay: the CSV slow-log converter (`parsecsv.go`)

A shallow embedding of `parseCSVLog`, `parseCSVRecord`, `convertToJSON` and
`extractSQLType`, together with models of the Go standard-library functions
they call (`strings`, `strconv`, `time`, float64 arithmetic).

Conventions of the embedding.
* A Go string is a list of Unicode code points (`GoString`), i.e. the text is
  taken to be valid UTF-8. The byte-level library functions used here only
  compare against ASCII bytes, and an ASCII byte never occurs inside a
  multi-byte UTF-8 sequence, so they act on code points the same way.
* `int` and `int64` are both 64 bits wide (a 64-bit Go target); values are
  `Int`, kept in range by the parsers that produce them.
* `float64` is the type `F64` below: IEEE 754 binary64 with round to nearest,
  ties to even, computed exactly on naturals and integers.
-/

namespace SqlReplay

/-- A Go string, as the list of its code points. -/
abbrev GoString := List Char

/-- Equality of results (a value or an error) is decidable. -/
instance instDecidableEqExcept {ε α : Type} [DecidableEq ε] [DecidableEq α] :
    DecidableEq (Except ε α)
  | .ok a, .ok b => if h : a = b then isTrue (by rw [h]) else isFalse (fun h2 => h (by cases h2; rfl))
  | .error a, .error b => if h : a = b then isTrue (by rw [h]) else isFalse (fun h2 => h (by cases h2; rfl))
  | .ok _, .error _ => isFalse (fun h => by cases h)
  | .error _, .ok _ => isFalse (fun h => by cases h)

/-! ## `float64` -/

/-- The values of an IEEE 754 binary64 number. `fin neg m e` is the finite
value `(-1)^neg * m * 2^e`; the operations below produce it with `m < 2^53`,
`-1074 ≤ e ≤ 971`, and `2^52 ≤ m` unless `e = -1074` (zero and subnormals). -/
inductive F64 where
  | fin (neg : Bool) (m : Nat) (e : Int)
  | inf (neg : Bool)
  | nan
  deriving DecidableEq

/-- The loop of `bitLen`, bounded by `fuel`: halves `n` until it is zero,
counting the steps in `acc`. -/
def bitLenAux : Nat → Nat → Nat → Nat
  | 0, _, acc => acc
  | fuel + 1, n, acc => if n = 0 then acc else bitLenAux fuel (n / 2) (acc + 1)

/-- Number of binary digits of `n` (Go `bits.Len`), zero for zero. -/
def bitLen (n : Nat) : Nat := bitLenAux n n 0

namespace F64

/-- Positive zero, the zero value of a Go `float64`. -/
def zero : F64 := .fin false 0 (-1074)

/-- The integer part of `log2 (n / d)` for positive `n` and `d`: the
difference `k` of the bit lengths, or `k - 1`. `x <<< j` is `x * 2^j`. -/
def ilog2 (n d : Nat) : Int :=
  let k : Int := (bitLen n : Int) - (bitLen d : Int)
  if d <<< k.toNat ≤ n <<< (-k).toNat then k else k - 1

/-- The binary64 number nearest to `(-1)^neg * n / d` (for `d > 0`), ties to
even; `inf` when the rounded value does not fit (IEEE 754 overflow). The
exponent `e` is that of the last of the 53 bits, not below that of the
subnormal numbers; `q` is the quotient in units of `2^e`, `r` what is left. -/
def round (neg : Bool) (n d : Nat) : F64 :=
  if n = 0 then .fin neg 0 (-1074)
  else
    let e : Int := max (ilog2 n d - 52) (-1074)
    let num := n <<< (-e).toNat
    let den := d <<< e.toNat
    let q := num / den
    let r := num % den
    let m := if den < 2 * r ∨ (2 * r = den ∧ q % 2 = 1) then q + 1 else q
    let m1 := if m = 2 ^ 53 then 2 ^ 52 else m
    let e1 := if m = 2 ^ 53 then e + 1 else e
    if 971 < e1 then .inf neg else .fin neg m1 e1

/-- Conversion `float64(z)` of an integer. -/
def ofInt (z : Int) : F64 := round (decide (z < 0)) z.natAbs 1

/-- Whether the value is neither an infinity nor a NaN. -/
def isFinite : F64 → Bool
  | .fin _ _ _ => true
  | _ => false

/-- The float64 product `x * y`. -/
def mul : F64 → F64 → F64
  | .nan, _ => .nan
  | _, .nan => .nan
  | .inf s, .inf t => .inf (xor s t)
  | .inf s, .fin t m _ => if m = 0 then .nan else .inf (xor s t)
  | .fin s m _, .inf t => if m = 0 then .nan else .inf (xor s t)
  | .fin s m e, .fin t m2 e2 =>
    round (xor s t) ((m * m2) <<< (e + e2).toNat) (1 <<< (-(e + e2)).toNat)

/-- The float64 quotient `x / y`. -/
def div : F64 → F64 → F64
  | .nan, _ => .nan
  | _, .nan => .nan
  | .inf _, .inf _ => .nan
  | .inf s, .fin t _ _ => .inf (xor s t)
  | .fin s _ _, .inf t => .fin (xor s t) 0 (-1074)
  | .fin s m e, .fin t m2 e2 =>
    if m2 = 0 then (if m = 0 then .nan else .inf (xor s t))
    else round (xor s t) (m <<< (e - e2).toNat) (m2 <<< (e2 - e).toNat)

/-- The float64 sum `x + y`. -/
def add : F64 → F64 → F64
  | .nan, _ => .nan
  | _, .nan => .nan
  | .inf s, .inf t => if s = t then .inf s else .nan
  | .inf s, .fin _ _ _ => .inf s
  | .fin _ _ _, .inf t => .inf t
  | .fin s m e, .fin t m2 e2 =>
    -- adding a zero is exact; two zeros give -0 only when both are -0
    if m2 = 0 then (if m = 0 then .fin (s && t) 0 (-1074) else .fin s m e)
    else if m = 0 then .fin t m2 e2
    else
    let e0 := min e e2
    let a : Int := if s then -((m <<< (e - e0).toNat : Nat) : Int) else (m <<< (e - e0).toNat : Nat)
    let b : Int := if t then -((m2 <<< (e2 - e0).toNat : Nat) : Int) else (m2 <<< (e2 - e0).toNat : Nat)
    let z := a + b
    if z = 0 then .fin false 0 (-1074)
    else round (decide (z < 0)) (z.natAbs <<< e0.toNat) (1 <<< (-e0).toNat)

/-- The conversion `int64(x)`: the value truncated toward zero when that fits
in 64 bits. Otherwise (and for NaN) the Go specification leaves the result to
the implementation; `undef` gives it. -/
def toInt64 (undef : F64 → Int) : F64 → Int
  | .fin s m e =>
    let t : Int := (((m <<< e.toNat) >>> (-e).toNat : Nat) : Int)
    let v : Int := if s then -t else t
    if -(2 : Int) ^ 63 ≤ v ∧ v < (2 : Int) ^ 63 then v else undef (.fin s m e)
  | x => undef x

end F64

/-! ## Package `strings` -/

/-- Go `unicode.IsSpace`: the Latin-1 spaces `\t \n \v \f \r`, space, U+0085,
U+00A0, and the other code points with the White_Space property. -/
def isSpace (c : Char) : Bool :=
  let n := c.toNat
  (9 ≤ n && n ≤ 13) || n == 32 || n == 0x85 || n == 0xA0 || n == 0x1680 ||
  (0x2000 ≤ n && n ≤ 0x200A) || n == 0x2028 || n == 0x2029 || n == 0x202F ||
  n == 0x205F || n == 0x3000

/-- Go `strings.TrimSpace`: drops the leading and the trailing white space. -/
def TrimSpace (s : GoString) : GoString :=
  List.rdropWhile isSpace (List.dropWhile isSpace s)

/-- Go `trimRightByte`. -/
def trimRightByte (s : GoString) (c : Char) : GoString :=
  List.rdropWhile (fun x => x == c) s

/-- Go `trimLeftByte`. -/
def trimLeftByte (s : GoString) (c : Char) : GoString :=
  List.dropWhile (fun x => x == c) s

/-- Go `strings.Trim(s, cutset)` for a cutset of one ASCII byte `c`, which is
`trimLeftByte(trimRightByte(s, c), c)`. -/
def Trim (s : GoString) (c : Char) : GoString :=
  trimLeftByte (trimRightByte s c) c

/-- The double-quote character, the cutset of both `strings.Trim` calls. -/
def dquote : Char := Char.ofNat 34

/-- The loop of Go `strings.FieldsFunc(s, unicode.IsSpace)`: `cur` holds the
field being read, in reverse. -/
def fieldsLoop : GoString → GoString → List GoString
  | [], cur => if cur.isEmpty then [] else [cur.reverse]
  | c :: cs, cur =>
    if isSpace c then
      (if cur.isEmpty then fieldsLoop cs [] else cur.reverse :: fieldsLoop cs [])
    else fieldsLoop cs (c :: cur)

/-- Go `strings.Fields`: the maximal runs of non-space code points. -/
def Fields (s : GoString) : List GoString := fieldsLoop s []

/-- Go `unicode.ToLower`: ASCII letters are mapped directly, every other code
point through the Unicode case tables, here the parameter `tbl`. -/
def toLowerRune (tbl : Char → Char) (c : Char) : Char :=
  if c.toNat ≤ 127 then
    (if 65 ≤ c.toNat ∧ c.toNat ≤ 90 then Char.ofNat (c.toNat + 32) else c)
  else tbl c

/-- Go `strings.ToLower`. -/
def ToLower (tbl : Char → Char) (s : GoString) : GoString :=
  s.map (toLowerRune tbl)

/-! ## Package `strconv` -/

/-- The two causes of a `strconv.NumError`. -/
inductive ErrKind where
  | ErrSyntax
  | ErrRange
  deriving DecidableEq

/-- Go `strconv.NumError`: the failing function, the input and the cause. -/
structure NumError where
  Func : String
  Num : GoString
  Err : ErrKind
  deriving DecidableEq

/-- Whether `c` is an ASCII decimal digit. -/
def isDigitChar (c : Char) : Bool := 48 ≤ c.toNat && c.toNat ≤ 57

/-- The value `c - '0'` of a digit. -/
def digitVal (c : Char) : Nat := c.toNat - 48

/-- Go `lower(c)`, which is `c | ('x' - 'X')`: the lower-case form of an ASCII
letter. -/
def lower (c : Char) : Nat := c.toNat ||| 32

/-- The digit loop of Go `strconv.ParseUint(s, 10, 64)`, `n` being the value
read so far and `s0` the whole input. -/
def parseUintLoop (s0 : GoString) : GoString → Nat → Except NumError Nat
  | [], n => .ok n
  | c :: cs, n =>
    let d : Option Nat :=
      if isDigitChar c then some (digitVal c)
      else if 97 ≤ lower c ∧ lower c ≤ 122 then some (lower c - 97 + 10)
      else none
    match d with
    | none => .error ⟨"ParseUint", s0, .ErrSyntax⟩
    | some d =>
      if 10 ≤ d then .error ⟨"ParseUint", s0, .ErrSyntax⟩
      -- cutoff = maxUint64/10 + 1: n*10 would overflow
      else if (2 ^ 64 - 1) / 10 + 1 ≤ n then .error ⟨"ParseUint", s0, .ErrRange⟩
      else
        let n10 := n * 10
        let n1 := (n10 + d) % 2 ^ 64
        if n1 < n10 ∨ 2 ^ 64 - 1 < n1 then .error ⟨"ParseUint", s0, .ErrRange⟩
        else parseUintLoop s0 cs n1

/-- Go `strconv.ParseUint(s, 10, 64)`. -/
def ParseUint (s : GoString) : Except NumError Nat :=
  if s = [] then .error ⟨"ParseUint", s, .ErrSyntax⟩
  else parseUintLoop s s 0

/-- Go `strconv.ParseInt(s, 10, 64)`. -/
def ParseInt (s0 : GoString) : Except NumError Int :=
  match s0 with
  | [] => .error ⟨"ParseInt", s0, .ErrSyntax⟩
  | c :: rest =>
    let neg : Bool := c = '-'
    let s := if c = '+' ∨ c = '-' then rest else s0
    match ParseUint s with
    | .error e =>
      if e.Err ≠ .ErrRange then .error ⟨"ParseInt", s0, e.Err⟩
      else .error ⟨"ParseInt", s0, .ErrRange⟩
    | .ok un =>
      -- cutoff = 1 << 63
      if ¬ neg ∧ 2 ^ 63 ≤ un then .error ⟨"ParseInt", s0, .ErrRange⟩
      else if neg ∧ 2 ^ 63 < un then .error ⟨"ParseInt", s0, .ErrRange⟩
      else .ok (if neg then -(un : Int) else (un : Int))

/-- Go `commonPrefixLenIgnoreCase(s, pre)`, for a lower-case `pre`. -/
def commonPrefixLenIgnoreCase : GoString → GoString → Nat
  | c :: s, p :: pre =>
    let c1 := if 65 ≤ c.toNat ∧ c.toNat ≤ 90 then c.toNat + 32 else c.toNat
    if c1 ≠ p.toNat then 0 else commonPrefixLenIgnoreCase s pre + 1
  | _, _ => 0

/-- Go `special(s)`: the spellings of infinity and NaN, with the number of
characters read. -/
def special (s : GoString) : Option (F64 × Nat) :=
  match s with
  | [] => none
  | c :: rest =>
    if c = '+' ∨ c = '-' then
      let n := commonPrefixLenIgnoreCase rest "infinity".toList
      let n := if 3 < n ∧ n < 8 then 3 else n
      if n = 3 ∨ n = 8 then some (.inf (c = '-'), 1 + n) else none
    else if c = 'i' ∨ c = 'I' then
      let n := commonPrefixLenIgnoreCase s "infinity".toList
      let n := if 3 < n ∧ n < 8 then 3 else n
      if n = 3 ∨ n = 8 then some (.inf false, n) else none
    else if c = 'n' ∨ c = 'N' then
      if commonPrefixLenIgnoreCase s "nan".toList = 3 then some (.nan, 3) else none
    else none

/-- The scan of Go `underscoreOK` after the sign and the base mark: `i` is the
kind of the previous character (`'0'` digit, `'_'` underscore, `'!'` other). -/
def underscoreLoop (hex : Bool) : GoString → Char → Bool
  | [], i => i ≠ '_'
  | c :: cs, i =>
    if isDigitChar c ∨ (hex ∧ 97 ≤ lower c ∧ lower c ≤ 102) then underscoreLoop hex cs '0'
    else if c = '_' then (if i ≠ '0' then false else underscoreLoop hex cs '_')
    else if i = '_' then false
    else underscoreLoop hex cs '!'

/-- Go `underscoreOK`: underscores only between digits, or after a base
mark. -/
def underscoreOK (s : GoString) : Bool :=
  let s := match s with
    | c :: rest => if c = '-' ∨ c = '+' then rest else s
    | [] => s
  match s with
  | c0 :: c1 :: rest =>
    if c0 = '0' ∧ (lower c1 = 98 ∨ lower c1 = 111 ∨ lower c1 = 120) then
      underscoreLoop (lower c1 = 120) rest '0'
    else underscoreLoop false s ' '
  | _ => underscoreLoop false s ' '

/-- The variables of Go `readFloat` while it reads the digits. The mantissa
is kept in full (Go keeps 19 digits and a truncation flag, and falls back on
exact decimal arithmetic when the flag matters). -/
structure ReadState where
  mantissa : Nat := 0
  nd : Nat := 0
  dp : Int := 0
  sawdot : Bool := false
  sawdigits : Bool := false
  underscores : Bool := false

/-- The digit loop of Go `readFloat`; returns the text left unread. -/
def readDigits (hex : Bool) : GoString → ReadState → ReadState × GoString
  | [], st => (st, [])
  | c :: cs, st =>
    if c = '_' then readDigits hex cs { st with underscores := true }
    else if c = '.' then
      (if st.sawdot then (st, c :: cs)
       else readDigits hex cs { st with sawdot := true, dp := st.nd })
    else if isDigitChar c then
      (if c = '0' ∧ st.nd = 0 then
        readDigits hex cs { st with sawdigits := true, dp := st.dp - 1 }
       else readDigits hex cs { st with
        sawdigits := true, nd := st.nd + 1,
        mantissa := st.mantissa * (if hex then 16 else 10) + digitVal c })
    else if hex ∧ 97 ≤ lower c ∧ lower c ≤ 102 then
      readDigits hex cs { st with
        sawdigits := true, nd := st.nd + 1,
        mantissa := st.mantissa * 16 + (lower c - 97 + 10) }
    else (st, c :: cs)

/-- The exponent digit loop of Go `readFloat`: the value saturates once it has
reached 10000. -/
def readExpDigits : GoString → Nat → Bool → Nat × Bool × GoString
  | [], e, u => (e, u, [])
  | c :: cs, e, u =>
    if c = '_' then readExpDigits cs e true
    else if isDigitChar c then
      readExpDigits cs (if e < 10000 then e * 10 + digitVal c else e) u
    else (e, u, c :: cs)

/-- What Go `readFloat` returns: the sign, whether the number is hexadecimal,
the mantissa, the exponent (of 10, or of 2 for a hexadecimal number) and the
text left unread. -/
structure ReadFloat where
  neg : Bool
  hex : Bool
  mantissa : Nat
  exp : Int
  rest : GoString

/-- Go `readFloat`; `none` where Go returns `ok = false`. -/
def readFloat (s : GoString) : Option ReadFloat :=
  match s with
  | [] => none
  | c :: rest =>
    let neg : Bool := c = '-'
    let s1 := if c = '+' ∨ c = '-' then rest else s
    -- base mark: "0x" followed by at least one more character
    let hex : Bool := match s1 with
      | c0 :: c1 :: _ :: _ => c0 = '0' ∧ lower c1 = 120
      | _ => false
    let s2 := if hex then s1.drop 2 else s1
    let (st, s3) := readDigits hex s2 {}
    if ¬ st.sawdigits then none
    else
      let dp : Int := if st.sawdot then st.dp else st.nd
      let dp : Int := if hex then dp * 4 else dp
      let ndMant : Int := if hex then (st.nd : Int) * 4 else st.nd
      let finish (dp : Int) (underscores : Bool) (s5 : GoString) : Option ReadFloat :=
        let exp : Int := if st.mantissa ≠ 0 then dp - ndMant else 0
        if underscores ∧ ¬ underscoreOK (s.take (s.length - s5.length)) then none
        else some ⟨neg, hex, st.mantissa, exp, s5⟩
      match s3 with
      | c3 :: s4 =>
        if lower c3 = (if hex then 112 else 101) then
          match s4 with
          | [] => none
          | c4 :: s5 =>
            let esign : Int := if c4 = '-' then -1 else 1
            let s6 := if c4 = '+' ∨ c4 = '-' then s5 else s4
            match s6 with
            | [] => none
            | c6 :: _ =>
              if ¬ isDigitChar c6 then none
              else
                let (e, u, s7) := readExpDigits s6 0 st.underscores
                finish (dp + (e : Int) * esign) u s7
        else if hex then none
        else finish dp st.underscores s3
      | [] => if hex then none else finish dp st.underscores s3

/-- Go `strconv.ParseFloat(s, 64)`: the text must be read to its end, the
result is the float64 nearest to the number written, and a number too large
for a float64 is an `ErrRange` error. -/
def ParseFloat (s : GoString) : Except NumError F64 :=
  match special s with
  | some (v, n) =>
    if n ≠ s.length then .error ⟨"ParseFloat", s, .ErrSyntax⟩ else .ok v
  | none =>
    match readFloat s with
    | none => .error ⟨"ParseFloat", s, .ErrSyntax⟩
    | some r =>
      if r.rest ≠ [] then .error ⟨"ParseFloat", s, .ErrSyntax⟩
      else
        let v :=
          if r.hex then F64.round r.neg (r.mantissa <<< r.exp.toNat) (1 <<< (-r.exp).toNat)
          else F64.round r.neg (r.mantissa * 10 ^ r.exp.toNat) (10 ^ (-r.exp).toNat)
        match v with
        | .inf _ => .error ⟨"ParseFloat", s, .ErrRange⟩
        | _ => .ok v

/-! ## Package `time` -/

/-- Go `time.ParseError`, without the layout and the whole value (both are
fixed by the call): the layout element and the text at which parsing stopped,
and the message (for extra text, without the quoted copy of that text). -/
structure ParseError where
  LayoutElem : String
  ValueElem : GoString
  Message : String
  deriving DecidableEq

/-- A Go `time.Time` in UTC, as the values of its methods `Unix()` and
`Nanosecond()`. -/
structure Time where
  Unix : Int
  Nanosecond : Int
  deriving DecidableEq

/-- Go `time.isDigit(s, i)`. -/
def isDigit (s : GoString) (i : Nat) : Bool :=
  match s.get? i with
  | some c => isDigitChar c
  | none => false

/-- Go `time.leadingInt`: the digits at the head of `s` as a number `x`, and
the rest; fails when the number passes `1 << 63`. -/
def leadingInt : GoString → Nat → Option (Nat × GoString)
  | [], x => some (x, [])
  | c :: cs, x =>
    if ¬ isDigitChar c then some (x, c :: cs)
    else if 2 ^ 63 / 10 < x then none
    else if 2 ^ 63 < x * 10 + digitVal c then none
    else leadingInt cs (x * 10 + digitVal c)

/-- Go `time.atoi`: an optional sign and digits, nothing else. -/
def atoi (s : GoString) : Option Int :=
  let neg : Bool := match s with
    | c :: _ => c = '-'
    | [] => false
  let s1 := match s with
    | c :: rest => if c = '-' ∨ c = '+' then rest else s
    | [] => s
  match leadingInt s1 0 with
  | none => none
  | some (q, rem) =>
    if rem ≠ [] then none
    else
      -- x = int(q), which wraps at 1 << 63
      let x : Int := if q = 2 ^ 63 then -(2 : Int) ^ 63 else (q : Int)
      some (if neg then -x else x)

/-- Go `time.getnum`: one or two digits, exactly two when `fixed`. -/
def getnum (s : GoString) (fixed : Bool) : Option (Int × GoString) :=
  if ¬ isDigit s 0 then none
  else if ¬ isDigit s 1 then
    (if fixed then none else some ((digitVal (s.headD ' ') : Int), s.drop 1))
  else some ((digitVal (s.headD ' ') : Int) * 10 + digitVal ((s.drop 1).headD ' '), s.drop 2)

/-- Go `time.cutspace`: drops the leading blanks. -/
def cutspace (s : GoString) : GoString := s.dropWhile (fun c => c = ' ')

/-- The loop of Go `time.skip`, bounded by `fuel`; an error carries the value
where matching stopped. -/
def skipLoop : Nat → GoString → GoString → Except GoString GoString
  | _, value, [] => .ok value
  | 0, value, _ :: _ => .error value
  | fuel + 1, value, p :: pre =>
    if p = ' ' then
      (if value ≠ [] ∧ value.headD ' ' ≠ ' ' then .error value
       else skipLoop fuel (cutspace value) (cutspace (p :: pre)))
    else if value = [] ∨ value.headD ' ' ≠ p then .error value
    else skipLoop fuel (value.drop 1) pre

/-- Go `time.skip(value, pre)`: reads the literal text `pre` of the layout off
`value`; a run of blanks in the layout matches any run of blanks, also none
at the end of the value. -/
def skip (value pre : GoString) : Except GoString GoString :=
  skipLoop pre.length value pre

/-- Go `time.isLeap`. -/
def isLeap (year : Int) : Bool :=
  year % 4 = 0 ∧ (year % 100 ≠ 0 ∨ year % 400 = 0)

/-- Go `time.daysBefore[m]`: the days of a non-leap year before the end of
month `m` (`daysBefore[0]` is 0). -/
def daysBefore (m : Int) : Int :=
  [0, 31, 59, 90, 120, 151, 181, 212, 243, 273, 304, 334, 365].getD m.toNat 0

/-- Go `time.daysIn(m, year)`. -/
def daysIn (m : Int) (year : Int) : Int :=
  if m = 2 ∧ isLeap year then 29 else daysBefore m - daysBefore (m - 1)

/-- Go `time.parseNanoseconds(value, nbytes)` for a `value` that starts with a
period or a comma: at most nine digits are read. -/
def parseNanoseconds (value : GoString) (nbytes : Nat) : Option Int :=
  let value := if 10 < nbytes then value.take 10 else value
  let nbytes := if 10 < nbytes then 10 else nbytes
  match atoi ((value.take nbytes).drop 1) with
  | none => none
  | some ns => some (ns * 10 ^ (10 - nbytes))

/-- The special case of `time.parse` after the seconds: a fractional second
in the value (a period or a comma, and digits) is read although the layout
has none. Returns the nanoseconds and the text left. -/
def fracSecond (value : GoString) : Option (Int × GoString) :=
  if 2 ≤ value.length ∧ (value.headD ' ' = '.' ∨ value.headD ' ' = ',') ∧ isDigit value 1 then
    let n : Nat := 2 + ((value.drop 2).takeWhile isDigitChar).length
    match parseNanoseconds value n with
    | none => none
    | some nsec => some (nsec, value.drop n)
  else some (0, value)

/-- Go `time.Date(year, month, day, hour, min, sec, nsec, time.UTC)` for
arguments in their ranges (the parser passes no others, so none is
normalised): the days before the year, counted from 1 January of year 1, less
the 719162 days from then to 1 January 1970. -/
def Date (year month day hour min sec nsec : Int) : Time :=
  let y := year - 1
  let d : Int := 365 * y + y / 4 - y / 100 + y / 400 - 719162
  let d := d + daysBefore (month - 1)
  let d := if isLeap year ∧ 3 ≤ month then d + 1 else d
  let d := d + (day - 1)
  ⟨d * 86400 + (hour * 3600 + min * 60 + sec), nsec⟩

/-- Go `time.Parse("2006-01-02 15:04:05", value)`: the loop of `time.parse`
unrolled over the elements of this layout. No zone is named, so the time is
in UTC. -/
def timeParse (value : GoString) : Except ParseError Time :=
  -- stdLongYear "2006"
  if value.length < 4 ∨ ¬ isDigit value 0 then .error ⟨"2006", value, ""⟩ else
  match atoi (value.take 4) with
  | none => .error ⟨"2006", value, ""⟩
  | some year =>
  -- "-", stdZeroMonth "01"
  match skip (value.drop 4) "-".toList with
  | .error v => .error ⟨"-", v, ""⟩
  | .ok value =>
  match getnum value true with
  | none => .error ⟨"01", value, ""⟩
  | some (month, value) =>
  if month ≤ 0 ∨ 12 < month then .error ⟨"01", value, ": month out of range"⟩ else
  -- "-", stdZeroDay "02"
  match skip value "-".toList with
  | .error v => .error ⟨"-", v, ""⟩
  | .ok value =>
  match getnum value true with
  | none => .error ⟨"02", value, ""⟩
  | some (day, value) =>
  -- " ", stdHour "15"
  match skip value " ".toList with
  | .error v => .error ⟨" ", v, ""⟩
  | .ok value =>
  match getnum value false with
  | none => .error ⟨"15", value, ""⟩
  | some (hour, value) =>
  if hour < 0 ∨ 24 ≤ hour then .error ⟨"15", value, ": hour out of range"⟩ else
  -- ":", stdZeroMinute "04"
  match skip value ":".toList with
  | .error v => .error ⟨":", v, ""⟩
  | .ok value =>
  match getnum value true with
  | none => .error ⟨"04", value, ""⟩
  | some (min, value) =>
  if min < 0 ∨ 60 ≤ min then .error ⟨"04", value, ": minute out of range"⟩ else
  -- ":", stdZeroSecond "05"
  match skip value ":".toList with
  | .error v => .error ⟨":", v, ""⟩
  | .ok value =>
  match getnum value true with
  | none => .error ⟨"05", value, ""⟩
  | some (sec, value) =>
  if sec < 0 ∨ 60 ≤ sec then .error ⟨"05", value, ": second out of range"⟩ else
  match fracSecond value with
  | none => .error ⟨"05", value, ""⟩
  | some (nsec, value) =>
  -- end of the layout
  if value.length ≠ 0 then .error ⟨"", value, ": extra text: "⟩ else
  -- the day of the month
  if day < 1 ∨ daysIn month year < day then .error ⟨"", value, ": day out of range"⟩ else
  .ok (Date year month day hour min sec nsec)

/-! ## `extractSQLType` -/

/-- The Go function `extractSQLType` (parsecsv.go, lines 181-199). -/
def extractSQLType (tbl : Char → Char) (sqlText : GoString) : GoString :=
  if sqlText = [] then []
  else
    let cleaned := TrimSpace sqlText
    let cleaned := Trim cleaned dquote
    let cleaned := TrimSpace cleaned
    let words := Fields cleaned
    match words with
    | [] => []
    | w :: _ => ToLower tbl w

/-! ## Records -/

/-- Modelled from the spec: the declaration of the struct `CSVRecord` is not
in `parsecsv.go`. The fields are those `parseCSVRecord` assigns, with the
types of the assigned values (the spec's TypedRecord). -/
structure CSVRecord where
  Timestamp : GoString
  SQLID : GoString
  SQLText : GoString
  DBName : GoString
  ExecutionTime : F64 := F64.zero
  LockWaitTime : F64 := F64.zero
  ReturnRows : Int := 0
  ScanRows : Int := 0
  SourceIP : GoString
  Username : GoString
  ThreadID : GoString
  TableNames : GoString
  Tags : GoString
  deriving DecidableEq

/-- Modelled from the spec: the declaration of the struct `LogEntry` is not in
`parsecsv.go`. The fields are those `convertToJSON` assigns, with the types of
the assigned values (the spec's OutputRecord). -/
structure LogEntry where
  ConnectionID : GoString
  QueryTime : Int
  SQL : GoString
  RowsSent : Int
  Username : GoString
  SQLType : GoString
  DBName : GoString
  Timestamp : F64
  Digest : GoString
  deriving DecidableEq

/-- What the Go implementation fixes outside the program: the Unicode
lower-case table behind `unicode.ToLower`, and the value of `int64(x)` for a
float64 `x` that no int64 represents. -/
structure Platform where
  lowerTable : Char → Char
  int64Undef : F64 → Int

/-- The numeric field whose text `parseCSVRecord` failed to parse. -/
inductive NumField where
  | executionTime
  | lockWaitTime
  | returnRows
  | scanRows
  deriving DecidableEq

/-- The error of `parseCSVRecord`: `fmt.Errorf("parse ... failed: %v", err)`,
as the field the message names and the wrapped `strconv` error. -/
structure RecordError where
  field : NumField
  err : NumError
  deriving DecidableEq

/-- The text that starts the message of a `RecordError`. -/
def RecordError.message (e : RecordError) : String :=
  match e.field with
  | .executionTime => "parse execution time failed: "
  | .lockWaitTime => "parse lock wait time failed : "
  | .returnRows => "parse return rows failed: "
  | .scanRows => "parse scan rows failed : "

/-! ## `parseCSVRecord` -/

/-- Go `record[i]` on a slice: `none` stands for the run-time panic of an
index out of range. -/
def index (record : List GoString) (i : Nat) : Option GoString := record.get? i

/-- Lines 111-118 of `parseCSVRecord`: the execution time, field 4. -/
def parseExecutionTime (csvRecord : CSVRecord) (r4 : GoString) :
    Except RecordError CSVRecord :=
  if r4 ≠ [] then
    match ParseFloat r4 with
    | .error err => .error ⟨.executionTime, err⟩
    | .ok execTime => .ok { csvRecord with ExecutionTime := execTime }
  else .ok csvRecord

/-- Lines 120-127 of `parseCSVRecord`: the lock wait time, field 5. -/
def parseLockWaitTime (csvRecord : CSVRecord) (r5 : GoString) :
    Except RecordError CSVRecord :=
  if r5 ≠ [] then
    match ParseFloat r5 with
    | .error err => .error ⟨.lockWaitTime, err⟩
    | .ok lockTime => .ok { csvRecord with LockWaitTime := lockTime }
  else .ok csvRecord

/-- Lines 129-136 of `parseCSVRecord`: the rows returned, field 6;
`int(returnRows)` keeps the value, `int` being 64 bits wide. -/
def parseReturnRows (csvRecord : CSVRecord) (r6 : GoString) :
    Except RecordError CSVRecord :=
  if r6 ≠ [] then
    match ParseInt r6 with
    | .error err => .error ⟨.returnRows, err⟩
    | .ok returnRows => .ok { csvRecord with ReturnRows := returnRows }
  else .ok csvRecord

/-- Lines 138-145 of `parseCSVRecord`: the rows scanned, field 7. -/
def parseScanRows (csvRecord : CSVRecord) (r7 : GoString) :
    Except RecordError CSVRecord :=
  if r7 ≠ [] then
    match ParseInt r7 with
    | .error err => .error ⟨.scanRows, err⟩
    | .ok scanRows => .ok { csvRecord with ScanRows := scanRows }
  else .ok csvRecord

/-- Lines 99-109 of `parseCSVRecord`: the struct literal of the string
fields. -/
def stringFields (record : List GoString) : Option CSVRecord :=
  (index record 0).bind fun r0 =>
  (index record 1).bind fun r1 =>
  (index record 2).bind fun r2 =>
  (index record 3).bind fun r3 =>
  (index record 8).bind fun r8 =>
  (index record 9).bind fun r9 =>
  (index record 10).bind fun r10 =>
  (index record 11).bind fun r11 =>
  (index record 12).bind fun r12 =>
  some {
    Timestamp := r0, SQLID := r1, SQLText := r2, DBName := r3, SourceIP := r8,
    Username := r9, ThreadID := r10, TableNames := r11, Tags := r12 }

/-- The Go function `parseCSVRecord` (parsecsv.go, lines 98-148). The outer
`Option` is `none` when an index is out of range (a panic); otherwise the
result is the record or the error of the first field that fails. -/
def parseCSVRecord (record : List GoString) : Option (Except RecordError CSVRecord) :=
  (stringFields record).bind fun csvRecord =>
  (index record 4).bind fun r4 =>
  match parseExecutionTime csvRecord r4 with
  | .error e => some (.error e)
  | .ok csvRecord =>
  (index record 5).bind fun r5 =>
  match parseLockWaitTime csvRecord r5 with
  | .error e => some (.error e)
  | .ok csvRecord =>
  (index record 6).bind fun r6 =>
  match parseReturnRows csvRecord r6 with
  | .error e => some (.error e)
  | .ok csvRecord =>
  (index record 7).bind fun r7 =>
  match parseScanRows csvRecord r7 with
  | .error e => some (.error e)
  | .ok csvRecord => some (.ok csvRecord)

/-! ## `convertToJSON` -/

/-- The Go function `convertToJSON` (parsecsv.go, lines 151-178). -/
def convertToJSON (pf : Platform) (csvRecord : CSVRecord) : Except ParseError LogEntry :=
  match timeParse csvRecord.Timestamp with
  | .error err => .error err
  | .ok timestamp =>
    let sqlType := extractSQLType pf.lowerTable csvRecord.SQLText
    let cleanedSQL := Trim csvRecord.SQLText dquote
    .ok {
      ConnectionID := csvRecord.ThreadID
      QueryTime := F64.toInt64 pf.int64Undef (F64.mul csvRecord.ExecutionTime (F64.ofInt 1000000))
      SQL := cleanedSQL
      RowsSent := csvRecord.ReturnRows
      Username := csvRecord.Username
      SQLType := sqlType
      DBName := csvRecord.DBName
      Timestamp := F64.add (F64.ofInt timestamp.Unix)
        (F64.div (F64.ofInt timestamp.Nanosecond) (F64.ofInt 1000000000))
      Digest := csvRecord.SQLID }

/-! ## The driver loop of `parseCSVLog` -/

/-- Go `json.Marshal` of a `LogEntry`, as far as it can fail: the only value
of these field types that JSON does not encode is a float64 that is an
infinity or a NaN. The text of the line is not modelled; a line is the record
it encodes. -/
def jsonMarshal (e : LogEntry) : Option LogEntry :=
  if e.Timestamp.isFinite then some e else none

/-- The state of the loop: the lines written so far and `recordCount`. -/
structure Driver where
  output : List LogEntry
  recordCount : Int
  deriving DecidableEq

/-- What one pass of the loop did with the result of `reader.Read()`. -/
inductive Outcome where
  | readFailed
  | missColumn
  | parseFailed (e : RecordError)
  | convertFailed (e : ParseError)
  | marshalFailed
  | emitted (line : LogEntry)
  deriving DecidableEq

/-- The body of the loop of `parseCSVLog` (parsecsv.go, lines 54-91) for one
result of `reader.Read()` other than the end of the file: `none` is a read
error. The outcome is `none` when `parseCSVRecord` panics. -/
def processRow (pf : Platform) (read : Option (List GoString)) : Option Outcome :=
  match read with
  | none => some .readFailed
  | some record =>
    if record.length < 13 then some .missColumn
    else
      match parseCSVRecord record with
      | none => none
      | some (.error e) => some (.parseFailed e)
      | some (.ok csvRecord) =>
        match convertToJSON pf csvRecord with
        | .error e => some (.convertFailed e)
        | .ok jsonOutput =>
          match jsonMarshal jsonOutput with
          | none => some .marshalFailed
          | some jsonData => some (.emitted jsonData)

/-- One pass of the loop on the state: a line is written and `recordCount`
goes up by one exactly when the row is emitted; `none` when the program
panics. -/
def step (pf : Platform) (st : Driver) (read : Option (List GoString)) : Option Driver :=
  match processRow pf read with
  | none => none
  | some (.emitted line) => some ⟨st.output ++ [line], st.recordCount + 1⟩
  | some _ => some st

/-- The loop of `parseCSVLog` from state `st` over the results of the
successive `reader.Read()` calls up to the end of the file. -/
def runLoop (pf : Platform) : List (Option (List GoString)) → Driver → Option Driver
  | [], st => some st
  | r :: rs, st =>
    match step pf st r with
    | none => none
    | some st1 => runLoop pf rs st1

/-- The loop of `parseCSVLog` (lines 52-94) on the data rows read after the
header: the lines written and the final `recordCount`. -/
def parseRows (pf : Platform) (rows : List (List GoString)) : Option Driver :=
  runLoop pf (rows.map some) ⟨[], 0⟩

/-- A platform for the examples: no case table beyond ASCII, and the
`int64` of an unrepresentable float64 as on amd64. -/
def examplePlatform : Platform := ⟨id, fun _ => -(2 : Int) ^ 63⟩

/-- A well-formed data row of thirteen fields. -/
def exampleRow : List GoString :=
  ["2023-05-01 10:00:00", "id1", "\"SELECT * FROM t\"", "db", "0.5", "", "3", "10",
   "10.0.0.1", "root", "77", "t", "tag"].map String.toList

/-- The line emitted for `exampleRow`. -/
def exampleEntry : LogEntry :=
  { ConnectionID := "77".toList, QueryTime := 500000, SQL := "SELECT * FROM t".toList,
    RowsSent := 3, Username := "root".toList, SQLType := "select".toList,
    DBName := "db".toList, Timestamp := F64.ofInt 1682935200, Digest := "id1".toList }

/-! ## Definitions used to state the properties -/

/-- The text of field `i` of a row (empty when the row has no such field). -/
def fieldAt (row : List GoString) (i : Nat) : GoString := row.getD i []

/-- Whether a result is an error. -/
def failed {ε α : Type} : Except ε α → Bool
  | .error _ => true
  | .ok _ => false

/-- Some field among 4, 5, 6, 7 is non-empty and does not parse as its numeric
type (float64 for 4 and 5, 64-bit integer for 6 and 7). -/
def hasBadNumber (row : List GoString) : Bool :=
  (fieldAt row 4 ≠ [] ∧ failed (ParseFloat (fieldAt row 4))) ∨
  (fieldAt row 5 ≠ [] ∧ failed (ParseFloat (fieldAt row 5))) ∨
  (fieldAt row 6 ≠ [] ∧ failed (ParseInt (fieldAt row 6))) ∨
  (fieldAt row 7 ≠ [] ∧ failed (ParseInt (fieldAt row 7)))

/-- The first of the fields 4, 5, 6, 7, in this order, that is non-empty and
does not parse as its numeric type. -/
def firstBadField (row : List GoString) : Option NumField :=
  if fieldAt row 4 ≠ [] ∧ failed (ParseFloat (fieldAt row 4)) then some .executionTime
  else if fieldAt row 5 ≠ [] ∧ failed (ParseFloat (fieldAt row 5)) then some .lockWaitTime
  else if fieldAt row 6 ≠ [] ∧ failed (ParseInt (fieldAt row 6)) then some .returnRows
  else if fieldAt row 7 ≠ [] ∧ failed (ParseInt (fieldAt row 7)) then some .scanRows
  else none

/-- The position in the row of a numeric field. -/
def NumField.position : NumField → Nat
  | .executionTime => 4
  | .lockWaitTime => 5
  | .returnRows => 6
  | .scanRows => 7

/-- The value is finite and at most `2^K` in magnitude. -/
def F64.absLe (x : F64) (K : ℤ) : Prop :=
  ∃ s m e, x = F64.fin s m e ∧ e ≤ K ∧ m ≤ 2 ^ (K - e).toNat

/-- The record that `convertToJSON` makes of what `parseCSVRecord` returns for
the row, when both succeed. -/
def rowResult (pf : Platform) (row : List GoString) : Option LogEntry :=
  match parseCSVRecord row with
  | some (.ok r) =>
    match convertToJSON pf r with
    | .ok e => some e
    | .error _ => none
  | _ => none

/-- A row is rejected when it has fewer than 13 fields, when `parseCSVRecord`
returns an error for it, or when `convertToJSON` does. -/
def rejected (pf : Platform) (row : List GoString) : Bool :=
  decide (row.length < 13) ||
  (match parseCSVRecord row with
   | some (.error _) => true
   | some (.ok r) => failed (convertToJSON pf r)
   | none => false)

/-- The record `parseCSVRecord` returns for `exampleRow`. -/
def exampleRecord : CSVRecord :=
  { Timestamp := "2023-05-01 10:00:00".toList, SQLID := "id1".toList,
    SQLText := "\"SELECT * FROM t\"".toList, DBName := "db".toList,
    ExecutionTime := .fin false (2 ^ 52) (-53), LockWaitTime := F64.zero,
    ReturnRows := 3, ScanRows := 10, SourceIP := "10.0.0.1".toList,
    Username := "root".toList, ThreadID := "77".toList, TableNames := "t".toList,
    Tags := "tag".toList }

/-- `exampleRow` with the execution time replaced by `abc`. -/
def badTimeRow : List GoString := exampleRow.set 4 "abc".toList

/-- `exampleRow` with the execution time and the rows returned left empty. -/
def emptyNumbersRow : List GoString := (exampleRow.set 4 []).set 6 []

/-- The first white-space delimited token of a text: what follows the leading
white space, up to the next white space (empty when there is no token). -/
def firstToken (t : GoString) : GoString :=
  (t.dropWhile isSpace).takeWhile (fun c => !isSpace c)

/-- The SQL type as the specification words it: the first token, in lower
case, of the text trimmed of white space, then of double quotes at both ends,
then of white space again. -/
def sqlTypeSpec (tbl : Char → Char) (s : GoString) : GoString :=
  ToLower tbl (firstToken (TrimSpace (Trim (TrimSpace s) dquote)))

/-- The SQL text of the specification's example, with its quotes. -/
def quotedSelect : GoString := "\"SELECT * FROM t\"".toList

/-- The number written by two digits. -/
def num2 (a b : Char) : Nat := digitVal a * 10 + digitVal b

/-- The number written by four digits. -/
def num4 (a b c d : Char) : Nat := ((digitVal a * 10 + digitVal b) * 10 + digitVal c) * 10 + digitVal d

/-- Whether a text has the exact form `YYYY-MM-DD HH:MM:SS`: 19 characters,
decimal digits except for the two hyphens, the blank and the two colons. -/
def strictLayout (v : GoString) : Bool :=
  match v with
  | [y1, y2, y3, y4, a, m1, m2, b, d1, d2, sp, h1, h2, c1, i1, i2, c2, s1, s2] =>
    isDigitChar y1 && isDigitChar y2 && isDigitChar y3 && isDigitChar y4 && a == '-' &&
    isDigitChar m1 && isDigitChar m2 && b == '-' && isDigitChar d1 && isDigitChar d2 &&
    sp == ' ' && isDigitChar h1 && isDigitChar h2 && c1 == ':' && isDigitChar i1 &&
    isDigitChar i2 && c2 == ':' && isDigitChar s1 && isDigitChar s2
  | _ => false

/-- The number written in decimal by the `n` characters of `v` from position
`i` on. -/
def decimalAt (v : GoString) (i n : Nat) : Nat :=
  ((v.drop i).take n).foldl (fun a c => a * 10 + digitVal c) 0

/-- Leap years of the Gregorian calendar. -/
def leapYear (y : Nat) : Bool := y % 4 = 0 ∧ (y % 100 ≠ 0 ∨ y % 400 = 0)

/-- The number of days of year `y`. -/
def daysInYear (y : Nat) : Nat := if leapYear y then 366 else 365

/-- The number of days of month `m` (1 to 12) of year `y`. -/
def daysInMonth (y m : Nat) : Nat :=
  if m = 2 then (if leapYear y then 29 else 28)
  else if m = 4 ∨ m = 6 ∨ m = 9 ∨ m = 11 then 30 else 31

/-- The days from 1 January of year 0 to 1 January of year `y`, counted year
by year. -/
def daysBeforeYear : Nat → Nat
  | 0 => 0
  | y + 1 => daysBeforeYear y + daysInYear y

/-- The days of year `y` before the first of month `m`, counted month by
month. -/
def daysBeforeMonth (y : Nat) : Nat → Nat
  | 0 => 0
  | m + 1 => if m = 0 then 0 else daysBeforeMonth y m + daysInMonth y m

/-- The whole seconds from 1970-01-01 00:00:00 UTC to the date and time given,
taken as UTC, days of 86400 seconds being counted on the calendar. -/
def secondsSinceEpoch (Y M D h mi s : Nat) : Int :=
  ((daysBeforeYear Y + daysBeforeMonth Y M + (D - 1) : Nat) - (daysBeforeYear 1970 : Int)) * 86400
    + (h * 3600 + mi * 60 + s : Nat)

/-- A calendar date with a time of day, the year having four digits. -/
def validDateTime (Y M D h mi s : Nat) : Prop :=
  Y ≤ 9999 ∧ 1 ≤ M ∧ M ≤ 12 ∧ 1 ≤ D ∧ D ≤ daysInMonth Y M ∧ h < 24 ∧ mi < 60 ∧ s < 60

/-- Validity of a date and time is decidable. -/
instance instDecidableValidDateTime (Y M D h mi s : Nat) :
    Decidable (validDateTime Y M D h mi s) := by
  unfold validDateTime
  infer_instance

/-- The rational number a finite float64 stands for. -/
def F64.toRat : F64 → Option ℚ
  | .fin s m e => some ((if s then -1 else 1) * (m : ℚ) * (2 : ℚ) ^ e)
  | _ => none

/-- The end of a text that `time.Parse` accepts after the seconds: nothing, or
a period or a comma followed by one or more digits. -/
def lenientFrac (t : GoString) : Bool :=
  match t with
  | [] => true
  | sep :: ds => (sep == '.' || sep == ',') && !ds.isEmpty && ds.all isDigitChar

/-- The text `:MM:SS` and what may follow it. -/
def lenientTail (t : GoString) : Bool :=
  match t with
  | c1 :: i1 :: i2 :: c2 :: s1 :: s2 :: frac =>
    c1 == ':' && isDigitChar i1 && isDigitChar i2 && c2 == ':' && isDigitChar s1 &&
    isDigitChar s2 && lenientFrac frac
  | _ => false

/-- An hour of one or two digits, and what follows it. -/
def lenientTime (t : GoString) : Bool :=
  match t with
  | h1 :: h2 :: rest =>
    isDigitChar h1 && (if isDigitChar h2 then lenientTail rest else lenientTail (h2 :: rest))
  | _ => false

/-- The texts that can pass `time.Parse` with the layout `2006-01-02 15:04:05`:
`YYYY-MM-DD`, one or more blanks, an hour of one or two digits, `:MM:SS`, and
then nothing or a period or comma followed by digits. -/
def lenientLayout (v : GoString) : Bool :=
  match v with
  | y1 :: y2 :: y3 :: y4 :: a :: m1 :: m2 :: b :: d1 :: d2 :: sp :: rest =>
    isDigitChar y1 && isDigitChar y2 && isDigitChar y3 && isDigitChar y4 && a == '-' &&
    isDigitChar m1 && isDigitChar m2 && b == '-' && isDigitChar d1 && isDigitChar d2 &&
    sp == ' ' && lenientTime (rest.dropWhile (fun c => c = ' '))
  | _ => false

/-- A record whose timestamp has a fractional second. -/
def fracRecord : CSVRecord :=
  { exampleRecord with Timestamp := "2023-05-01 10:00:00.5".toList }

/-- A record whose timestamp has an hour of one digit. -/
def shortHourRecord : CSVRecord :=
  { exampleRecord with Timestamp := "2023-05-01 9:00:00".toList }

/-- A record whose timestamp has two blanks between date and time. -/
def twoBlanksRecord : CSVRecord :=
  { exampleRecord with Timestamp := "2023-05-01  10:00:00".toList }

/-- A record whose timestamp has a `T` for the blank. -/
def isoRecord : CSVRecord := { exampleRecord with Timestamp := "2023-05-01T10:00:00".toList }

/-- The outcome of a run of `parseCSVLog`: `log.Fatal` when the header cannot
be read, a panic, or the end of the loop with the lines written and
`recordCount`. -/
inductive Run where
  | fatal
  | panicked
  | finished (st : Driver)
  deriving DecidableEq

/-- The Go function `parseCSVLog` (parsecsv.go, lines 42-94) on the results of
the successive `reader.Read()` calls up to the end of the file (`none` is a
read error): the first is the header, which is only printed; the others go
through the loop. Opening the files (lines 16-33) is left out. -/
def parseCSVLog (pf : Platform) (reads : List (Option (List GoString))) : Run :=
  match reads with
  | [] => .fatal
  | none :: _ => .fatal
  | some _headers :: rest =>
    match runLoop pf rest ⟨[], 0⟩ with
    | none => .panicked
    | some st => .finished st

/-- `exampleRow` with the execution time `abc` and the rows returned `x`. -/
def twoBadRow : List GoString := (exampleRow.set 4 "abc".toList).set 6 "x".toList

/-- A numeric field that does not make `parseCSVRecord` fail: empty, or
accepted by `strconv.ParseFloat`. -/
def okFloatField (f : GoString) : Bool := f == [] || !failed (ParseFloat f)

/-- A numeric field that does not make `parseCSVRecord` fail: empty, or
accepted by `strconv.ParseInt`. -/
def okIntField (f : GoString) : Bool := f == [] || !failed (ParseInt f)

/-- `exampleRow` with other values in the fields 5, 7, 8, 11 and 12, and one
more field. -/
def otherUnmappedRow : List GoString :=
  ["2023-05-01 10:00:00", "id1", "\"SELECT * FROM t\"", "db", "0.5", "7.25", "3", "",
   "192.168.1.9", "root", "77", "a,b", "", "extra"].map String.toList

/-- The number written in decimal by the digits `ds`, read after `n`. -/
def decimalFrom (n : Nat) (ds : GoString) : Nat :=
  ds.foldl (fun a c => a * 10 + digitVal c) n

/-- The integer written by a text made of an optional `+` or `-` and one or
more decimal digits; `none` for any other text. -/
def signedDecimal (s : GoString) : Option Int :=
  match s with
  | [] => none
  | c :: rest =>
    let ds := if c = '+' ∨ c = '-' then rest else s
    if ds ≠ [] ∧ ds.all isDigitChar = true then
      some (if c = '-' then -(decimalFrom 0 ds : Int) else (decimalFrom 0 ds : Int))
    else none

/-- A text that `strconv.ParseInt(s, 10, 64)` is claimed to accept: a signed
decimal whose value is an int64. -/
def int64Text (s : GoString) : Bool :=
  match signedDecimal s with
  | some z => decide (-(2 : Int) ^ 63 ≤ z ∧ z < (2 : Int) ^ 63)
  | none => false

/-- The texts C16 names as not accepted. -/
def notInt64Texts : List GoString :=
  [" 1", "1 ", "1.5", "1_000", "9223372036854775808", "-9223372036854775809", "+", "0x10"].map
    String.toList

/-- `exampleRow` with the largest and the smallest int64 as rows returned and
rows scanned. -/
def extremeIntsRow : List GoString :=
  (exampleRow.set 6 "+9223372036854775807".toList).set 7 "-9223372036854775808".toList

/-- What the proof of the properties of the SQL type uses of the Unicode
lower-case table: the lower-case form of a code point beyond ASCII is not
changed by `unicode.ToLower`, and is not white space unless the code point
is. -/
def LowerTableOK (tbl : Char → Char) : Prop :=
  ∀ c : Char, 127 < c.toNat →
    toLowerRune tbl (tbl c) = tbl c ∧ (isSpace c = false → isSpace (tbl c) = false)

/-- A rational number truncated toward zero. -/
def truncRat (q : ℚ) : Int := if 0 ≤ q then ⌊q⌋ else ⌈q⌉

/-- The float64 product of an execution time and 1,000,000, truncated toward
zero; `none` when the product is an infinity or a NaN. -/
def truncMicros (x : F64) : Option Int :=
  (F64.toRat (F64.mul x (F64.ofInt 1000000))).map truncRat

/-- `exampleRow` with the execution time `Inf`. -/
def infTimeRow : List GoString := exampleRow.set 4 "Inf".toList

/-- `exampleRow` with an execution time of ten million million seconds. -/
def hugeTimeRow : List GoString := exampleRow.set 4 "10000000000000".toList

/-- The record of `infTimeRow`. -/
def infTimeRecord : CSVRecord := { exampleRecord with ExecutionTime := .inf false }

/-- The record of `hugeTimeRow`. -/
def hugeTimeRecord : CSVRecord :=
  { exampleRecord with ExecutionTime := F64.ofInt 10000000000000 }

/-- `exampleRow` with the execution time `4.1`. -/
def decimalTimeRow : List GoString := exampleRow.set 4 "4.1".toList

/-- The record of `decimalTimeRow`. -/
def decimalTimeRecord : CSVRecord :=
  { exampleRecord with ExecutionTime := F64.round false 41 10 }

/-- `exampleRow` with an execution time of minus 1.9 microseconds. -/
def negTimeRow : List GoString := exampleRow.set 4 "-0.0000019".toList

/-- The record of `negTimeRow`. -/
def negTimeRecord : CSVRecord :=
  { exampleRecord with ExecutionTime := F64.round true 19 10000000 }

/-- The record of a row with an execution time of 1.9 microseconds. -/
def posTimeRecord : CSVRecord :=
  { exampleRecord with ExecutionTime := F64.round false 19 10000000 }

/-- The text `t` is `s` without the characters satisfying `p` at its two ends:
`s = a ++ t ++ b` with `a` and `b` made of such characters only, and `t`
neither starts nor ends with one. -/
def TrimsTo (p : Char → Bool) (s t : GoString) : Prop :=
  ∃ a b : GoString, s = a ++ t ++ b ∧ (∀ c ∈ a, p c = true) ∧ (∀ c ∈ b, p c = true) ∧
    (∀ c, t.head? = some c → p c = false) ∧ (∀ c, t.getLast? = some c → p c = false)

/-- The text `tok` is the first white-space delimited token of `v`:
`v = lead ++ tok ++ rest` with `lead` white space only, no white space in
`tok`, and `rest` empty or starting with white space; `tok` is empty only when
`v` is white space only. -/
def FirstTokenOf (v tok : GoString) : Prop :=
  ∃ lead rest : GoString, v = lead ++ tok ++ rest ∧ (∀ c ∈ lead, isSpace c = true) ∧
    (∀ c ∈ tok, isSpace c = false) ∧ (∀ c, rest.head? = some c → isSpace c = true) ∧
    (tok = [] → rest = [])

/-- The specification's cleaning of an SQL text `s`, stage by stage: `t` is
`s` trimmed of white space, `u` is `t` stripped of the double quotes at both
ends, `v` is `u` trimmed of white space, and `tok` is the first token of `v`. -/
def CleansTo (s t u v tok : GoString) : Prop :=
  TrimsTo isSpace s t ∧ TrimsTo (fun c => c == dquote) t u ∧ TrimsTo isSpace u v ∧
    FirstTokenOf v tok

/-- The quoted text `SELECT 1` with two blanks in front of the opening quote. -/
def spacedSelect : GoString := "  \"SELECT 1\"".toList

/-- A text with white space and quotes at both ends and a quote that is not
at an end once the white space is trimmed. -/
def nestedUpdate : GoString := "\t\" \"Update\nt\" \n".toList

/-! # Theorems -/

/-! ## The model on examples -/

example : F64.round false 1 10 = .fin false 0x1999999999999A (-56) := by decide
example : F64.ofInt 1000000 = .fin false (1000000 * 2 ^ 33) (-33) := by decide
example : F64.toInt64 (fun _ => 0) (F64.mul (F64.round false 29 10) (F64.ofInt 1000000)) =
    2900000 := by decide
example : F64.toInt64 (fun _ => 0) (F64.mul (F64.round true 15 10) (F64.ofInt 1000000)) =
    -1500000 := by decide
example : F64.toInt64 (fun _ => 0) (F64.mul F64.zero (F64.ofInt 1000000)) = 0 := by decide
example : F64.add (F64.ofInt 1682935200) (F64.div (F64.ofInt 0) (F64.ofInt 1000000000)) =
    F64.ofInt 1682935200 := by decide
example : ParseInt "-42".toList = .ok (-42) := by decide
example : ParseInt "9223372036854775807".toList = .ok 9223372036854775807 := by decide
example : ParseInt "9223372036854775808".toList = .error ⟨"ParseInt", "9223372036854775808".toList, .ErrRange⟩ := by decide
example : ParseInt "-9223372036854775808".toList = .ok (-9223372036854775808) := by decide
example : ParseInt "1_0".toList = .error ⟨"ParseInt", "1_0".toList, .ErrSyntax⟩ := by decide
example : ParseFloat "abc".toList = .error ⟨"ParseFloat", "abc".toList, .ErrSyntax⟩ := by decide
example : ParseFloat "0.1".toList = .ok (.fin false 0x1999999999999A (-56)) := by decide
example : ParseFloat "1_0.5e-1".toList = ParseFloat "1.05".toList := by decide
example : ParseFloat "0x1p-2".toList = ParseFloat "0.25".toList := by decide
example : ParseFloat "-Infinity".toList = .ok (.inf true) := by decide
example : ParseFloat "nan".toList = .ok .nan := by decide
example : ParseFloat "1e".toList = .error ⟨"ParseFloat", "1e".toList, .ErrSyntax⟩ := by decide
example : ParseFloat " 1".toList = .error ⟨"ParseFloat", " 1".toList, .ErrSyntax⟩ := by decide
example : timeParse "2023-05-01 10:00:00".toList = .ok ⟨1682935200, 0⟩ := by decide
example : timeParse "1970-01-01 00:00:00".toList = .ok ⟨0, 0⟩ := by decide
example : timeParse "0000-01-01 00:00:00".toList = .ok ⟨-62167219200, 0⟩ := by decide
example : timeParse "9999-12-31 23:59:59".toList = .ok ⟨253402300799, 0⟩ := by decide
example : timeParse "2023-05-01 10:00:00.25".toList = .ok ⟨1682935200, 250000000⟩ := by decide
example : timeParse "2023-05-01   9:00:00".toList = .ok ⟨1682931600, 0⟩ := by decide
example : timeParse "2023-02-29 10:00:00".toList = .error ⟨"", [], ": day out of range"⟩ := by decide
example : timeParse "2023-05-01T10:00:00".toList = .error ⟨" ", "T10:00:00".toList, ""⟩ := by decide
example : timeParse "2023-05-01 10:00:00Z".toList = .error ⟨"", "Z".toList, ": extra text: "⟩ := by decide
example : parseRows examplePlatform [exampleRow, exampleRow.take 12, exampleRow] =
    some ⟨[exampleEntry, exampleEntry], 2⟩ := by decide
example : extractSQLType id "\"SELECT * FROM t\"".toList = "select".toList := by decide
example : Trim "\"SELECT * FROM t\"".toList dquote = "SELECT * FROM t".toList := by decide
example : extractSQLType id "  \t ".toList = [] := by decide

/-! ## float64 rounding -/

theorem bitLenAux_spec (fuel : Nat) : ∀ (n acc : Nat), n ≤ fuel → n ≠ 0 →
    ∃ s, bitLenAux fuel n acc = acc + s + 1 ∧ 2 ^ s ≤ n ∧ n < 2 ^ (s + 1) := by
  induction fuel with
  | zero => intro n acc h h0; omega
  | succ fuel ih =>
    intro n acc h h0
    simp only [bitLenAux, if_neg h0]
    by_cases h2 : n / 2 = 0
    · refine ⟨0, ?_, ?_, ?_⟩
      · cases fuel with
        | zero => simp [bitLenAux]
        | succ f => simp [bitLenAux, h2]
      · simp; omega
      · simp; omega
    · obtain ⟨s, hs, h1, h3⟩ := ih (n / 2) (acc + 1) (by omega) h2
      refine ⟨s + 1, by rw [hs]; omega, ?_, ?_⟩
      · rw [pow_succ]; omega
      · rw [pow_succ] at h3 ⊢; rw [pow_succ]; omega

theorem bitLen_spec (n : Nat) (h0 : n ≠ 0) :
    ∃ s, bitLen n = s + 1 ∧ 2 ^ s ≤ n ∧ n < 2 ^ (s + 1) := by
  obtain ⟨s, hs, h1, h2⟩ := bitLenAux_spec n n 0 (le_refl _) h0
  exact ⟨s, by simpa [bitLen] using hs, h1, h2⟩

theorem two_zpow_split (e : ℤ) :
    (2 : ℚ) ^ e = (2 : ℚ) ^ e.toNat / (2 : ℚ) ^ (-e).toNat := by
  rcases le_total 0 e with h | h
  · have h1 : (-e).toNat = 0 := by omega
    have h2 : e = (e.toNat : ℤ) := by omega
    rw [h1, pow_zero, div_one]
    conv_lhs => rw [h2]
    rw [zpow_natCast]
  · have h1 : e.toNat = 0 := by omega
    have h2 : e = -((-e).toNat : ℤ) := by omega
    rw [h1, pow_zero]
    conv_lhs => rw [h2]
    rw [zpow_neg, zpow_natCast, one_div]

theorem shiftLeft_cast (n j : Nat) : ((n <<< j : Nat) : ℚ) = (n : ℚ) * (2 : ℚ) ^ j := by
  rw [Nat.shiftLeft_eq]; push_cast; ring

theorem ilog2_le (n d : Nat) (hn : n ≠ 0) (hd : d ≠ 0) :
    (2 : ℚ) ^ (F64.ilog2 n d) ≤ (n : ℚ) / d := by
  obtain ⟨sa, ha, ha1, ha2⟩ := bitLen_spec n hn
  obtain ⟨sb, hb, hb1, hb2⟩ := bitLen_spec d hd
  have hdq : (0 : ℚ) < d := by exact_mod_cast Nat.pos_of_ne_zero hd
  unfold F64.ilog2
  simp only []
  split
  · rename_i hc
    rw [two_zpow_split, div_le_div_iff₀ (by positivity) hdq]
    have hc2 : ((d <<< ((bitLen n : ℤ) - (bitLen d : ℤ)).toNat : Nat) : ℚ) ≤
        ((n <<< (-((bitLen n : ℤ) - (bitLen d : ℤ))).toNat : Nat) : ℚ) := by exact_mod_cast hc
    rw [shiftLeft_cast, shiftLeft_cast] at hc2
    linarith
  · rw [ha, hb]
    have e1 : ((sa + 1 : Nat) : ℤ) - ((sb + 1 : Nat) : ℤ) - 1 = (sa : ℤ) - ((sb + 1 : Nat) : ℤ) := by
      push_cast; ring
    rw [e1, zpow_sub₀ (by norm_num), zpow_natCast, zpow_natCast]
    have h1 : (2 : ℚ) ^ sa ≤ n := by exact_mod_cast ha1
    have h2 : (d : ℚ) ≤ 2 ^ (sb + 1) := by exact_mod_cast hb2.le
    exact div_le_div₀ (by positivity) h1 hdq h2

theorem round_le_of_mul_le (num den P : Nat) (hden : 0 < den) (h : num ≤ den * P) :
    (if den < 2 * (num % den) ∨ (2 * (num % den) = den ∧ num / den % 2 = 1)
      then num / den + 1 else num / den) ≤ P := by
  have hq : num / den ≤ P := Nat.div_le_of_le_mul h
  rcases Nat.lt_or_ge (num / den) P with hlt | hge
  · split <;> omega
  · have hqP : num / den = P := le_antisymm hq hge
    have h1 : den * (num / den) + num % den = num := Nat.div_add_mod num den
    rw [hqP] at h1
    have hr : num % den = 0 := by omega
    rw [hr, hqP]
    have : ¬ (den < 2 * 0 ∨ (2 * 0 = den ∧ P % 2 = 1)) := by omega
    rw [if_neg this]

theorem ilog2_le_of_le (n d K : Nat) (hn : n ≠ 0) (hd : d ≠ 0) (h : n ≤ d * 2 ^ K) :
    F64.ilog2 n d ≤ K := by
  have h1 := ilog2_le n d hn hd
  have hdq : (0 : ℚ) < d := by exact_mod_cast Nat.pos_of_ne_zero hd
  have h2 : (n : ℚ) / d ≤ (2 : ℚ) ^ (K : ℤ) := by
    rw [div_le_iff₀ hdq, zpow_natCast]
    have : (n : ℚ) ≤ ((d * 2 ^ K : Nat) : ℚ) := by exact_mod_cast h
    push_cast at this
    linarith
  have h3 := le_trans h1 h2
  exact (zpow_le_zpow_iff_right₀ (by norm_num : (1 : ℚ) < 2)).mp h3

theorem round_absLe (neg : Bool) (n d K : Nat) (hd : d ≠ 0) (hK : K ≤ 1023)
    (h : n ≤ d * 2 ^ K) : (F64.round neg n d).absLe K := by
  unfold F64.round
  by_cases hn : n = 0
  · rw [if_pos hn]
    exact ⟨neg, 0, -1074, rfl, by omega, Nat.zero_le _⟩
  · rw [if_neg hn]
    have hfl := ilog2_le_of_le n d K hn hd h
    simp only []
    generalize F64.ilog2 n d = fl at hfl
    have he1 : max (fl - 52) (-1074) ≤ (K : ℤ) - 52 ∨ max (fl - 52) (-1074) = -1074 := by omega
    have he2 : -1074 ≤ max (fl - 52) (-1074) := le_max_right _ _
    generalize max (fl - 52) (-1074) = e at he1 he2
    have hden : 0 < d <<< e.toNat := by
      rw [Nat.shiftLeft_eq]; exact Nat.mul_pos (Nat.pos_of_ne_zero hd) (by positivity)
    have hnum : n <<< (-e).toNat ≤ d <<< e.toNat * 2 ^ ((K : ℤ) - e).toNat := by
      rw [Nat.shiftLeft_eq, Nat.shiftLeft_eq, Nat.mul_assoc, ← Nat.pow_add]
      have hx : e.toNat + ((K : ℤ) - e).toNat = K + (-e).toNat := by omega
      rw [hx, Nat.pow_add, ← Nat.mul_assoc]
      exact Nat.mul_le_mul_right _ h
    have hm := round_le_of_mul_le _ _ _ hden hnum
    generalize (if d <<< e.toNat < 2 * (n <<< (-e).toNat % d <<< e.toNat) ∨
      (2 * (n <<< (-e).toNat % d <<< e.toNat) = d <<< e.toNat ∧
        n <<< (-e).toNat / d <<< e.toNat % 2 = 1)
      then n <<< (-e).toNat / d <<< e.toNat + 1 else n <<< (-e).toNat / d <<< e.toNat) = m at hm
    by_cases h53 : m = 2 ^ 53
    · simp only [h53, if_true]
      rw [h53] at hm
      have h4 : 53 ≤ ((K : ℤ) - e).toNat := (Nat.pow_le_pow_iff_right (by norm_num)).mp hm
      have h5 : ¬ (971 < e + 1) := by omega
      rw [if_neg h5]
      refine ⟨neg, 2 ^ 52, e + 1, rfl, by omega, ?_⟩
      apply Nat.pow_le_pow_right (by norm_num)
      omega
    · simp only [h53, if_false]
      have h5 : ¬ (971 < e) := by omega
      rw [if_neg h5]
      exact ⟨neg, m, e, rfl, by omega, hm⟩

theorem ilog2_lt_of_lt (n d K : Nat) (hn : n ≠ 0) (hd : d ≠ 0) (h : n < d * 2 ^ K) :
    F64.ilog2 n d < K := by
  have h1 := ilog2_le n d hn hd
  have hdq : (0 : ℚ) < d := by exact_mod_cast Nat.pos_of_ne_zero hd
  have h2 : (n : ℚ) / d < (2 : ℚ) ^ (K : ℤ) := by
    rw [div_lt_iff₀ hdq, zpow_natCast]
    have : (n : ℚ) < ((d * 2 ^ K : Nat) : ℚ) := by exact_mod_cast h
    push_cast at this
    linarith
  have h3 := lt_of_le_of_lt h1 h2
  exact (zpow_lt_zpow_iff_right₀ (by norm_num : (1 : ℚ) < 2)).mp h3

/-- Rounding an integer below `2^53` is exact. -/
theorem round_int_exact (neg : Bool) (n : Nat) (h : n < 2 ^ 53) :
    ∃ e : ℤ, e ≤ 0 ∧ F64.round neg n 1 = F64.fin neg (n * 2 ^ (-e).toNat) e := by
  unfold F64.round
  by_cases hn : n = 0
  · rw [if_pos hn]
    exact ⟨-1074, by omega, by rw [hn, Nat.zero_mul]⟩
  · rw [if_neg hn]
    have hfl := ilog2_lt_of_lt n 1 53 hn (by norm_num) (by simpa using h)
    simp only []
    generalize F64.ilog2 n 1 = fl at hfl
    have he1 : max (fl - 52) (-1074) ≤ 0 := by omega
    generalize max (fl - 52) (-1074) = e at he1
    have ht : e.toNat = 0 := by omega
    simp only [ht, Nat.shiftLeft_zero, Nat.div_one, Nat.mod_one, Nat.mul_zero]
    have hc : ¬ (1 < 0 ∨ (0 = 1 ∧ n <<< (-e).toNat % 2 = 1)) := by omega
    rw [if_neg hc, Nat.shiftLeft_eq]
    by_cases h53 : n * 2 ^ (-e).toNat = 2 ^ 53
    · simp only [h53, if_true]
      have hne : e ≠ 0 := by
        intro h0
        rw [h0] at h53
        simp at h53
        omega
      have h5 : ¬ (971 < e + 1) := by omega
      rw [if_neg h5]
      refine ⟨e + 1, by omega, ?_⟩
      have hx : (-e).toNat = (-(e + 1)).toNat + 1 := by omega
      rw [hx, pow_succ, ← Nat.mul_assoc] at h53
      have : n * 2 ^ (-(e + 1)).toNat = 2 ^ 52 := by omega
      rw [this]
    · simp only [h53, if_false]
      have h5 : ¬ (971 < e) := by omega
      rw [if_neg h5]
      exact ⟨e, he1, rfl⟩

theorem absLe_mono {x : F64} {K L : ℤ} (h : x.absLe K) (hKL : K ≤ L) : x.absLe L := by
  obtain ⟨s, m, e, rfl, he, hm⟩ := h
  refine ⟨s, m, e, rfl, by omega, le_trans hm ?_⟩
  apply Nat.pow_le_pow_right (by norm_num)
  omega

theorem absLe_isFinite {x : F64} {K : ℤ} (h : x.absLe K) : x.isFinite = true := by
  obtain ⟨s, m, e, rfl, -, -⟩ := h
  rfl

theorem natAbs_signed_add_le (s t : Bool) (a b : Nat) :
    ((if s then -(a : ℤ) else (a : ℤ)) + (if t then -(b : ℤ) else (b : ℤ))).natAbs ≤ a + b := by
  cases s <;> cases t <;> simp <;> omega

theorem add_absLe (x y : F64) (K : Nat) (hK : K + 1 ≤ 1023) (hx : x.absLe K) (hy : y.absLe K) :
    (F64.add x y).absLe (K + 1 : Nat) := by
  obtain ⟨s, m, e, rfl, he, hm⟩ := hx
  obtain ⟨t, m2, e2, rfl, he2, hm2⟩ := hy
  have hx1 : (F64.fin s m e).absLe (K + 1 : Nat) :=
    absLe_mono ⟨s, m, e, rfl, he, hm⟩ (by push_cast; omega)
  have hy1 : (F64.fin t m2 e2).absLe (K + 1 : Nat) :=
    absLe_mono ⟨t, m2, e2, rfl, he2, hm2⟩ (by push_cast; omega)
  unfold F64.add
  simp only []
  by_cases h2 : m2 = 0
  · rw [if_pos h2]
    by_cases h1 : m = 0
    · rw [if_pos h1]
      exact ⟨_, 0, -1074, rfl, by omega, Nat.zero_le _⟩
    · rw [if_neg h1]; exact hx1
  · rw [if_neg h2]
    by_cases h1 : m = 0
    · rw [if_pos h1]; exact hy1
    · rw [if_neg h1]
      have h0 : min e e2 ≤ e ∧ min e e2 ≤ e2 := ⟨min_le_left _ _, min_le_right _ _⟩
      generalize min e e2 = e0 at h0
      have hz := natAbs_signed_add_le s t (m <<< (e - e0).toNat) (m2 <<< (e2 - e0).toNat)
      generalize ((if s = true then -((m <<< (e - e0).toNat : Nat) : ℤ)
        else ((m <<< (e - e0).toNat : Nat) : ℤ)) +
        (if t = true then -((m2 <<< (e2 - e0).toNat : Nat) : ℤ)
        else ((m2 <<< (e2 - e0).toNat : Nat) : ℤ))) = z at hz
      by_cases hz0 : z = 0
      · rw [if_pos hz0]
        exact ⟨_, 0, -1074, rfl, by omega, Nat.zero_le _⟩
      · rw [if_neg hz0]
        apply round_absLe _ _ _ _ (by rw [Nat.shiftLeft_eq]; positivity) hK
        have ha : m <<< (e - e0).toNat ≤ 2 ^ ((K : ℤ) - e0).toNat := by
          rw [Nat.shiftLeft_eq]
          calc m * 2 ^ (e - e0).toNat ≤ 2 ^ ((K : ℤ) - e).toNat * 2 ^ (e - e0).toNat :=
                Nat.mul_le_mul_right _ hm
            _ = 2 ^ ((K : ℤ) - e0).toNat := by
                rw [← Nat.pow_add]; congr 1; omega
        have hb : m2 <<< (e2 - e0).toNat ≤ 2 ^ ((K : ℤ) - e0).toNat := by
          rw [Nat.shiftLeft_eq]
          calc m2 * 2 ^ (e2 - e0).toNat ≤ 2 ^ ((K : ℤ) - e2).toNat * 2 ^ (e2 - e0).toNat :=
                Nat.mul_le_mul_right _ hm2
            _ = 2 ^ ((K : ℤ) - e0).toNat := by
                rw [← Nat.pow_add]; congr 1; omega
        rw [Nat.shiftLeft_eq, Nat.shiftLeft_eq, Nat.one_mul, ← Nat.pow_add]
        calc z.natAbs * 2 ^ e0.toNat
            ≤ (2 ^ ((K : ℤ) - e0).toNat + 2 ^ ((K : ℤ) - e0).toNat) * 2 ^ e0.toNat :=
              Nat.mul_le_mul_right _ (by omega)
          _ = 2 ^ ((-e0).toNat + (K + 1)) := by
              rw [← Nat.two_mul, ← pow_succ', ← Nat.pow_add]; congr 1; omega

theorem ofInt_billion :
    F64.ofInt 1000000000 = F64.fin false (1000000000 * 2 ^ 23) (-23) := by decide

theorem div_fin_fin (s t : Bool) (m m2 : Nat) (e e2 : ℤ) (h : m2 ≠ 0) :
    F64.div (F64.fin s m e) (F64.fin t m2 e2) =
      F64.round (xor s t) (m <<< (e - e2).toNat) (m2 <<< (e2 - e).toNat) := by
  simp only [F64.div, if_neg h]

theorem div_billion_absLe (nsec : ℤ) (hn0 : 0 ≤ nsec) (hn1 : nsec ≤ 10 ^ 9) :
    (F64.div (F64.ofInt nsec) (F64.ofInt 1000000000)).absLe (1 : Nat) := by
  obtain ⟨e, he, hr⟩ := round_int_exact (decide (nsec < 0)) nsec.natAbs (by omega)
  rw [ofInt_billion]
  unfold F64.ofInt
  rw [hr]
  have hM : ∃ M : Nat, M = 1000000000 * 2 ^ 23 := ⟨_, rfl⟩
  obtain ⟨M, hM⟩ := hM
  rw [← hM, div_fin_fin _ _ _ _ _ _ (by omega)]
  apply round_absLe _ _ _ 1 (by rw [Nat.shiftLeft_eq]; apply Nat.mul_ne_zero (by omega); positivity)
    (by norm_num)
  rw [Nat.shiftLeft_eq, Nat.shiftLeft_eq]
  have hx : (-e).toNat + (e - -23).toNat = 23 + (-23 - e).toNat := by omega
  have hn : nsec.natAbs ≤ 1000000000 * 2 := by omega
  calc nsec.natAbs * 2 ^ (-e).toNat * 2 ^ (e - -23).toNat
      = nsec.natAbs * 2 ^ (23 + (-23 - e).toNat) := by
        rw [Nat.mul_assoc, ← Nat.pow_add, hx]
    _ ≤ (1000000000 * 2) * 2 ^ (23 + (-23 - e).toNat) := Nat.mul_le_mul_right _ hn
    _ = M * 2 ^ (-23 - e).toNat * 2 ^ 1 := by
        rw [hM, Nat.pow_add]; ring

/-- The float64 computed for the `Timestamp` field is finite. -/
theorem timestamp_isFinite (unix nsec : ℤ) (hu : unix.natAbs ≤ 2 ^ 38) (hn0 : 0 ≤ nsec)
    (hn1 : nsec ≤ 10 ^ 9) :
    (F64.add (F64.ofInt unix)
      (F64.div (F64.ofInt nsec) (F64.ofInt 1000000000))).isFinite = true := by
  have hx : (F64.ofInt unix).absLe (38 : Nat) :=
    round_absLe _ _ 1 38 (by norm_num) (by norm_num) (by omega)
  have hy := div_billion_absLe nsec hn0 hn1
  have h := add_absLe _ _ 38 (by norm_num) hx (absLe_mono hy (by norm_num))
  exact absLe_isFinite h

/-! ## Time parsing -/

theorem digitVal_le {c : Char} (h : isDigitChar c = true) : digitVal c ≤ 9 := by
  simp only [isDigitChar, Bool.and_eq_true, decide_eq_true_eq] at h
  unfold digitVal
  omega

theorem getnum_bound {s : GoString} {f : Bool} {n : ℤ} {rest : GoString}
    (h : getnum s f = some (n, rest)) : 0 ≤ n ∧ n ≤ 99 := by
  unfold getnum at h
  split at h
  · cases h
  · rename_i h0
    have d0 : isDigitChar (s.headD ' ') = true := by
      cases s with
      | nil => simp [isDigit] at h0
      | cons c cs => simpa [isDigit] using h0
    have := digitVal_le d0
    split at h
    · split at h
      · cases h
      · cases h; omega
    · rename_i h1
      have d1 : isDigitChar ((s.drop 1).headD ' ') = true := by
        cases s with
        | nil => simp [isDigit] at h1
        | cons c cs =>
          cases cs with
          | nil => simp [isDigit] at h1
          | cons c2 cs2 => simpa [isDigit] using h1
      have := digitVal_le d1
      cases h; omega

theorem leadingInt_bound : ∀ (s : GoString) (x q : Nat) (rem : GoString),
    leadingInt s x = some (q, rem) → q < (x + 1) * 10 ^ s.length := by
  intro s
  induction s with
  | nil => intro x q rem h; simp [leadingInt] at h; obtain ⟨rfl, -⟩ := h; simp
  | cons c cs ih =>
    intro x q rem h
    unfold leadingInt at h
    split at h
    · cases h; simp only [List.length_cons]
      have : 0 < 10 ^ (cs.length + 1) := by positivity
      nlinarith
    · rename_i hd
      have hd2 : isDigitChar c = true := by simpa using hd
      have := digitVal_le hd2
      split at h
      · cases h
      · split at h
        · cases h
        · have h2 := ih _ _ _ h
          simp only [List.length_cons, pow_succ]
          calc q < (x * 10 + digitVal c + 1) * 10 ^ cs.length := h2
            _ ≤ ((x + 1) * 10) * 10 ^ cs.length := Nat.mul_le_mul_right _ (by omega)
            _ = (x + 1) * (10 ^ cs.length * 10) := by ring

theorem atoi_digit_bound {s : GoString} {y : ℤ} (hd : isDigit s 0 = true)
    (hlen : s.length ≤ 18) (h : atoi s = some y) : 0 ≤ y ∧ y < 10 ^ s.length := by
  cases s with
  | nil => simp [isDigit] at hd
  | cons c cs =>
    have hc : isDigitChar c = true := by simpa [isDigit] using hd
    have hc1 : c ≠ '-' := by rintro rfl; revert hc; decide
    have hc2 : c ≠ '+' := by rintro rfl; revert hc; decide
    simp only [atoi, hc1, hc2, decide_False, or_self, if_false] at h
    split at h
    · cases h
    · rename_i q rem hl
      have hb := leadingInt_bound _ _ _ _ hl
      split at h
      · cases h
      · simp only [Bool.false_eq_true, if_false, Option.some.injEq] at h
        have hq : (q : ℤ) < 10 ^ (c :: cs).length := by
          have : q < 10 ^ (c :: cs).length := by simpa using hb
          exact_mod_cast this
        split at h
        · rename_i h63
          exfalso
          have h18 : (10 : ℤ) ^ (c :: cs).length ≤ 10 ^ 18 :=
            pow_le_pow_right₀ (by norm_num) hlen
          rw [h63] at hq
          have : ((2 ^ 63 : Nat) : ℤ) < 10 ^ 18 := lt_of_lt_of_le hq h18
          norm_num at this
        · subst h
          exact ⟨by positivity, hq⟩

theorem parseNanoseconds_bound {value : GoString} {n : Nat} {ns : ℤ}
    (hlen : 2 ≤ value.length) (hd : isDigit value 1 = true) (hn : 2 ≤ n)
    (h : parseNanoseconds value n = some ns) : 0 ≤ ns ∧ ns < 10 ^ 9 := by
  obtain ⟨c0, c1, rest, rfl⟩ : ∃ c0 c1 rest, value = c0 :: c1 :: rest := by
    match value, hlen with
    | c0 :: c1 :: rest, _ => exact ⟨c0, c1, rest, rfl⟩
  obtain ⟨k, rfl⟩ : ∃ k, n = k + 2 := ⟨n - 2, by omega⟩
  have hc1 : isDigitChar c1 = true := by simpa [isDigit] using hd
  unfold parseNanoseconds at h
  simp only [] at h
  split at h
  · cases h
  · rename_i x hx
    cases h
    by_cases h10 : 10 < k + 2
    · simp only [h10, if_true, List.take_succ_cons, List.drop_succ_cons, List.drop_zero] at hx
      have hb := atoi_digit_bound (by simpa [isDigit] using hc1)
        (by simp only [List.length_cons, List.length_take]; omega) hx
      simp only [List.length_cons, List.length_take] at hb
      have h2 : (10 : ℤ) ^ (min 8 (min 8 rest.length) + 1) ≤ 10 ^ 9 :=
        pow_le_pow_right₀ (by norm_num) (by omega)
      constructor
      · have := hb.1; positivity
      · simp only [h10, if_true, Nat.sub_self, pow_zero, mul_one]; omega
    · simp only [h10, if_false, List.take_succ_cons, List.drop_succ_cons, List.drop_zero] at hx
      have hb := atoi_digit_bound (by simpa [isDigit] using hc1)
        (by simp only [List.length_cons, List.length_take]; omega) hx
      simp only [List.length_cons, List.length_take] at hb
      have h2 : (10 : ℤ) ^ (min k rest.length + 1) ≤ 10 ^ (k + 1) :=
        pow_le_pow_right₀ (by norm_num) (by omega)
      constructor
      · have := hb.1; positivity
      · have h3 : x < 10 ^ (k + 1) := lt_of_lt_of_le hb.2 h2
        have h4 : (0 : ℤ) < 10 ^ (10 - (k + 2)) := by positivity
        simp only [h10, if_false]
        calc x * 10 ^ (10 - (k + 2)) < 10 ^ (k + 1) * 10 ^ (10 - (k + 2)) :=
              mul_lt_mul_of_pos_right h3 h4
          _ = 10 ^ 9 := by rw [← pow_add]; congr 1; omega

theorem daysBefore_bounds (m : ℤ) : 0 ≤ daysBefore m ∧ daysBefore m ≤ 365 := by
  unfold daysBefore
  generalize m.toNat = i
  match i with
  | 0 | 1 | 2 | 3 | 4 | 5 | 6 | 7 | 8 | 9 | 10 | 11 | 12 => decide
  | i + 13 => simp

theorem daysIn_le (m year : ℤ) (h1 : 1 ≤ m) (h2 : m ≤ 12) : daysIn m year ≤ 31 := by
  unfold daysIn
  split
  · omega
  · have h : m = 1 ∨ m = 2 ∨ m = 3 ∨ m = 4 ∨ m = 5 ∨ m = 6 ∨ m = 7 ∨ m = 8 ∨ m = 9 ∨
        m = 10 ∨ m = 11 ∨ m = 12 := by omega
    rcases h with h | h | h | h | h | h | h | h | h | h | h | h <;> subst h <;> decide

theorem Date_bounds (year month day hour min sec nsec : ℤ)
    (hy : 0 ≤ year ∧ year ≤ 9999) (hd : 1 ≤ day ∧ day ≤ 31)
    (hh : 0 ≤ hour ∧ hour < 24) (hmi : 0 ≤ min ∧ min < 60) (hs : 0 ≤ sec ∧ sec < 60) :
    (Date year month day hour min sec nsec).Unix.natAbs ≤ 2 ^ 38 ∧
      (Date year month day hour min sec nsec).Nanosecond = nsec := by
  refine ⟨?_, rfl⟩
  have hb := daysBefore_bounds (month - 1)
  unfold Date
  simp only []
  generalize daysBefore (month - 1) = db at hb
  split <;> omega

/-- A time returned by `timeParse` lies in the years 0 to 9999. -/
theorem timeParse_bounds {v : GoString} {t : Time} (h : timeParse v = .ok t) :
    t.Unix.natAbs ≤ 2 ^ 38 ∧ 0 ≤ t.Nanosecond ∧ t.Nanosecond < 10 ^ 9 := by
  unfold timeParse at h
  split at h
  · cases h
  rename_i hlen
  split at h
  · cases h
  rename_i year hyear
  split at h
  · cases h
  split at h
  · cases h
  rename_i month v2 hmonth
  split at h
  · cases h
  rename_i hmr
  split at h
  · cases h
  split at h
  · cases h
  rename_i day v3 hday
  split at h
  · cases h
  split at h
  · cases h
  rename_i hour v4 hhour
  split at h
  · cases h
  rename_i hhr
  split at h
  · cases h
  split at h
  · cases h
  rename_i min v5 hmin
  split at h
  · cases h
  rename_i hmir
  split at h
  · cases h
  split at h
  · cases h
  rename_i sec v6 hsec
  split at h
  · cases h
  rename_i hsr
  split at h
  · cases h
  rename_i nsec v7 hfrac
  split at h
  · cases h
  split at h
  · cases h
  rename_i hdr
  cases h
  have hy := atoi_digit_bound (s := v.take 4) (by
      cases v with
      | nil => simp at hlen
      | cons c cs =>
        have h2 : 3 ≤ cs.length ∧ isDigitChar c = true := by simpa [isDigit] using hlen
        simpa [isDigit] using h2.2) (by simp) hyear
  have hy2 : (10 : ℤ) ^ (v.take 4).length ≤ 10 ^ 4 :=
    pow_le_pow_right₀ (by norm_num) (by simp)
  have hmb := getnum_bound hmonth
  have hdb := getnum_bound hday
  have hhb := getnum_bound hhour
  have hmib := getnum_bound hmin
  have hsb := getnum_bound hsec
  have hdi := daysIn_le month year (by omega) (by omega)
  have hD := Date_bounds year month day hour min sec nsec (by omega) (by omega) (by omega)
    (by omega) (by omega)
  refine ⟨hD.1, ?_⟩
  rw [hD.2]
  unfold fracSecond at hfrac
  split at hfrac
  · rename_i hc
    simp only [] at hfrac
    split at hfrac
    · cases hfrac
    · rename_i ns hns
      cases hfrac
      exact parseNanoseconds_bound hc.1 hc.2.2 (by omega) hns
  · cases hfrac
    norm_num

/-! ## `parseCSVRecord` -/

theorem exists_cons13 (row : List GoString) (h : 13 ≤ row.length) :
    ∃ r0 r1 r2 r3 r4 r5 r6 r7 r8 r9 r10 r11 r12 rest,
      row = r0 :: r1 :: r2 :: r3 :: r4 :: r5 :: r6 :: r7 :: r8 :: r9 :: r10 :: r11 :: r12 :: rest := by
  match row, h with
  | r0 :: r1 :: r2 :: r3 :: r4 :: r5 :: r6 :: r7 :: r8 :: r9 :: r10 :: r11 :: r12 :: rest, _ =>
    exact ⟨r0, r1, r2, r3, r4, r5, r6, r7, r8, r9, r10, r11, r12, rest, rfl⟩

theorem parseCSVRecord_cons13 (r0 r1 r2 r3 r4 r5 r6 r7 r8 r9 r10 r11 r12 : GoString)
    (rest : List GoString) :
    parseCSVRecord (r0 :: r1 :: r2 :: r3 :: r4 :: r5 :: r6 :: r7 :: r8 :: r9 :: r10 :: r11 :: r12 :: rest) =
      some ((parseExecutionTime ({
              Timestamp := r0, SQLID := r1, SQLText := r2, DBName := r3,
              SourceIP := r8, Username := r9, ThreadID := r10, TableNames := r11,
              Tags := r12 } : CSVRecord) r4).bind
            fun c => (parseLockWaitTime c r5).bind fun c => (parseReturnRows c r6).bind
              fun c => parseScanRows c r7) := by
  simp only [parseCSVRecord, stringFields, index, List.get?, Option.bind]
  cases h4 : parseExecutionTime _ r4 with
  | error e => simp [Except.bind]
  | ok c4 =>
    simp only [Except.bind]
    cases h5 : parseLockWaitTime c4 r5 with
    | error e => simp
    | ok c5 =>
      simp only []
      cases h6 : parseReturnRows c5 r6 with
      | error e => simp
      | ok c6 =>
        simp only []
        cases h7 : parseScanRows c6 r7 <;> simp

theorem parseExecutionTime_ok {c c1 : CSVRecord} {r : GoString}
    (h : parseExecutionTime c r = .ok c1) :
    ∃ x, c1 = { c with ExecutionTime := x } ∧
      (if r = [] then x = c.ExecutionTime else ParseFloat r = .ok x) := by
  unfold parseExecutionTime at h
  by_cases e : r = []
  · simp only [e, ne_eq, not_true_eq_false, if_false] at h
    cases h
    exact ⟨c.ExecutionTime, rfl, by simp [e]⟩
  · simp only [e, ne_eq, not_false_eq_true, if_true] at h
    cases hp : ParseFloat r with
    | error err => rw [hp] at h; cases h
    | ok v => rw [hp] at h; cases h; exact ⟨v, rfl, by simp [e]⟩

theorem parseLockWaitTime_ok {c c1 : CSVRecord} {r : GoString}
    (h : parseLockWaitTime c r = .ok c1) :
    ∃ x, c1 = { c with LockWaitTime := x } ∧
      (if r = [] then x = c.LockWaitTime else ParseFloat r = .ok x) := by
  unfold parseLockWaitTime at h
  by_cases e : r = []
  · simp only [e, ne_eq, not_true_eq_false, if_false] at h
    cases h
    exact ⟨c.LockWaitTime, rfl, by simp [e]⟩
  · simp only [e, ne_eq, not_false_eq_true, if_true] at h
    cases hp : ParseFloat r with
    | error err => rw [hp] at h; cases h
    | ok v => rw [hp] at h; cases h; exact ⟨v, rfl, by simp [e]⟩

theorem parseReturnRows_ok {c c1 : CSVRecord} {r : GoString}
    (h : parseReturnRows c r = .ok c1) :
    ∃ x, c1 = { c with ReturnRows := x } ∧
      (if r = [] then x = c.ReturnRows else ParseInt r = .ok x) := by
  unfold parseReturnRows at h
  by_cases e : r = []
  · simp only [e, ne_eq, not_true_eq_false, if_false] at h
    cases h
    exact ⟨c.ReturnRows, rfl, by simp [e]⟩
  · simp only [e, ne_eq, not_false_eq_true, if_true] at h
    cases hp : ParseInt r with
    | error err => rw [hp] at h; cases h
    | ok v => rw [hp] at h; cases h; exact ⟨v, rfl, by simp [e]⟩

theorem parseScanRows_ok {c c1 : CSVRecord} {r : GoString}
    (h : parseScanRows c r = .ok c1) :
    ∃ x, c1 = { c with ScanRows := x } ∧
      (if r = [] then x = c.ScanRows else ParseInt r = .ok x) := by
  unfold parseScanRows at h
  by_cases e : r = []
  · simp only [e, ne_eq, not_true_eq_false, if_false] at h
    cases h
    exact ⟨c.ScanRows, rfl, by simp [e]⟩
  · simp only [e, ne_eq, not_false_eq_true, if_true] at h
    cases hp : ParseInt r with
    | error err => rw [hp] at h; cases h
    | ok v => rw [hp] at h; cases h; exact ⟨v, rfl, by simp [e]⟩

/-- A record returned by `parseCSVRecord` on a row of at least 13 fields. -/
theorem parseCSVRecord_ok_fields (row : List GoString) (h : 13 ≤ row.length) (r : CSVRecord)
    (hr : parseCSVRecord row = some (.ok r)) :
    (row.get? 0 = some r.Timestamp ∧ row.get? 1 = some r.SQLID ∧
      row.get? 2 = some r.SQLText ∧ row.get? 3 = some r.DBName ∧
      row.get? 8 = some r.SourceIP ∧ row.get? 9 = some r.Username ∧
      row.get? 10 = some r.ThreadID ∧ row.get? 11 = some r.TableNames ∧
      row.get? 12 = some r.Tags) ∧
    (if fieldAt row 4 = [] then r.ExecutionTime = F64.zero
      else ParseFloat (fieldAt row 4) = .ok r.ExecutionTime) ∧
    (if fieldAt row 5 = [] then r.LockWaitTime = F64.zero
      else ParseFloat (fieldAt row 5) = .ok r.LockWaitTime) ∧
    (if fieldAt row 6 = [] then r.ReturnRows = 0
      else ParseInt (fieldAt row 6) = .ok r.ReturnRows) ∧
    (if fieldAt row 7 = [] then r.ScanRows = 0
      else ParseInt (fieldAt row 7) = .ok r.ScanRows) := by
  obtain ⟨r0, r1, r2, r3, r4, r5, r6, r7, r8, r9, r10, r11, r12, rest, rfl⟩ := exists_cons13 row h
  rw [parseCSVRecord_cons13] at hr
  simp only [Option.some.injEq] at hr
  cases h4 : parseExecutionTime _ r4 with
  | error e => rw [h4] at hr; cases hr
  | ok c4 =>
    rw [h4] at hr
    cases h5 : parseLockWaitTime c4 r5 with
    | error e => simp only [Except.bind, h5] at hr; cases hr
    | ok c5 =>
      cases h6 : parseReturnRows c5 r6 with
      | error e => simp only [Except.bind, h5, h6] at hr; cases hr
      | ok c6 =>
        simp only [Except.bind, h5, h6] at hr
        obtain ⟨x4, rfl, hx4⟩ := parseExecutionTime_ok h4
        obtain ⟨x5, rfl, hx5⟩ := parseLockWaitTime_ok h5
        obtain ⟨x6, rfl, hx6⟩ := parseReturnRows_ok h6
        obtain ⟨x7, rfl, hx7⟩ := parseScanRows_ok hr
        simp only [fieldAt, List.getD_cons_succ, List.getD_cons_zero, List.get?, true_and,
          and_self]
        exact ⟨hx4, hx5, hx6, hx7⟩

theorem parseExecutionTime_cases (c : CSVRecord) (r : GoString) :
    (¬ (r ≠ [] ∧ failed (ParseFloat r) = true) ∧ ∃ c1, parseExecutionTime c r = .ok c1) ∨
    ((r ≠ [] ∧ failed (ParseFloat r) = true) ∧
      ∃ err, parseExecutionTime c r = .error ⟨.executionTime, err⟩) := by
  unfold parseExecutionTime
  by_cases e : r = []
  · left; simp [e]
  · cases hp : ParseFloat r with
    | error err => right; simp [e, failed]
    | ok v => left; simp [e, failed]

theorem parseLockWaitTime_cases (c : CSVRecord) (r : GoString) :
    (¬ (r ≠ [] ∧ failed (ParseFloat r) = true) ∧ ∃ c1, parseLockWaitTime c r = .ok c1) ∨
    ((r ≠ [] ∧ failed (ParseFloat r) = true) ∧
      ∃ err, parseLockWaitTime c r = .error ⟨.lockWaitTime, err⟩) := by
  unfold parseLockWaitTime
  by_cases e : r = []
  · left; simp [e]
  · cases hp : ParseFloat r with
    | error err => right; simp [e, failed]
    | ok v => left; simp [e, failed]

theorem parseReturnRows_cases (c : CSVRecord) (r : GoString) :
    (¬ (r ≠ [] ∧ failed (ParseInt r) = true) ∧ ∃ c1, parseReturnRows c r = .ok c1) ∨
    ((r ≠ [] ∧ failed (ParseInt r) = true) ∧
      ∃ err, parseReturnRows c r = .error ⟨.returnRows, err⟩) := by
  unfold parseReturnRows
  by_cases e : r = []
  · left; simp [e]
  · cases hp : ParseInt r with
    | error err => right; simp [e, failed]
    | ok v => left; simp [e, failed]

theorem parseScanRows_cases (c : CSVRecord) (r : GoString) :
    (¬ (r ≠ [] ∧ failed (ParseInt r) = true) ∧ ∃ c1, parseScanRows c r = .ok c1) ∨
    ((r ≠ [] ∧ failed (ParseInt r) = true) ∧
      ∃ err, parseScanRows c r = .error ⟨.scanRows, err⟩) := by
  unfold parseScanRows
  by_cases e : r = []
  · left; simp [e]
  · cases hp : ParseInt r with
    | error err => right; simp [e, failed]
    | ok v => left; simp [e, failed]

/-- On a row of at least 13 fields `parseCSVRecord` returns (it does not
panic): an error naming the first bad numeric field, or a record when there
is none. -/
theorem parseCSVRecord_result (row : List GoString) (h : 13 ≤ row.length) :
    (∃ f err, firstBadField row = some f ∧ parseCSVRecord row = some (.error ⟨f, err⟩)) ∨
    (firstBadField row = none ∧ ∃ r, parseCSVRecord row = some (.ok r)) := by
  obtain ⟨r0, r1, r2, r3, r4, r5, r6, r7, r8, r9, r10, r11, r12, rest, rfl⟩ := exists_cons13 row h
  rw [parseCSVRecord_cons13]
  simp only [firstBadField, fieldAt, List.getD_cons_succ, List.getD_cons_zero]
  rcases parseExecutionTime_cases _ r4 with ⟨n4, c4, h4⟩ | ⟨b4, err, h4⟩
  · rw [h4, if_neg n4]
    rcases parseLockWaitTime_cases c4 r5 with ⟨n5, c5, h5⟩ | ⟨b5, err, h5⟩
    · rw [if_neg n5]
      rcases parseReturnRows_cases c5 r6 with ⟨n6, c6, h6⟩ | ⟨b6, err, h6⟩
      · rw [if_neg n6]
        rcases parseScanRows_cases c6 r7 with ⟨n7, c7, h7⟩ | ⟨b7, err, h7⟩
        · rw [if_neg n7]
          right
          exact ⟨rfl, c7, by simp [Except.bind, h5, h6, h7]⟩
        · rw [if_pos b7]
          left
          exact ⟨_, err, rfl, by simp [Except.bind, h5, h6, h7]⟩
      · rw [if_pos b6]
        left
        exact ⟨_, err, rfl, by simp [Except.bind, h5, h6]⟩
    · rw [if_pos b5]
      left
      exact ⟨_, err, rfl, by simp [Except.bind, h5]⟩
  · rw [h4, if_pos b4]
    left
    exact ⟨_, err, rfl, by simp [Except.bind]⟩

theorem hasBadNumber_eq (row : List GoString) :
    hasBadNumber row = (firstBadField row).isSome := by
  unfold hasBadNumber firstBadField
  by_cases b4 : fieldAt row 4 ≠ [] ∧ failed (ParseFloat (fieldAt row 4)) = true
  · simp [b4]
  · by_cases b5 : fieldAt row 5 ≠ [] ∧ failed (ParseFloat (fieldAt row 5)) = true
    · simp [b4, b5]
    · by_cases b6 : fieldAt row 6 ≠ [] ∧ failed (ParseInt (fieldAt row 6)) = true
      · simp [b4, b5, b6]
      · by_cases b7 : fieldAt row 7 ≠ [] ∧ failed (ParseInt (fieldAt row 7)) = true
        · simp [b4, b5, b6, b7]
        · simp [b4, b5, b6, b7]

theorem firstBadField_ne_nil (row : List GoString) (f : NumField)
    (h : firstBadField row = some f) : fieldAt row f.position ≠ [] := by
  unfold firstBadField at h
  split at h
  · cases h; simp_all [NumField.position]
  · split at h
    · cases h; simp_all [NumField.position]
    · split at h
      · cases h; simp_all [NumField.position]
      · split at h
        · cases h; simp_all [NumField.position]
        · cases h

/-! ## The driver loop and the numeric fields -/

theorem convertToJSON_isFinite {pf : Platform} {r : CSVRecord} {e : LogEntry}
    (h : convertToJSON pf r = .ok e) : e.Timestamp.isFinite = true := by
  unfold convertToJSON at h
  split at h
  · cases h
  · rename_i t ht
    cases h
    obtain ⟨h1, h2, h3⟩ := timeParse_bounds ht
    exact timestamp_isFinite _ _ h1 h2 h3.le

theorem jsonMarshal_convertToJSON {pf : Platform} {r : CSVRecord} {e : LogEntry}
    (h : convertToJSON pf r = .ok e) : jsonMarshal e = some e := by
  unfold jsonMarshal
  rw [convertToJSON_isFinite h, if_pos rfl]

/-- What one pass of the loop does with a row that was read. -/
theorem step_row (pf : Platform) (st : Driver) (row : List GoString) :
    (rejected pf row = true ∧ step pf st (some row) = some st) ∨
    (rejected pf row = false ∧ ∃ e, rowResult pf row = some e ∧
      step pf st (some row) = some ⟨st.output ++ [e], st.recordCount + 1⟩) := by
  unfold step processRow rejected rowResult
  by_cases hlen : row.length < 13
  · left; simp [hlen]
  · simp only [hlen, if_false, decide_False, Bool.false_or]
    rcases parseCSVRecord_result row (by omega) with ⟨f, err, -, hp⟩ | ⟨-, r, hp⟩
    · left; simp [hp]
    · rw [hp]
      simp only []
      cases hc : convertToJSON pf r with
      | error e => left; simp [failed]
      | ok e =>
        right
        simp only [failed, jsonMarshal_convertToJSON hc, true_and]
        exact ⟨e, rfl, rfl⟩

theorem runLoop_rows (pf : Platform) (rows : List (List GoString)) : ∀ st : Driver,
    ∃ out, (rows.filter (fun r => !rejected pf r)).map (rowResult pf) = out.map some ∧
      runLoop pf (rows.map some) st =
        some ⟨st.output ++ out, st.recordCount + (out.length : ℤ)⟩ := by
  induction rows with
  | nil => intro st; exact ⟨[], rfl, by simp [runLoop]⟩
  | cons row rows ih =>
    intro st
    rcases step_row pf st row with ⟨hr, hs⟩ | ⟨hr, e, he, hs⟩
    · obtain ⟨out, h1, h2⟩ := ih st
      refine ⟨out, ?_, ?_⟩
      · simpa [List.filter, hr] using h1
      · simp only [List.map_cons, runLoop, hs]; exact h2
    · obtain ⟨out, h1, h2⟩ := ih ⟨st.output ++ [e], st.recordCount + 1⟩
      refine ⟨e :: out, ?_, ?_⟩
      · simp [List.filter, hr, he, h1]
      · simp only [List.map_cons, runLoop, hs, h2, List.append_assoc, List.singleton_append,
          List.length_cons]
        congr 2
        push_cast; ring

theorem filter_length_split {α : Type} (p : α → Bool) (l : List α) :
    (l.filter p).length + (l.filter (fun r => !p r)).length = l.length := by
  induction l with
  | nil => rfl
  | cons r rs ih =>
    cases hr : p r <;> simp [List.filter, hr] <;> omega

/-- C1. For every list of N data rows of which K are rejected (fewer than 13
fields, an error of `parseCSVRecord`, or an error of `convertToJSON`), the loop
of `parseCSVLog` ends with `recordCount = N - K`, which is also the number of
lines written, and the lines are the results of the accepted rows, in the
order of those rows. -/
theorem parseRows_count_and_order (pf : Platform) (rows : List (List GoString)) :
    ∃ st, parseRows pf rows = some st ∧
      st.recordCount = (rows.length : ℤ) - ((rows.filter (rejected pf)).length : ℤ) ∧
      st.recordCount = (st.output.length : ℤ) ∧
      st.output.map some = (rows.filter (fun r => !rejected pf r)).map (rowResult pf) := by
  obtain ⟨out, h1, h2⟩ := runLoop_rows pf rows ⟨[], 0⟩
  refine ⟨_, h2, ?_, by simp, by simpa using h1.symm⟩
  have hlen : out.length = (rows.filter (fun r => !rejected pf r)).length := by
    have := congrArg List.length h1
    simpa using this.symm
  have hsplit := filter_length_split (rejected pf) rows
  simp only [zero_add]
  omega

theorem parseCSVRecord_short (row : List GoString) (h : row.length < 13) :
    parseCSVRecord row = none := by
  have h12 : index row 12 = none := List.get?_eq_none.mpr (by omega)
  unfold parseCSVRecord stringFields
  rw [h12]
  cases index row 0 <;> cases index row 1 <;> cases index row 2 <;> cases index row 3 <;>
    cases index row 8 <;> cases index row 9 <;> cases index row 10 <;>
    cases index row 11 <;> rfl

/-- C2. A row passes the check of the field count exactly when it has at
least 13 fields. For a row with fewer, the pass of the loop ends at that check:
`parseCSVRecord` is not evaluated (it would panic on such a row, and the pass
does not), no line is written and `recordCount` is unchanged. -/
theorem short_row_skipped (pf : Platform) (st : Driver) (row : List GoString) :
    (processRow pf (some row) ≠ some .missColumn ↔ 13 ≤ row.length) ∧
    (row.length < 13 →
      parseCSVRecord row = none ∧ processRow pf (some row) = some .missColumn ∧
      step pf st (some row) = some st) := by
  constructor
  · constructor
    · intro h
      by_contra hlt
      exact h (by simp [processRow, Nat.lt_of_not_le hlt])
    · intro h hp
      have hl : ¬ row.length < 13 := by omega
      unfold processRow at hp
      simp only [hl, if_false] at hp
      split at hp
      · cases hp
      · cases hp
      · split at hp
        · cases hp
        · split at hp <;> cases hp
  · intro h
    exact ⟨parseCSVRecord_short row h, by simp [processRow, h], by simp [step, processRow, h]⟩

/-- C2, at a row of twelve fields. -/
theorem short_row_skipped_witness :
    (exampleRow.take 12).length < 13 ∧
    parseCSVRecord (exampleRow.take 12) = none ∧
    processRow examplePlatform (some (exampleRow.take 12)) = some .missColumn ∧
    step examplePlatform ⟨[], 0⟩ (some (exampleRow.take 12)) = some ⟨[], 0⟩ :=
  ⟨by decide, (short_row_skipped examplePlatform ⟨[], 0⟩ (exampleRow.take 12)).2 (by decide)⟩

theorem parseCSVRecord_exampleRow : parseCSVRecord exampleRow = some (.ok exampleRecord) := by
  decide

/-- C3. A record returned by `parseCSVRecord` for a row of at least 13 fields
has `Timestamp`, `SQLID`, `SQLText`, `DBName`, `SourceIP`, `Username`,
`ThreadID`, `TableNames` and `Tags` equal to the fields 0, 1, 2, 3, 8, 9, 10,
11 and 12 of the row, unchanged. -/
theorem parseCSVRecord_copies_strings (row : List GoString) (r : CSVRecord)
    (h : 13 ≤ row.length) (hr : parseCSVRecord row = some (.ok r)) :
    row.get? 0 = some r.Timestamp ∧ row.get? 1 = some r.SQLID ∧
    row.get? 2 = some r.SQLText ∧ row.get? 3 = some r.DBName ∧
    row.get? 8 = some r.SourceIP ∧ row.get? 9 = some r.Username ∧
    row.get? 10 = some r.ThreadID ∧ row.get? 11 = some r.TableNames ∧
    row.get? 12 = some r.Tags :=
  (parseCSVRecord_ok_fields row h r hr).1

/-- C3, at `exampleRow`. -/
theorem parseCSVRecord_copies_strings_witness :
    exampleRow.get? 0 = some "2023-05-01 10:00:00".toList ∧
    exampleRow.get? 1 = some "id1".toList ∧
    exampleRow.get? 2 = some "\"SELECT * FROM t\"".toList ∧
    exampleRow.get? 3 = some "db".toList ∧
    exampleRow.get? 8 = some "10.0.0.1".toList ∧
    exampleRow.get? 9 = some "root".toList ∧
    exampleRow.get? 10 = some "77".toList ∧
    exampleRow.get? 11 = some "t".toList ∧
    exampleRow.get? 12 = some "tag".toList :=
  parseCSVRecord_copies_strings exampleRow exampleRecord (by decide) parseCSVRecord_exampleRow

theorem step_of_parse_error {pf : Platform} {st : Driver} {row : List GoString}
    {e : RecordError} (h : parseCSVRecord row = some (.error e)) :
    step pf st (some row) = some st ∧ rowResult pf row = none := by
  constructor
  · unfold step processRow
    by_cases hl : row.length < 13
    · simp [hl]
    · simp [hl, h]
  · simp [rowResult, h]

/-- C4. For a row of at least 13 fields, `parseCSVRecord` returns an error
exactly when one of the fields 4 and 5 (float64) and 6 and 7 (64-bit integer)
is non-empty and does not parse as its numeric type. It returns either an
error or a record, never both; on an error the pass of the loop writes no
line and leaves `recordCount` unchanged. An execution time of `abc` is such
an error. -/
theorem parseCSVRecord_error_iff (row : List GoString) (h : 13 ≤ row.length) :
    ((∃ e, parseCSVRecord row = some (.error e)) ↔ hasBadNumber row = true) ∧
    ((∃ r, parseCSVRecord row = some (.ok r)) ↔ hasBadNumber row = false) ∧
    (hasBadNumber row = true → ∀ (pf : Platform) (st : Driver),
      step pf st (some row) = some st ∧ rowResult pf row = none) ∧
    (fieldAt row 4 = "abc".toList →
      ∃ err, parseCSVRecord row = some (.error ⟨.executionTime, err⟩)) := by
  have hres := parseCSVRecord_result row h
  have hb := hasBadNumber_eq row
  refine ⟨?_, ?_, ?_, ?_⟩
  · rcases hres with ⟨f, err, hf, hp⟩ | ⟨hf, r, hp⟩
    · simp [hb, hf, hp]
    · simp [hb, hf, hp]
  · rcases hres with ⟨f, err, hf, hp⟩ | ⟨hf, r, hp⟩
    · simp [hb, hf, hp]
    · simp [hb, hf, hp]
  · intro hbad pf st
    rcases hres with ⟨f, err, hf, hp⟩ | ⟨hf, r, hp⟩
    · exact step_of_parse_error hp
    · rw [hb, hf] at hbad; cases hbad
  · intro h4
    have hfb : firstBadField row = some .executionTime := by
      unfold firstBadField
      rw [h4, if_pos (by decide)]
    rcases hres with ⟨f, err, hf, hp⟩ | ⟨hf, r, hp⟩
    · rw [hfb] at hf; cases hf; exact ⟨err, hp⟩
    · rw [hfb] at hf; cases hf

/-- C4, at a row whose execution time is `abc`. -/
theorem parseCSVRecord_error_iff_witness :
    13 ≤ badTimeRow.length ∧ hasBadNumber badTimeRow = true ∧
    (∃ e, parseCSVRecord badTimeRow = some (.error e)) ∧
    step examplePlatform ⟨[], 0⟩ (some badTimeRow) = some ⟨[], 0⟩ :=
  have h := parseCSVRecord_error_iff badTimeRow (by decide)
  ⟨by decide, by decide, h.1.mpr (by decide),
    (h.2.2.1 (by decide) examplePlatform ⟨[], 0⟩).1⟩

theorem toInt64_zero_times_million (undef : F64 → ℤ) :
    F64.toInt64 undef (F64.mul F64.zero (F64.ofInt 1000000)) = 0 := by
  have h : F64.mul F64.zero (F64.ofInt 1000000) = F64.fin false 0 (-1074) := by decide
  rw [h]
  rfl

/-- C5. For a row of at least 13 fields, an empty field 4, 5, 6 or 7 is never
the cause of an error of `parseCSVRecord`, and in a record it returns the
attribute of an empty field (`ExecutionTime`, `LockWaitTime`, `ReturnRows`,
`ScanRows`) is zero. The line emitted for a row has `QueryTime = 0` when the
execution time is empty and `RowsSent = 0` when the rows returned are. -/
theorem empty_number_is_zero (row : List GoString) (h : 13 ≤ row.length) :
    (∀ e, parseCSVRecord row = some (.error e) → fieldAt row e.field.position ≠ []) ∧
    (∀ r, parseCSVRecord row = some (.ok r) →
      (fieldAt row 4 = [] → r.ExecutionTime = F64.zero) ∧
      (fieldAt row 5 = [] → r.LockWaitTime = F64.zero) ∧
      (fieldAt row 6 = [] → r.ReturnRows = 0) ∧
      (fieldAt row 7 = [] → r.ScanRows = 0)) ∧
    (∀ pf e, rowResult pf row = some e →
      (fieldAt row 4 = [] → e.QueryTime = 0) ∧ (fieldAt row 6 = [] → e.RowsSent = 0)) := by
  have key : ∀ r, parseCSVRecord row = some (.ok r) →
      (fieldAt row 4 = [] → r.ExecutionTime = F64.zero) ∧
      (fieldAt row 5 = [] → r.LockWaitTime = F64.zero) ∧
      (fieldAt row 6 = [] → r.ReturnRows = 0) ∧
      (fieldAt row 7 = [] → r.ScanRows = 0) := by
    intro r hr
    obtain ⟨-, h4, h5, h6, h7⟩ := parseCSVRecord_ok_fields row h r hr
    exact ⟨fun e => by rw [if_pos e] at h4; exact h4, fun e => by rw [if_pos e] at h5; exact h5,
      fun e => by rw [if_pos e] at h6; exact h6, fun e => by rw [if_pos e] at h7; exact h7⟩
  refine ⟨?_, key, ?_⟩
  · intro e he
    rcases parseCSVRecord_result row h with ⟨f, err, hf, hp⟩ | ⟨hf, r, hp⟩
    · rw [hp] at he
      cases he
      exact firstBadField_ne_nil row f hf
    · rw [hp] at he; cases he
  · intro pf e he
    unfold rowResult at he
    split at he
    · rename_i r hr
      split at he
      · rename_i e2 hc
        cases he
        obtain ⟨h4, -, h6, -⟩ := key r hr
        unfold convertToJSON at hc
        split at hc
        · cases hc
        · cases hc
          exact ⟨fun e4 => by
            simp only [h4 e4]
            exact toInt64_zero_times_million _, fun e6 => h6 e6⟩
      · cases he
    · cases he

/-- C5, at a row whose execution time and rows returned are empty. -/
theorem empty_number_is_zero_witness :
    13 ≤ emptyNumbersRow.length ∧
    ∃ e, rowResult examplePlatform emptyNumbersRow = some e ∧ e.QueryTime = 0 ∧
      e.RowsSent = 0 :=
  have h := (empty_number_is_zero emptyNumbersRow (by decide)).2.2 examplePlatform
    { exampleEntry with QueryTime := 0, RowsSent := 0 } (by decide)
  ⟨by decide, _, by decide, h.1 (by decide), h.2 (by decide)⟩

/-! ## The SQL type and the cleaned SQL -/

theorem fieldsLoop_head_cons (s : GoString) : ∀ cur : GoString, cur ≠ [] →
    (fieldsLoop s cur).head? = some (cur.reverse ++ s.takeWhile (fun c => !isSpace c)) := by
  induction s with
  | nil =>
    intro cur h
    cases cur with
    | nil => exact absurd rfl h
    | cons a as => simp [fieldsLoop]
  | cons c cs ih =>
    intro cur h
    cases cur with
    | nil => exact absurd rfl h
    | cons a as =>
      by_cases hc : isSpace c = true
      · simp [fieldsLoop, hc, List.takeWhile]
      · have hc2 : isSpace c = false := by simpa using hc
        simp only [fieldsLoop, hc2, Bool.false_eq_true, if_false]
        rw [ih (c :: a :: as) (by simp)]
        simp [List.takeWhile, hc2]

theorem fieldsLoop_head_nil (s : GoString) :
    (fieldsLoop s []).head? =
      if s.dropWhile isSpace = [] then none else some (firstToken s) := by
  induction s with
  | nil => simp [fieldsLoop]
  | cons c cs ih =>
    by_cases hc : isSpace c = true
    · simp only [fieldsLoop, hc, if_true, List.isEmpty_nil, ih, firstToken, List.dropWhile]
    · have hc2 : isSpace c = false := by simpa using hc
      simp only [fieldsLoop, hc2, Bool.false_eq_true, if_false]
      rw [fieldsLoop_head_cons cs [c] (by simp)]
      simp [firstToken, List.dropWhile, List.takeWhile, hc2]

theorem extractSQLType_eq_spec (tbl : Char → Char) (s : GoString) :
    extractSQLType tbl s = sqlTypeSpec tbl s := by
  unfold extractSQLType sqlTypeSpec
  by_cases hs : s = []
  · subst hs; rfl
  · rw [if_neg hs]
    simp only []
    have h := fieldsLoop_head_nil (TrimSpace (Trim (TrimSpace s) dquote))
    unfold Fields
    cases hf : fieldsLoop (TrimSpace (Trim (TrimSpace s) dquote)) [] with
    | nil =>
      rw [hf] at h
      simp only [List.head?_nil] at h
      split at h
      · rename_i hd
        simp [firstToken, hd, ToLower]
      · cases h
    | cons w ws =>
      rw [hf] at h
      simp only [List.head?_cons] at h
      split at h
      · cases h
      · cases h; rfl

theorem convertToJSON_ok_fields {pf : Platform} {r : CSVRecord} {e : LogEntry}
    (h : convertToJSON pf r = .ok e) :
    (∃ t, timeParse r.Timestamp = .ok t) ∧
    e.SQLType = extractSQLType pf.lowerTable r.SQLText ∧ e.SQL = Trim r.SQLText dquote := by
  unfold convertToJSON at h
  split at h
  · cases h
  · rename_i t ht
    cases h
    exact ⟨⟨t, ht⟩, rfl, rfl⟩

theorem convertToJSON_of_timeParse (pf : Platform) (r : CSVRecord) {t : Time}
    (h : timeParse r.Timestamp = .ok t) :
    ∃ e, convertToJSON pf r = .ok e ∧ jsonMarshal e = some e := by
  have h2 : ∃ e, convertToJSON pf r = .ok e := by
    unfold convertToJSON
    rw [h]
    exact ⟨_, rfl⟩
  obtain ⟨e, he⟩ := h2
  exact ⟨e, he, jsonMarshal_convertToJSON he⟩

theorem convertToJSON_exampleRecord :
    convertToJSON examplePlatform exampleRecord = .ok exampleEntry := by decide

theorem TrimSpace_of_all_space {s : GoString} (h : ∀ c ∈ s, isSpace c = true) :
    TrimSpace s = [] := by
  unfold TrimSpace
  rw [List.dropWhile_eq_nil_iff.mpr h]
  rfl

/-- C9. For every SQL text that is empty or made of white space only,
`extractSQLType` returns the empty string, and a record with such a text and a
timestamp that parses is converted and encoded without error, with
`SQLType` empty. -/
theorem blank_sql_has_empty_type (pf : Platform) (s : GoString)
    (h : ∀ c ∈ s, isSpace c = true) :
    extractSQLType pf.lowerTable s = [] ∧
    (∀ (r : CSVRecord) (t : Time), r.SQLText = s → timeParse r.Timestamp = .ok t →
      ∃ e, convertToJSON pf r = .ok e ∧ jsonMarshal e = some e ∧ e.SQLType = []) := by
  have h1 : extractSQLType pf.lowerTable s = [] := by
    rw [extractSQLType_eq_spec]
    unfold sqlTypeSpec
    rw [TrimSpace_of_all_space h]
    rfl
  refine ⟨h1, ?_⟩
  intro r t hr ht
  obtain ⟨e, he, hm⟩ := convertToJSON_of_timeParse pf r ht
  refine ⟨e, he, hm, ?_⟩
  rw [(convertToJSON_ok_fields he).2.1, hr, h1]

/-- C9, at a text of blanks and a tab. -/
theorem blank_sql_has_empty_type_witness :
    extractSQLType examplePlatform.lowerTable "  \t ".toList = [] :=
  (blank_sql_has_empty_type examplePlatform "  \t ".toList (by decide)).1

theorem rdropWhile_append_rtakeWhile {α : Type} (p : α → Bool) (l : List α) :
    l.rdropWhile p ++ l.rtakeWhile p = l := by
  unfold List.rdropWhile List.rtakeWhile
  rw [← List.reverse_append, List.takeWhile_append_dropWhile, List.reverse_reverse]

theorem head?_dropWhile_ne {α : Type} (p : α → Bool) (l : List α) (x : α) (hx : p x = true) :
    (l.dropWhile p).head? ≠ some x := by
  intro h
  have := List.head?_dropWhile_not p l
  rw [h] at this
  simp only [] at this
  rw [hx] at this
  cases this

theorem getLast?_dropWhile_rdropWhile_ne {α : Type} (p : α → Bool) (l : List α) (x : α)
    (hx : p x = true) : ((l.rdropWhile p).dropWhile p).getLast? ≠ some x := by
  intro h
  have hne : (l.rdropWhile p).dropWhile p ≠ [] := by
    intro h0; rw [h0] at h; cases h
  have hsplit := List.takeWhile_append_dropWhile p (l.rdropWhile p)
  have hne2 : l.rdropWhile p ≠ [] := by
    intro h0; rw [h0] at hne; exact hne rfl
  have hlast := List.rdropWhile_last_not p l hne2
  have h3 : (l.rdropWhile p).getLast? = some x := by
    rw [← hsplit, List.getLast?_append, h]
    rfl
  rw [List.getLast?_eq_getLast _ hne2] at h3
  cases h3
  exact hlast hx

/-- C10. The `SQL` of a record made by `convertToJSON` is the `SQLText` without
its leading and its trailing double quotes: `SQLText = q1 ++ SQL ++ q2` with
`q1` and `q2` made of double quotes only, and `SQL` neither starts nor ends
with a double quote. Nothing else is removed or changed. -/
theorem cleaned_sql_strips_quotes (pf : Platform) (r : CSVRecord) (e : LogEntry)
    (h : convertToJSON pf r = .ok e) :
    ∃ q1 q2 : GoString, (∀ c ∈ q1, c = dquote) ∧ (∀ c ∈ q2, c = dquote) ∧
      r.SQLText = q1 ++ e.SQL ++ q2 ∧
      e.SQL.head? ≠ some dquote ∧ e.SQL.getLast? ≠ some dquote := by
  obtain ⟨-, -, h2⟩ := convertToJSON_ok_fields h
  rw [h2]
  unfold Trim trimLeftByte trimRightByte
  refine ⟨(r.SQLText.rdropWhile (fun x => x == dquote)).takeWhile (fun x => x == dquote),
    r.SQLText.rtakeWhile (fun x => x == dquote), ?_, ?_, ?_, ?_, ?_⟩
  · intro c hc
    simpa using List.mem_takeWhile_imp hc
  · intro c hc
    simpa using List.mem_rtakeWhile_imp hc
  · rw [List.takeWhile_append_dropWhile, rdropWhile_append_rtakeWhile]
  · exact head?_dropWhile_ne _ _ _ (by simp)
  · exact getLast?_dropWhile_rdropWhile_ne _ _ _ (by simp)

/-- C10, at the record of `exampleRow`. -/
theorem cleaned_sql_strips_quotes_witness :
    ∃ q1 q2 : GoString, (∀ c ∈ q1, c = dquote) ∧ (∀ c ∈ q2, c = dquote) ∧
      exampleRecord.SQLText = q1 ++ exampleEntry.SQL ++ q2 ∧
      exampleEntry.SQL.head? ≠ some dquote ∧ exampleEntry.SQL.getLast? ≠ some dquote :=
  cleaned_sql_strips_quotes examplePlatform exampleRecord exampleEntry
    convertToJSON_exampleRecord

/-! ## The timestamp -/

theorem digit_ne {c : Char} (h : isDigitChar c = true) :
    c ≠ '-' ∧ c ≠ '+' ∧ c ≠ ' ' ∧ c ≠ ':' ∧ c ≠ '.' ∧ c ≠ ',' := by
  refine ⟨?_, ?_, ?_, ?_, ?_, ?_⟩ <;> (rintro rfl; revert h; decide)

theorem atoi_four {a b c d : Char} (ha : isDigitChar a = true) (hb : isDigitChar b = true)
    (hc : isDigitChar c = true) (hd : isDigitChar d = true) :
    atoi [a, b, c, d] = some (num4 a b c d : ℤ) := by
  have h1 := digitVal_le ha
  have h2 := digitVal_le hb
  have h3 := digitVal_le hc
  have h4 := digitVal_le hd
  have n1 := (digit_ne ha).1
  have n2 := (digit_ne ha).2.1
  have e1 : ¬ (2 ^ 63 / 10 < 0) := by norm_num
  have e2 : ¬ (2 ^ 63 < digitVal a) := by norm_num; omega
  have e3 : ¬ (2 ^ 63 / 10 < digitVal a) := by norm_num; omega
  have e4 : ¬ (2 ^ 63 < (digitVal a) * 10 + digitVal b) := by norm_num; omega
  have e5 : ¬ (2 ^ 63 / 10 < (digitVal a) * 10 + digitVal b) := by norm_num; omega
  have e6 : ¬ (2 ^ 63 < ((digitVal a) * 10 + digitVal b) * 10 + digitVal c) := by
    norm_num; omega
  have e7 : ¬ (2 ^ 63 / 10 < ((digitVal a) * 10 + digitVal b) * 10 + digitVal c) := by
    norm_num; omega
  have e8 : ¬ (2 ^ 63 < (((digitVal a) * 10 + digitVal b) * 10 + digitVal c) * 10
      + digitVal d) := by norm_num; omega
  have e9 : (((digitVal a) * 10 + digitVal b) * 10 + digitVal c) * 10 + digitVal d
      ≠ 2 ^ 63 := by norm_num; omega
  simp only [atoi, leadingInt, ha, hb, hc, hd, n1, n2, e1, e2, e3, e4, e5, e6, e7, e8, e9,
    not_true_eq_false, not_false_eq_true, if_true, if_false, decide_False, or_self, ne_eq,
    Bool.false_eq_true, num4, Nat.zero_mul, Nat.zero_add]

theorem getnum_two {a b : Char} (rest : GoString) (f : Bool) (ha : isDigitChar a = true)
    (hb : isDigitChar b = true) :
    getnum (a :: b :: rest) f = some ((num2 a b : ℤ), rest) := by
  simp [getnum, isDigit, ha, hb, num2]

theorem skip_char (c : Char) (rest : GoString) (hc : c ≠ ' ') :
    skip (c :: rest) [c] = .ok rest := by
  simp [skip, skipLoop, hc]

theorem skip_blank {a : Char} (rest : GoString) (ha : isDigitChar a = true) :
    skip (' ' :: a :: rest) [' '] = .ok (a :: rest) := by
  have h := (digit_ne ha).2.2.1
  simp [skip, skipLoop, cutspace, List.dropWhile, h]

theorem fracSecond_nil : fracSecond [] = some (0, []) := by
  simp [fracSecond]

/-- `timeParse` on a text of the exact form `YYYY-MM-DD HH:MM:SS`. -/
theorem timeParse_strict {y1 y2 y3 y4 m1 m2 d1 d2 h1 h2 i1 i2 s1 s2 : Char}
    (hy1 : isDigitChar y1 = true) (hy2 : isDigitChar y2 = true) (hy3 : isDigitChar y3 = true)
    (hy4 : isDigitChar y4 = true) (hm1 : isDigitChar m1 = true) (hm2 : isDigitChar m2 = true)
    (hd1 : isDigitChar d1 = true) (hd2 : isDigitChar d2 = true) (hh1 : isDigitChar h1 = true)
    (hh2 : isDigitChar h2 = true) (hi1 : isDigitChar i1 = true) (hi2 : isDigitChar i2 = true)
    (hs1 : isDigitChar s1 = true) (hs2 : isDigitChar s2 = true)
    (hmo : 1 ≤ num2 m1 m2 ∧ num2 m1 m2 ≤ 12)
    (hday : 1 ≤ num2 d1 d2 ∧ (num2 d1 d2 : ℤ) ≤ daysIn (num2 m1 m2) (num4 y1 y2 y3 y4))
    (hh : num2 h1 h2 < 24) (hmi : num2 i1 i2 < 60) (hs : num2 s1 s2 < 60) :
    timeParse [y1, y2, y3, y4, '-', m1, m2, '-', d1, d2, ' ', h1, h2, ':', i1, i2, ':', s1, s2] =
      .ok (Date (num4 y1 y2 y3 y4) (num2 m1 m2) (num2 d1 d2) (num2 h1 h2) (num2 i1 i2)
        (num2 s1 s2) 0) := by
  have c1 : ¬ ((num2 m1 m2 : ℤ) ≤ 0 ∨ 12 < (num2 m1 m2 : ℤ)) := by omega
  have c2 : ¬ ((num2 h1 h2 : ℤ) < 0 ∨ 24 ≤ (num2 h1 h2 : ℤ)) := by omega
  have c3 : ¬ ((num2 i1 i2 : ℤ) < 0 ∨ 60 ≤ (num2 i1 i2 : ℤ)) := by omega
  have c4 : ¬ ((num2 s1 s2 : ℤ) < 0 ∨ 60 ≤ (num2 s1 s2 : ℤ)) := by omega
  have c5 : ¬ ((num2 d1 d2 : ℤ) < 1 ∨
      daysIn (num2 m1 m2) (num4 y1 y2 y3 y4) < (num2 d1 d2 : ℤ)) := by omega
  have c6 : ¬ ((19 < 4) ∨ ¬ isDigit [y1, y2, y3, y4, '-', m1, m2, '-', d1, d2, ' ', h1, h2,
      ':', i1, i2, ':', s1, s2] 0 = true) := by simp [isDigit, hy1]
  unfold timeParse
  simp only [List.length_cons, List.length_nil, List.length_singleton]
  rw [if_neg (by simpa using c6)]
  simp only [List.take, List.drop, atoi_four hy1 hy2 hy3 hy4, String.toList,
    skip_char '-' _ (by decide), getnum_two _ _ hm1 hm2, if_neg c1, getnum_two _ _ hd1 hd2,
    skip_blank _ hh1, getnum_two _ _ hh1 hh2, if_neg c2, skip_char ':' _ (by decide),
    getnum_two _ _ hi1 hi2, if_neg c3, getnum_two _ _ hs1 hs2, if_neg c4, fracSecond_nil,
    List.length_nil, ne_eq, not_true_eq_false, if_false, if_neg c5]

theorem daysBeforeYear_closed (y : Nat) :
    (daysBeforeYear y : ℤ) =
      365 * ((y : ℤ) - 1) + ((y : ℤ) - 1) / 4 - ((y : ℤ) - 1) / 100 + ((y : ℤ) - 1) / 400 + 366 := by
  induction y with
  | zero => decide
  | succ y ih =>
    simp only [daysBeforeYear, daysInYear, leapYear]
    push_cast
    rw [ih]
    split <;> rename_i hl <;> simp only [decide_eq_true_eq] at hl <;> omega

theorem daysBeforeYear_1970 : (daysBeforeYear 1970 : ℤ) = 719528 := by
  rw [daysBeforeYear_closed]; norm_num

theorem isLeap_cast (y : Nat) : isLeap (y : ℤ) = leapYear y := by
  unfold isLeap leapYear
  congr 1
  apply propext
  constructor <;> intro h <;> omega

theorem daysIn_cast (y m : Nat) (h1 : 1 ≤ m) (h2 : m ≤ 12) :
    daysIn (m : ℤ) (y : ℤ) = (daysInMonth y m : ℤ) := by
  unfold daysIn daysInMonth
  rw [isLeap_cast]
  have h : m = 1 ∨ m = 2 ∨ m = 3 ∨ m = 4 ∨ m = 5 ∨ m = 6 ∨ m = 7 ∨ m = 8 ∨ m = 9 ∨
      m = 10 ∨ m = 11 ∨ m = 12 := by omega
  rcases h with h | h | h | h | h | h | h | h | h | h | h | h <;> subst h <;>
    cases leapYear y <;> decide

theorem daysBeforeMonth_cast (y m : Nat) (h1 : 1 ≤ m) (h2 : m ≤ 12) :
    (daysBeforeMonth y m : ℤ) =
      daysBefore ((m : ℤ) - 1) + (if isLeap (y : ℤ) = true ∧ 3 ≤ (m : ℤ) then 1 else 0) := by
  rw [isLeap_cast]
  have h : m = 1 ∨ m = 2 ∨ m = 3 ∨ m = 4 ∨ m = 5 ∨ m = 6 ∨ m = 7 ∨ m = 8 ∨ m = 9 ∨
      m = 10 ∨ m = 11 ∨ m = 12 := by omega
  rcases h with h | h | h | h | h | h | h | h | h | h | h | h <;> subst h <;>
    cases hl : leapYear y <;> simp [daysBeforeMonth, daysInMonth, hl, daysBefore]

/-- `time.Date` counts the seconds of the calendar. -/
theorem Date_eq_secondsSinceEpoch (Y M D h mi s : Nat) (hv : validDateTime Y M D h mi s) :
    (Date Y M D h mi s 0).Unix = secondsSinceEpoch Y M D h mi s := by
  obtain ⟨-, hm1, hm2, hd1, -, -, -, -⟩ := hv
  unfold Date secondsSinceEpoch
  simp only []
  have hb := daysBeforeMonth_cast Y M hm1 hm2
  have hy := daysBeforeYear_closed Y
  rw [daysBeforeYear_1970]
  push_cast
  rw [hy, hb, Nat.cast_sub hd1]
  push_cast
  split <;> ring

theorem strictLayout_inv {v : GoString} (h : strictLayout v = true) :
    ∃ y1 y2 y3 y4 m1 m2 d1 d2 h1 h2 i1 i2 s1 s2 : Char,
      v = [y1, y2, y3, y4, '-', m1, m2, '-', d1, d2, ' ', h1, h2, ':', i1, i2, ':', s1, s2] ∧
      isDigitChar y1 = true ∧ isDigitChar y2 = true ∧ isDigitChar y3 = true ∧
      isDigitChar y4 = true ∧ isDigitChar m1 = true ∧ isDigitChar m2 = true ∧
      isDigitChar d1 = true ∧ isDigitChar d2 = true ∧ isDigitChar h1 = true ∧
      isDigitChar h2 = true ∧ isDigitChar i1 = true ∧ isDigitChar i2 = true ∧
      isDigitChar s1 = true ∧ isDigitChar s2 = true := by
  unfold strictLayout at h
  split at h
  · rename_i y1 y2 y3 y4 a m1 m2 b d1 d2 sp h1 h2 c1 i1 i2 c2 s1 s2
    simp only [Bool.and_eq_true, beq_iff_eq] at h
    obtain ⟨⟨⟨⟨⟨⟨⟨⟨⟨⟨⟨⟨⟨⟨⟨⟨⟨⟨e1, e2⟩, e3⟩, e4⟩, rfl⟩, e5⟩, e6⟩, rfl⟩, e7⟩, e8⟩, rfl⟩, e9⟩, e10⟩,
      rfl⟩, e11⟩, e12⟩, rfl⟩, e13⟩, e14⟩ := h
    exact ⟨y1, y2, y3, y4, m1, m2, d1, d2, h1, h2, i1, i2, s1, s2, rfl, e1, e2, e3, e4, e5, e6,
      e7, e8, e9, e10, e11, e12, e13, e14⟩
  · cases h

theorem ofInt_toRat (z : ℤ) (h : z.natAbs < 2 ^ 53) : (F64.ofInt z).toRat = some (z : ℚ) := by
  obtain ⟨e, he, hr⟩ := round_int_exact (decide (z < 0)) z.natAbs h
  unfold F64.ofInt
  rw [hr]
  unfold F64.toRat
  simp only [Option.some.injEq]
  have h2 : (2 : ℚ) ^ e = ((2 : ℚ) ^ (-e).toNat)⁻¹ := by
    have : e = -((-e).toNat : ℤ) := by omega
    conv_lhs => rw [this]
    rw [zpow_neg, zpow_natCast]
  rw [h2]
  push_cast
  have h3 : ((2 : ℚ) ^ (-e).toNat) ≠ 0 := by positivity
  have h4 : ((z.natAbs : ℤ) : ℚ) = if z < 0 then -(z : ℚ) else (z : ℚ) := by
    split
    · rw [← Int.cast_neg]; congr 1; omega
    · congr 1; omega
  have h5 : (z.natAbs : ℚ) = ((z.natAbs : ℤ) : ℚ) := (Int.cast_natCast _).symm
  rw [h5, h4]
  by_cases hz : z < 0
  · simp only [hz, decide_True, if_true]
    field_simp
  · simp only [hz, decide_False, if_false, Bool.false_eq_true]
    field_simp

theorem add_ofInt_zero (z : ℤ) (h : z.natAbs < 2 ^ 53) :
    F64.add (F64.ofInt z) (F64.div (F64.ofInt 0) (F64.ofInt 1000000000)) = F64.ofInt z := by
  have hd : F64.div (F64.ofInt 0) (F64.ofInt 1000000000) = F64.fin false 0 (-1074) := by decide
  rw [hd]
  by_cases hz : z = 0
  · subst hz; decide
  · obtain ⟨e, he, hr⟩ := round_int_exact (decide (z < 0)) z.natAbs h
    unfold F64.ofInt
    rw [hr]
    have hm : z.natAbs * 2 ^ (-e).toNat ≠ 0 :=
      Nat.mul_ne_zero (by omega) (by positivity)
    simp only [F64.add, if_true, if_neg hm]

theorem secondsSinceEpoch_example : secondsSinceEpoch 2023 5 1 10 0 0 = 1682935200 := by
  unfold secondsSinceEpoch
  rw [daysBeforeYear_1970]
  push_cast
  rw [daysBeforeYear_closed]
  have : daysBeforeMonth 2023 5 = 120 := by decide
  rw [this]
  norm_num

/-- C6. For every timestamp text of the exact form `YYYY-MM-DD HH:MM:SS` that
names a date of the calendar and a time of day, `convertToJSON` succeeds and
`Timestamp` is the float64 of the whole seconds from 1970-01-01 00:00:00 UTC to
that date and time taken as UTC; this float64 is exactly that integer (no
fractional part). For `2023-05-01 10:00:00` it is 1682935200. -/
theorem timestamp_is_unix_seconds (pf : Platform) (r : CSVRecord)
    (hl : strictLayout r.Timestamp = true)
    (hv : validDateTime (decimalAt r.Timestamp 0 4) (decimalAt r.Timestamp 5 2)
      (decimalAt r.Timestamp 8 2) (decimalAt r.Timestamp 11 2) (decimalAt r.Timestamp 14 2)
      (decimalAt r.Timestamp 17 2)) :
    ∃ e, convertToJSON pf r = .ok e ∧
      e.Timestamp = F64.ofInt (secondsSinceEpoch (decimalAt r.Timestamp 0 4)
        (decimalAt r.Timestamp 5 2) (decimalAt r.Timestamp 8 2) (decimalAt r.Timestamp 11 2)
        (decimalAt r.Timestamp 14 2) (decimalAt r.Timestamp 17 2)) ∧
      e.Timestamp.toRat = some ((secondsSinceEpoch (decimalAt r.Timestamp 0 4)
        (decimalAt r.Timestamp 5 2) (decimalAt r.Timestamp 8 2) (decimalAt r.Timestamp 11 2)
        (decimalAt r.Timestamp 14 2) (decimalAt r.Timestamp 17 2) : ℤ) : ℚ) ∧
      (r.Timestamp = "2023-05-01 10:00:00".toList → e.Timestamp.toRat = some 1682935200) := by
  obtain ⟨y1, y2, y3, y4, m1, m2, d1, d2, h1, h2, i1, i2, s1, s2, hts, hy1, hy2, hy3, hy4, hm1,
    hm2, hd1, hd2, hh1, hh2, hi1, hi2, hs1, hs2⟩ := strictLayout_inv hl
  have e0 : decimalAt r.Timestamp 0 4 = num4 y1 y2 y3 y4 := by
    rw [hts]; simp [decimalAt, num4]
  have e1 : decimalAt r.Timestamp 5 2 = num2 m1 m2 := by rw [hts]; simp [decimalAt, num2]
  have e2 : decimalAt r.Timestamp 8 2 = num2 d1 d2 := by rw [hts]; simp [decimalAt, num2]
  have e3 : decimalAt r.Timestamp 11 2 = num2 h1 h2 := by rw [hts]; simp [decimalAt, num2]
  have e4 : decimalAt r.Timestamp 14 2 = num2 i1 i2 := by rw [hts]; simp [decimalAt, num2]
  have e5 : decimalAt r.Timestamp 17 2 = num2 s1 s2 := by rw [hts]; simp [decimalAt, num2]
  rw [e0, e1, e2, e3, e4, e5] at hv ⊢
  have hv2 := hv
  obtain ⟨hY, hM1, hM2, hD1, hD2, hH, hMi, hS⟩ := hv2
  have hdi := daysIn_cast (num4 y1 y2 y3 y4) (num2 m1 m2) hM1 hM2
  have htp := timeParse_strict hy1 hy2 hy3 hy4 hm1 hm2 hd1 hd2 hh1 hh2 hi1 hi2 hs1 hs2
    ⟨hM1, hM2⟩ ⟨hD1, by rw [hdi]; exact_mod_cast hD2⟩ hH hMi hS
  rw [← hts] at htp
  have hsec := Date_eq_secondsSinceEpoch _ _ _ _ _ _ hv
  have hdl := daysIn_le (num2 m1 m2 : ℤ) (num4 y1 y2 y3 y4 : ℤ) (by omega) (by omega)
  have hbd := (Date_bounds (num4 y1 y2 y3 y4) (num2 m1 m2) (num2 d1 d2) (num2 h1 h2)
    (num2 i1 i2) (num2 s1 s2) 0 (by omega) (by omega) (by omega) (by omega) (by omega)).1
  rw [hsec] at hbd
  have h53 : (secondsSinceEpoch (num4 y1 y2 y3 y4) (num2 m1 m2) (num2 d1 d2) (num2 h1 h2)
      (num2 i1 i2) (num2 s1 s2)).natAbs < 2 ^ 53 :=
    lt_of_le_of_lt hbd (by norm_num)
  have hT : F64.add (F64.ofInt (Date (num4 y1 y2 y3 y4) (num2 m1 m2) (num2 d1 d2)
      (num2 h1 h2) (num2 i1 i2) (num2 s1 s2) 0).Unix)
      (F64.div (F64.ofInt (Date (num4 y1 y2 y3 y4) (num2 m1 m2) (num2 d1 d2)
      (num2 h1 h2) (num2 i1 i2) (num2 s1 s2) 0).Nanosecond) (F64.ofInt 1000000000)) =
      F64.ofInt (secondsSinceEpoch (num4 y1 y2 y3 y4) (num2 m1 m2) (num2 d1 d2) (num2 h1 h2)
      (num2 i1 i2) (num2 s1 s2)) := by
    rw [hsec]
    exact add_ofInt_zero _ h53
  refine ⟨_, by unfold convertToJSON; rw [htp], hT, ?_, ?_⟩
  · simp only [hT]
    exact ofInt_toRat _ h53
  · intro hex
    simp only [hT]
    rw [ofInt_toRat _ h53]
    have e0b := e0
    have e1b := e1
    have e2b := e2
    have e3b := e3
    have e4b := e4
    have e5b := e5
    rw [hex] at e0b e1b e2b e3b e4b e5b
    rw [← e0b, ← e1b, ← e2b, ← e3b, ← e4b, ← e5b]
    have d0 : decimalAt "2023-05-01 10:00:00".toList 0 4 = 2023 := by decide
    have d1 : decimalAt "2023-05-01 10:00:00".toList 5 2 = 5 := by decide
    have d2 : decimalAt "2023-05-01 10:00:00".toList 8 2 = 1 := by decide
    have d3 : decimalAt "2023-05-01 10:00:00".toList 11 2 = 10 := by decide
    have d4 : decimalAt "2023-05-01 10:00:00".toList 14 2 = 0 := by decide
    have d5 : decimalAt "2023-05-01 10:00:00".toList 17 2 = 0 := by decide
    rw [d0, d1, d2, d3, d4, d5, secondsSinceEpoch_example]
    norm_num

/-- C6, at the record of `exampleRow`, whose timestamp is
`2023-05-01 10:00:00`. -/
theorem timestamp_is_unix_seconds_witness :
    strictLayout exampleRecord.Timestamp = true ∧
    ∃ e, convertToJSON examplePlatform exampleRecord = .ok e ∧
      e.Timestamp.toRat = some 1682935200 :=
  match timestamp_is_unix_seconds examplePlatform exampleRecord (by decide) (by decide) with
  | ⟨e, h1, _, _, h4⟩ => ⟨by decide, e, h1, h4 (by decide)⟩

/-! ## The layout of the timestamp -/

theorem leadingInt_all_digits : ∀ (s : GoString) (x q : Nat),
    leadingInt s x = some (q, []) → ∀ c ∈ s, isDigitChar c = true := by
  intro s
  induction s with
  | nil => intro x q _ c hc; cases hc
  | cons a as ih =>
    intro x q h c hc
    unfold leadingInt at h
    split at h
    · cases h
    · rename_i hd
      have hd2 : isDigitChar a = true := by simpa using hd
      split at h
      · cases h
      · split at h
        · cases h
        · rcases List.mem_cons.mp hc with rfl | hmem
          · exact hd2
          · exact ih _ _ h c hmem

theorem atoi_all_digits {s : GoString} {y : ℤ} (hd : isDigit s 0 = true)
    (h : atoi s = some y) : ∀ c ∈ s, isDigitChar c = true := by
  cases s with
  | nil => simp [isDigit] at hd
  | cons c cs =>
    have hc : isDigitChar c = true := by simpa [isDigit] using hd
    have hc1 : c ≠ '-' := by rintro rfl; revert hc; decide
    have hc2 : c ≠ '+' := by rintro rfl; revert hc; decide
    simp only [atoi, hc1, hc2, decide_False, or_self, if_false] at h
    split at h
    · cases h
    · rename_i q rem hl
      split at h
      · cases h
      · rename_i hrem
        have hrem2 : rem = [] := by simpa using hrem
        subst hrem2
        exact leadingInt_all_digits _ _ _ hl

theorem skip_char_inv {c : Char} {s r : GoString} (hc : c ≠ ' ')
    (h : skip s [c] = .ok r) : s = c :: r := by
  cases s with
  | nil => simp [skip, skipLoop, hc] at h
  | cons a as =>
    simp only [skip, skipLoop, List.length_singleton, hc, if_false, List.headD_cons,
      List.drop_succ_cons, List.drop_zero] at h
    split at h
    · cases h
    · rename_i hne
      cases h
      have hac : a = c := by
        by_contra hx
        exact hne (Or.inr hx)
      rw [hac]

theorem skip_blank_inv {s r : GoString} (h : skip s [' '] = .ok r) :
    r = s.dropWhile (fun c => c = ' ') ∧ (s = [] ∨ ∃ s1, s = ' ' :: s1) := by
  cases s with
  | nil =>
    simp [skip, skipLoop, cutspace] at h
    exact ⟨by rw [h]; rfl, Or.inl rfl⟩
  | cons a as =>
    simp only [skip, skipLoop, List.length_singleton, if_true, List.headD_cons] at h
    split at h
    · cases h
    · rename_i hne
      simp only [ne_eq, reduceCtorEq, not_false_eq_true, true_and, not_not] at hne
      subst hne
      simp only [cutspace, List.dropWhile, decide_True, skipLoop] at h
      cases h
      exact ⟨by simp [List.dropWhile], Or.inr ⟨as, rfl⟩⟩

theorem getnum_fixed_inv {s r : GoString} {n : ℤ} (h : getnum s true = some (n, r)) :
    ∃ a b, s = a :: b :: r ∧ isDigitChar a = true ∧ isDigitChar b = true := by
  unfold getnum at h
  split at h
  · cases h
  · rename_i h0
    split at h
    · simp at h
    · rename_i h1
      cases h
      match s, h0, h1 with
      | a :: b :: rest, h0, h1 =>
        exact ⟨a, b, by simp, by simpa [isDigit] using h0, by simpa [isDigit] using h1⟩
      | [a], h0, h1 => simp [isDigit] at h1
      | [], h0, h1 => simp [isDigit] at h0

theorem getnum_free_inv {s r : GoString} {n : ℤ} (h : getnum s false = some (n, r)) :
    ∃ a, isDigitChar a = true ∧
      ((∃ b, isDigitChar b = true ∧ s = a :: b :: r) ∨ (s = a :: r ∧ isDigit r 0 = false)) := by
  unfold getnum at h
  split at h
  · cases h
  · rename_i h0
    split at h
    · rename_i h1
      simp only [Bool.false_eq_true, if_false, Option.some.injEq, Prod.mk.injEq] at h
      match s, h0, h1 with
      | a :: rest, h0, h1 =>
        refine ⟨a, by simpa [isDigit] using h0, Or.inr ⟨by rw [← h.2]; simp, ?_⟩⟩
        rw [← h.2]
        simp only [List.drop_succ_cons, List.drop_zero]
        cases rest with
        | nil => simp [isDigit]
        | cons b bs => simpa [isDigit] using h1
      | [], h0, h1 => simp [isDigit] at h0
    · rename_i h1
      cases h
      match s, h0, h1 with
      | a :: b :: rest, h0, h1 =>
        exact ⟨a, by simpa [isDigit] using h0, Or.inl ⟨b, by simpa [isDigit] using h1, by simp⟩⟩
      | [a], h0, h1 => simp [isDigit] at h1
      | [], h0, h1 => simp [isDigit] at h0

theorem all_of_drop_takeWhile_nil (p : Char → Bool) (l : List Char)
    (h : l.drop (l.takeWhile p).length = []) : l.all p = true := by
  induction l with
  | nil => rfl
  | cons a as ih =>
    by_cases ha : p a = true
    · simp only [List.takeWhile, ha, List.length_cons, List.drop_succ_cons] at h
      simp [List.all_cons, ha, ih h]
    · have ha2 : p a = false := by simpa using ha
      simp [List.takeWhile, ha2] at h

theorem fracSecond_inv {s : GoString} {ns : ℤ} (h : fracSecond s = some (ns, [])) :
    lenientFrac s = true := by
  unfold fracSecond at h
  split at h
  · rename_i hc
    simp only [] at h
    split at h
    · cases h
    · simp only [Option.some.injEq, Prod.mk.injEq] at h
      obtain ⟨hlen, hsep, hd⟩ := hc
      match s, hlen, hsep, hd, h with
      | sep :: d :: ds, _, hsep, hd, h =>
        have h2 : ds.drop (ds.takeWhile isDigitChar).length = [] := by
          have := h.2
          simpa [Nat.add_comm] using this
        have hall := all_of_drop_takeWhile_nil _ _ h2
        have hd2 : isDigitChar d = true := by simpa [isDigit] using hd
        have hsep2 : sep = '.' ∨ sep = ',' := by simpa using hsep
        simp only [lenientFrac, List.isEmpty_cons, Bool.not_false, Bool.and_true, List.all_cons,
          hd2, hall, Bool.true_and, Bool.or_eq_true, beq_iff_eq]
        exact hsep2
  · simp only [Option.some.injEq, Prod.mk.injEq] at h
    rw [h.2]
    rfl

/-- A text that `timeParse` accepts has the lenient form. -/
theorem timeParse_ok_lenient {v : GoString} {t : Time} (h : timeParse v = .ok t) :
    lenientLayout v = true := by
  unfold timeParse at h
  split at h
  · cases h
  rename_i hlen
  split at h
  · cases h
  rename_i year hyear
  split at h
  · cases h
  rename_i w1 hk1
  split at h
  · cases h
  rename_i month v2 hmonth
  split at h
  · cases h
  split at h
  · cases h
  rename_i w2 hk2
  split at h
  · cases h
  rename_i day v3 hday
  split at h
  · cases h
  rename_i w3 hk3
  split at h
  · cases h
  rename_i hour v4 hhour
  split at h
  · cases h
  split at h
  · cases h
  rename_i w4 hk4
  split at h
  · cases h
  rename_i min v5 hmin
  split at h
  · cases h
  split at h
  · cases h
  rename_i w5 hk5
  split at h
  · cases h
  rename_i sec v6 hsec
  split at h
  · cases h
  split at h
  · cases h
  rename_i nsec v7 hfrac
  split at h
  · cases h
  rename_i hend
  have hv7 : v7 = [] := by
    cases v7 with
    | nil => rfl
    | cons a as => simp at hend
  subst hv7
  -- the year
  have hlen2 : 4 ≤ v.length ∧ isDigit v 0 = true := by
    constructor
    · by_contra hx; exact hlen (Or.inl (by omega))
    · by_contra hx; exact hlen (Or.inr hx)
  obtain ⟨y1, y2, y3, y4, rest, rfl⟩ : ∃ y1 y2 y3 y4 rest, v = y1 :: y2 :: y3 :: y4 :: rest := by
    match v, hlen2.1 with
    | y1 :: y2 :: y3 :: y4 :: rest, _ => exact ⟨y1, y2, y3, y4, rest, rfl⟩
  have hyd := atoi_all_digits (s := [y1, y2, y3, y4]) (by simpa [isDigit] using hlen2.2)
    (by simpa using hyear)
  have hy1 := hyd y1 (by simp)
  have hy2 := hyd y2 (by simp)
  have hy3 := hyd y3 (by simp)
  have hy4 := hyd y4 (by simp)
  simp only [List.drop_succ_cons, List.drop_zero] at hk1
  have e1 := skip_char_inv (by decide) hk1
  obtain ⟨m1, m2, e2, hm1, hm2⟩ := getnum_fixed_inv hmonth
  have e3 := skip_char_inv (by decide) hk2
  obtain ⟨d1, d2, e4, hd1, hd2⟩ := getnum_fixed_inv hday
  obtain ⟨e5, e5b⟩ := skip_blank_inv hk3
  have e6 := skip_char_inv (by decide) hk4
  obtain ⟨i1, i2, e7, hi1, hi2⟩ := getnum_fixed_inv hmin
  have e8 := skip_char_inv (by decide) hk5
  obtain ⟨s1, s2, e9, hs1, hs2⟩ := getnum_fixed_inv hsec
  have hfr := fracSecond_inv hfrac
  obtain ⟨h1, hh1, hcase⟩ := getnum_free_inv hhour
  have htail : lenientTail v4 = true := by
    rw [e6, e7, e8, e9]
    simp [lenientTail, hi1, hi2, hs1, hs2, hfr]
  have htime : lenientTime w3 = true := by
    rcases hcase with ⟨h2, hh2, e10⟩ | ⟨e10, hnd⟩
    · rw [e10]
      simp [lenientTime, hh1, hh2, htail]
    · rw [e10, e6] at *
      have hc : isDigitChar ':' = false := by decide
      simp [lenientTime, hh1, hc, htail]
  rcases e5b with e11 | ⟨s3, e11⟩
  · rw [e11] at e5
    rw [e5] at htime
    simp [lenientTime] at htime
  · rw [e1, e2, e3, e4, e11]
    rw [e11] at e5
    simp only [List.dropWhile, decide_True] at e5
    rw [e5] at htime
    simp [lenientLayout, hy1, hy2, hy3, hy4, hm1, hm2, hd1, hd2, htime]

/-- C7 as stated fails: timestamps that are not of the exact form
`YYYY-MM-DD HH:MM:SS` (a fractional second after the seconds, an hour of one
digit, two blanks between date and time) are converted without error. -/
theorem inexact_timestamps_accepted :
    (strictLayout fracRecord.Timestamp = false ∧
      failed (convertToJSON examplePlatform fracRecord) = false) ∧
    (strictLayout shortHourRecord.Timestamp = false ∧
      failed (convertToJSON examplePlatform shortHourRecord) = false) ∧
    (strictLayout twoBlanksRecord.Timestamp = false ∧
      failed (convertToJSON examplePlatform twoBlanksRecord) = false) := by
  decide

/-- C7, amended. A record whose timestamp is not of the form `YYYY-MM-DD`, one
or more blanks, an hour of one or two digits, `:MM:SS`, and then nothing or a
period or comma followed by digits, makes `convertToJSON` return an error and
no record; every text of the exact form `YYYY-MM-DD HH:MM:SS` is of that form;
and `convertToJSON` fails only with the error of the time parser. -/
theorem convertToJSON_fails_on_bad_layout (pf : Platform) (r : CSVRecord) :
    (lenientLayout r.Timestamp = false → ∃ err, convertToJSON pf r = .error err) ∧
    (strictLayout r.Timestamp = true → lenientLayout r.Timestamp = true) ∧
    (∀ err, convertToJSON pf r = .error err → timeParse r.Timestamp = .error err) := by
  refine ⟨?_, ?_, ?_⟩
  · intro hl
    cases ht : timeParse r.Timestamp with
    | error err => exact ⟨err, by simp [convertToJSON, ht]⟩
    | ok t =>
      rw [timeParse_ok_lenient ht] at hl
      cases hl
  · intro hs
    obtain ⟨y1, y2, y3, y4, m1, m2, d1, d2, h1, h2, i1, i2, s1, s2, hts, hy1, hy2, hy3, hy4,
      hm1, hm2, hd1, hd2, hh1, hh2, hi1, hi2, hs1, hs2⟩ := strictLayout_inv hs
    have hne : h1 ≠ ' ' := (digit_ne hh1).2.2.1
    rw [hts]
    simp [lenientLayout, lenientTime, lenientTail, lenientFrac, List.dropWhile, hy1, hy2, hy3,
      hy4, hm1, hm2, hd1, hd2, hh1, hh2, hi1, hi2, hs1, hs2, hne]
  · intro err he
    unfold convertToJSON at he
    split at he
    · rename_i e2 ht
      cases he
      exact ht
    · cases he

/-- C7, amended, at a timestamp with a `T` between date and time. -/
theorem convertToJSON_fails_on_bad_layout_witness :
    lenientLayout isoRecord.Timestamp = false ∧
    ∃ err, convertToJSON examplePlatform isoRecord = .error err :=
  ⟨by decide, (convertToJSON_fails_on_bad_layout examplePlatform isoRecord).1 (by decide)⟩

/-! ## Whole rows, the header and the first error -/

theorem rowResult_of_ok {pf : Platform} {row : List GoString} {r : CSVRecord} {e : LogEntry}
    (hp : parseCSVRecord row = some (.ok r)) (hc : convertToJSON pf r = .ok e) :
    rowResult pf row = some e := by
  simp [rowResult, hp, hc]

theorem processRow_of_ok {pf : Platform} {row : List GoString} {r : CSVRecord} {e : LogEntry}
    (hl : 13 ≤ row.length) (hp : parseCSVRecord row = some (.ok r))
    (hc : convertToJSON pf r = .ok e) :
    processRow pf (some row) = some (.emitted e) := by
  have hl2 : ¬ row.length < 13 := by omega
  simp [processRow, hl2, hp, hc, jsonMarshal_convertToJSON hc]

theorem convertToJSON_strings {pf : Platform} {r : CSVRecord} {e : LogEntry}
    (h : convertToJSON pf r = .ok e) :
    e.ConnectionID = r.ThreadID ∧ e.Username = r.Username ∧ e.DBName = r.DBName ∧
    e.Digest = r.SQLID ∧ e.RowsSent = r.ReturnRows ∧
    e.QueryTime = F64.toInt64 pf.int64Undef (F64.mul r.ExecutionTime (F64.ofInt 1000000)) := by
  unfold convertToJSON at h
  split at h
  · cases h
  · cases h
    exact ⟨rfl, rfl, rfl, rfl, rfl, rfl⟩

theorem fieldAt_of_get? {row : List GoString} {i : Nat} {x : GoString}
    (h : row.get? i = some x) : fieldAt row i = x := by
  unfold fieldAt
  rw [List.getD_eq_getElem?_getD, ← List.get?_eq_getElem?, h]
  rfl

/-- C11. For every row of at least 13 fields whose fields 4 to 7 are each
empty or accepted by the number parser of their type, and whose field 0 is
accepted by the time parser, `parseCSVRecord` and then `convertToJSON` succeed
and the pass of the loop writes exactly one line, with `ConnectionID`,
`Username`, `DBName` and `Digest` equal to the fields 10, 9, 3 and 1 of the
row and `SQL` the field 2 without the double quotes at its ends. -/
theorem well_formed_row_emits_one (pf : Platform) (st : Driver) (row : List GoString)
    (t : Time) (hlen : 13 ≤ row.length) (hnum : hasBadNumber row = false)
    (htime : timeParse (fieldAt row 0) = .ok t) :
    ∃ r e, parseCSVRecord row = some (.ok r) ∧ convertToJSON pf r = .ok e ∧
      step pf st (some row) = some ⟨st.output ++ [e], st.recordCount + 1⟩ ∧
      e.ConnectionID = fieldAt row 10 ∧ e.Username = fieldAt row 9 ∧
      e.DBName = fieldAt row 3 ∧ e.Digest = fieldAt row 1 ∧
      e.SQL = Trim (fieldAt row 2) dquote := by
  rcases parseCSVRecord_result row hlen with ⟨f, err, hf, -⟩ | ⟨-, r, hp⟩
  · rw [hasBadNumber_eq, hf] at hnum; cases hnum
  · obtain ⟨⟨h0, h1, h2, h3, -, h9, h10, -, -⟩, -⟩ := parseCSVRecord_ok_fields row hlen r hp
    have ht : timeParse r.Timestamp = .ok t := by rw [← fieldAt_of_get? h0]; exact htime
    obtain ⟨e, hc, -⟩ := convertToJSON_of_timeParse pf r ht
    obtain ⟨s1, s2, s3, s4, -, -⟩ := convertToJSON_strings hc
    refine ⟨r, e, hp, hc, ?_, ?_, ?_, ?_, ?_, ?_⟩
    · simp [step, processRow_of_ok hlen hp hc]
    · rw [s1, fieldAt_of_get? h10]
    · rw [s2, fieldAt_of_get? h9]
    · rw [s3, fieldAt_of_get? h3]
    · rw [s4, fieldAt_of_get? h1]
    · rw [(convertToJSON_ok_fields hc).2.2, fieldAt_of_get? h2]

/-- C11, at `exampleRow`. -/
theorem well_formed_row_emits_one_witness :
    ∃ r e, parseCSVRecord exampleRow = some (.ok r) ∧
      convertToJSON examplePlatform r = .ok e ∧
      step examplePlatform ⟨[], 0⟩ (some exampleRow) = some ⟨[] ++ [e], 0 + 1⟩ ∧
      e.ConnectionID = fieldAt exampleRow 10 ∧ e.Username = fieldAt exampleRow 9 ∧
      e.DBName = fieldAt exampleRow 3 ∧ e.Digest = fieldAt exampleRow 1 ∧
      e.SQL = Trim (fieldAt exampleRow 2) dquote :=
  well_formed_row_emits_one examplePlatform ⟨[], 0⟩ exampleRow ⟨1682935200, 0⟩ (by decide)
    (by decide) (by decide)

theorem map_some_injective {α : Type} {l1 l2 : List α} (h : l1.map some = l2.map some) :
    l1 = l2 :=
  List.map_injective_iff.mpr (Option.some_injective α) h

theorem parseRows_eq (pf : Platform) (rows : List (List GoString)) :
    ∃ out, (rows.filter (fun r => !rejected pf r)).map (rowResult pf) = out.map some ∧
      parseRows pf rows = some ⟨out, (out.length : ℤ)⟩ := by
  obtain ⟨out, h1, h2⟩ := runLoop_rows pf rows ⟨[], 0⟩
  exact ⟨out, h1, by simpa [parseRows] using h2⟩

/-- C12. The rows are processed independently: the lines written for `A ++ B`
are those for `A` followed by those for `B`, the count is the sum of the two
counts, and a rejected row put between `A` and `B` changes neither. -/
theorem rows_are_independent (pf : Platform) (A B : List (List GoString)) :
    ∃ sa sb, parseRows pf A = some sa ∧ parseRows pf B = some sb ∧
      parseRows pf (A ++ B) =
        some ⟨sa.output ++ sb.output, sa.recordCount + sb.recordCount⟩ ∧
      (∀ r, rejected pf r = true → parseRows pf (A ++ r :: B) = parseRows pf (A ++ B)) := by
  obtain ⟨oa, ha1, ha2⟩ := parseRows_eq pf A
  obtain ⟨ob, hb1, hb2⟩ := parseRows_eq pf B
  obtain ⟨oab, hab1, hab2⟩ := parseRows_eq pf (A ++ B)
  have hcat : oab = oa ++ ob := by
    apply map_some_injective
    rw [← hab1, List.filter_append, List.map_append, ha1, hb1, List.map_append]
  refine ⟨_, _, ha2, hb2, ?_, ?_⟩
  · rw [hab2, hcat]; simp
  · intro r hr
    obtain ⟨o2, h21, h22⟩ := parseRows_eq pf (A ++ r :: B)
    have : o2 = oab := by
      apply map_some_injective
      rw [← h21, ← hab1, List.filter_append, List.filter_append, List.filter_cons]
      simp [hr]
    rw [h22, hab2, this]

/-- C12, at rows around a row of twelve fields. -/
theorem rows_are_independent_witness :
    parseRows examplePlatform ([exampleRow] ++ exampleRow.take 12 :: [exampleRow]) =
      parseRows examplePlatform ([exampleRow] ++ [exampleRow]) :=
  match rows_are_independent examplePlatform [exampleRow] [exampleRow] with
  | ⟨_, _, _, _, _, h⟩ => h (exampleRow.take 12) (by decide)

/-- C14. The first row read is the header: whatever it holds, the run ends
with the lines and the count of the data rows that follow it. A header that
would be accepted as a data row is not emitted (as a data row it would add a
line in front), and a header of any other shape is not rejected. -/
theorem header_is_skipped (pf : Platform) (h : List GoString) (R : List (List GoString)) :
    ∃ st, parseRows pf R = some st ∧
      parseCSVLog pf (some h :: R.map some) = .finished st ∧
      (rejected pf h = false → ∃ e, rowResult pf h = some e ∧
        parseRows pf (h :: R) = some ⟨e :: st.output, st.recordCount + 1⟩) := by
  obtain ⟨out, h1, h2⟩ := parseRows_eq pf R
  refine ⟨_, h2, ?_, ?_⟩
  · have h3 : runLoop pf (R.map some) ⟨[], 0⟩ = some ⟨out, (out.length : ℤ)⟩ := h2
    simp [parseCSVLog, h3]
  · intro hr
    rcases step_row pf ⟨[], 0⟩ h with ⟨hr2, -⟩ | ⟨-, e, he, hs⟩
    · rw [hr] at hr2; cases hr2
    · obtain ⟨o2, h4, h5⟩ := runLoop_rows pf R ⟨[] ++ [e], 0 + 1⟩
      have : o2 = out := map_some_injective (h4.symm.trans h1)
      refine ⟨e, he, ?_⟩
      have h6 : parseRows pf (h :: R) = runLoop pf (R.map some) ⟨[] ++ [e], 0 + 1⟩ := by
        simp only [parseRows, List.map_cons, runLoop, hs]
      rw [h6, h5, this]
      simp only [List.nil_append, List.singleton_append, zero_add, Option.some.injEq,
        Driver.mk.injEq, true_and]
      ring

/-- A header that is itself a well-formed data row gives no line. -/
theorem parseCSVLog_header_example :
    parseCSVLog examplePlatform [some exampleRow, some exampleRow] =
      .finished ⟨[exampleEntry], 1⟩ ∧
    parseRows examplePlatform [exampleRow, exampleRow] =
      some ⟨[exampleEntry, exampleEntry], 2⟩ := by
  decide

theorem ParseFloat_error_num {s : GoString} {err : NumError}
    (h : ParseFloat s = .error err) : err.Num = s := by
  unfold ParseFloat at h
  split at h
  · split at h
    · cases h; rfl
    · cases h
  · split at h
    · cases h; rfl
    · split at h
      · cases h; rfl
      · simp only [] at h
        split at h
        · cases h; rfl
        · cases h

theorem ParseInt_error_num {s : GoString} {err : NumError}
    (h : ParseInt s = .error err) : err.Num = s := by
  unfold ParseInt at h
  split at h
  · cases h; rfl
  · simp only [] at h
    split at h
    · split at h <;> (cases h; rfl)
    · split at h
      · cases h; rfl
      · split at h <;> cases h
        rfl

/-- The text of the numeric field an error of `parseCSVRecord` names. -/
theorem parseExecutionTime_error {c : CSVRecord} {r : GoString} {e : RecordError}
    (h : parseExecutionTime c r = .error e) : e.field = .executionTime ∧ e.err.Num = r := by
  unfold parseExecutionTime at h
  split at h
  · split at h
    · rename_i err hp
      cases h
      exact ⟨rfl, ParseFloat_error_num hp⟩
    · cases h
  · cases h

theorem parseLockWaitTime_error {c : CSVRecord} {r : GoString} {e : RecordError}
    (h : parseLockWaitTime c r = .error e) : e.field = .lockWaitTime ∧ e.err.Num = r := by
  unfold parseLockWaitTime at h
  split at h
  · split at h
    · rename_i err hp
      cases h
      exact ⟨rfl, ParseFloat_error_num hp⟩
    · cases h
  · cases h

theorem parseReturnRows_error {c : CSVRecord} {r : GoString} {e : RecordError}
    (h : parseReturnRows c r = .error e) : e.field = .returnRows ∧ e.err.Num = r := by
  unfold parseReturnRows at h
  split at h
  · split at h
    · rename_i err hp
      cases h
      exact ⟨rfl, ParseInt_error_num hp⟩
    · cases h
  · cases h

theorem parseScanRows_error {c : CSVRecord} {r : GoString} {e : RecordError}
    (h : parseScanRows c r = .error e) : e.field = .scanRows ∧ e.err.Num = r := by
  unfold parseScanRows at h
  split at h
  · split at h
    · rename_i err hp
      cases h
      exact ⟨rfl, ParseInt_error_num hp⟩
    · cases h
  · cases h

theorem parseCSVRecord_error_num (row : List GoString) (hlen : 13 ≤ row.length)
    (e : RecordError) (he : parseCSVRecord row = some (.error e)) :
    e.err.Num = fieldAt row e.field.position := by
  obtain ⟨r0, r1, r2, r3, r4, r5, r6, r7, r8, r9, r10, r11, r12, rest, rfl⟩ :=
    exists_cons13 row hlen
  rw [parseCSVRecord_cons13] at he
  simp only [Option.some.injEq] at he
  cases h4 : parseExecutionTime _ r4 with
  | error e4 =>
    rw [h4] at he
    cases he
    obtain ⟨hf, hn⟩ := parseExecutionTime_error h4
    rw [hf, hn]; rfl
  | ok c4 =>
    rw [h4] at he
    cases h5 : parseLockWaitTime c4 r5 with
    | error e5 =>
      simp only [Except.bind, h5] at he
      cases he
      obtain ⟨hf, hn⟩ := parseLockWaitTime_error h5
      rw [hf, hn]; rfl
    | ok c5 =>
      cases h6 : parseReturnRows c5 r6 with
      | error e6 =>
        simp only [Except.bind, h5, h6] at he
        cases he
        obtain ⟨hf, hn⟩ := parseReturnRows_error h6
        rw [hf, hn]; rfl
      | ok c6 =>
        simp only [Except.bind, h5, h6] at he
        obtain ⟨hf, hn⟩ := parseScanRows_error he
        rw [hf, hn]; rfl

/-- C15. When `parseCSVRecord` fails on a row of at least 13 fields, the error
is that of the first bad field in the order execution time (4), lock wait
time (5), rows returned (6), rows scanned (7): its message is the one of that
field and of no other, and it carries the text of that field. A row with the
execution time `abc` and the rows returned `x` fails on the execution
time. -/
theorem first_bad_field_is_reported (row : List GoString) (e : RecordError)
    (hlen : 13 ≤ row.length) (he : parseCSVRecord row = some (.error e)) :
    firstBadField row = some e.field ∧
    (∀ g, RecordError.message ⟨g, e.err⟩ = e.message → g = e.field) ∧
    e.err.Num = fieldAt row e.field.position ∧
    (fieldAt row 4 = "abc".toList → fieldAt row 6 = "x".toList →
      e.field = .executionTime ∧ e.message = "parse execution time failed: ") := by
  have hfb : firstBadField row = some e.field := by
    rcases parseCSVRecord_result row hlen with ⟨f, err, hf, hp⟩ | ⟨-, r, hp⟩
    · rw [hp] at he; cases he; exact hf
    · rw [hp] at he; cases he
  refine ⟨hfb, ?_, parseCSVRecord_error_num row hlen e he, ?_⟩
  · intro g hg
    cases g <;> cases hf : e.field <;>
      simp only [RecordError.message, hf] at hg <;> first | rfl | (revert hg; decide)
  · intro h4 _
    have h1 : firstBadField row = some .executionTime := by
      unfold firstBadField
      rw [h4, if_pos (by decide)]
    rw [h1] at hfb
    have h2 : e.field = .executionTime := (Option.some.inj hfb).symm
    exact ⟨h2, by simp only [RecordError.message, h2]⟩

/-- C15, at a row with the execution time `abc` and the rows returned `x`. -/
theorem first_bad_field_is_reported_witness :
    ∃ e, parseCSVRecord twoBadRow = some (.error e) ∧ e.field = .executionTime ∧
      e.message = "parse execution time failed: " ∧ e.err.Num = "abc".toList :=
  have he : parseCSVRecord twoBadRow = some (.error ⟨.executionTime,
      ⟨"ParseFloat", "abc".toList, .ErrSyntax⟩⟩) := by decide
  have h := first_bad_field_is_reported twoBadRow _ (by decide) he
  ⟨_, he, (h.2.2.2 (by decide) (by decide)).1, (h.2.2.2 (by decide) (by decide)).2, by decide⟩

/-- C17. On a row of at least 13 fields every index `record[0]` to
`record[12]` of `parseCSVRecord` is in range and the function returns a record
or an error; the loop calls it on such rows only, so no pass of the loop
panics. -/
theorem parseCSVRecord_never_panics (row : List GoString) (hlen : 13 ≤ row.length) :
    (∀ i, i ≤ 12 → ∃ x, index row i = some x) ∧
    ((∃ r, parseCSVRecord row = some (.ok r)) ∨ (∃ e, parseCSVRecord row = some (.error e))) ∧
    (∀ (pf : Platform) (st : Driver) (read : Option (List GoString)),
      ∃ st1, step pf st read = some st1) := by
  refine ⟨?_, ?_, ?_⟩
  · intro i hi
    have hlt : i < row.length := by omega
    exact ⟨row.get ⟨i, hlt⟩, List.get?_eq_get hlt⟩
  · rcases parseCSVRecord_result row hlen with ⟨f, err, -, hp⟩ | ⟨-, r, hp⟩
    · exact Or.inr ⟨_, hp⟩
    · exact Or.inl ⟨_, hp⟩
  · intro pf st read
    cases read with
    | none => exact ⟨st, by simp [step, processRow]⟩
    | some r =>
      rcases step_row pf st r with ⟨-, hs⟩ | ⟨-, e, -, hs⟩
      · exact ⟨_, hs⟩
      · exact ⟨_, hs⟩

/-- C17, at `exampleRow`. -/
theorem parseCSVRecord_never_panics_witness :
    (∃ x, index exampleRow 12 = some x) ∧
    ((∃ r, parseCSVRecord exampleRow = some (.ok r)) ∨
      (∃ e, parseCSVRecord exampleRow = some (.error e))) :=
  have h := parseCSVRecord_never_panics exampleRow (by decide)
  ⟨h.1 12 (by decide), h.2.1⟩

/-! ## Unmapped fields and the quotes -/

theorem trim_self_of_no_quote (t : GoString) (c : Char) (h1 : t.head? ≠ some c)
    (h2 : t.getLast? ≠ some c) : Trim t c = t := by
  unfold Trim trimLeftByte trimRightByte
  have hr : t.rdropWhile (fun x => x == c) = t := by
    rw [List.rdropWhile_eq_self_iff]
    intro hl hp
    apply h2
    rw [List.getLast?_eq_getLast _ hl]
    simpa using hp
  rw [hr, List.dropWhile_eq_self_iff]
  intro hl hp
  apply h1
  cases t with
  | nil => simp at hl
  | cons a as => simpa using hp

theorem trim_no_quote_ends (s : GoString) (c : Char) :
    (Trim s c).head? ≠ some c ∧ (Trim s c).getLast? ≠ some c := by
  unfold Trim trimLeftByte trimRightByte
  exact ⟨head?_dropWhile_ne _ _ _ (by simp), getLast?_dropWhile_rdropWhile_ne _ _ _ (by simp)⟩

/-- C20. Stripping the double quotes at both ends is idempotent and leaves no
double quote at either end, so the `SQL` of every record made by
`convertToJSON` neither starts nor ends with a double quote. -/
theorem trim_quotes_idempotent (s : GoString) :
    Trim (Trim s dquote) dquote = Trim s dquote ∧
    (Trim s dquote).head? ≠ some dquote ∧ (Trim s dquote).getLast? ≠ some dquote ∧
    (∀ (pf : Platform) (r : CSVRecord) (e : LogEntry), convertToJSON pf r = .ok e →
      e.SQL.head? ≠ some dquote ∧ e.SQL.getLast? ≠ some dquote) := by
  obtain ⟨h1, h2⟩ := trim_no_quote_ends s dquote
  refine ⟨trim_self_of_no_quote _ _ h1 h2, h1, h2, ?_⟩
  intro pf r e he
  rw [(convertToJSON_ok_fields he).2.2]
  exact trim_no_quote_ends _ _

/-- C20, at the record of `exampleRow`. -/
theorem trim_quotes_idempotent_witness :
    Trim (Trim quotedSelect dquote) dquote = Trim quotedSelect dquote ∧
    exampleEntry.SQL.head? ≠ some dquote ∧ exampleEntry.SQL.getLast? ≠ some dquote :=
  have h := trim_quotes_idempotent quotedSelect
  ⟨h.1, h.2.2.2 examplePlatform exampleRecord exampleEntry convertToJSON_exampleRecord⟩

theorem convertToJSON_congr (pf : Platform) (r1 r2 : CSVRecord)
    (h0 : r1.Timestamp = r2.Timestamp) (h1 : r1.SQLID = r2.SQLID)
    (h2 : r1.SQLText = r2.SQLText) (h3 : r1.DBName = r2.DBName)
    (h4 : r1.ExecutionTime = r2.ExecutionTime) (h6 : r1.ReturnRows = r2.ReturnRows)
    (h9 : r1.Username = r2.Username) (h10 : r1.ThreadID = r2.ThreadID) :
    convertToJSON pf r1 = convertToJSON pf r2 := by
  unfold convertToJSON
  rw [h0, h1, h2, h3, h4, h6, h9, h10]

theorem firstBadField_congr (row1 row2 : List GoString)
    (h4 : fieldAt row1 4 = fieldAt row2 4) (h6 : fieldAt row1 6 = fieldAt row2 6)
    (h5a : okFloatField (fieldAt row1 5) = true) (h5b : okFloatField (fieldAt row2 5) = true)
    (h7a : okIntField (fieldAt row1 7) = true) (h7b : okIntField (fieldAt row2 7) = true) :
    firstBadField row1 = firstBadField row2 := by
  have n5a : ¬ (fieldAt row1 5 ≠ [] ∧ failed (ParseFloat (fieldAt row1 5)) = true) := by
    simp only [okFloatField, Bool.or_eq_true, beq_iff_eq, Bool.not_eq_true'] at h5a
    rintro ⟨x, y⟩
    rcases h5a with h | h
    · exact x h
    · rw [h] at y; cases y
  have n5b : ¬ (fieldAt row2 5 ≠ [] ∧ failed (ParseFloat (fieldAt row2 5)) = true) := by
    simp only [okFloatField, Bool.or_eq_true, beq_iff_eq, Bool.not_eq_true'] at h5b
    rintro ⟨x, y⟩
    rcases h5b with h | h
    · exact x h
    · rw [h] at y; cases y
  have n7a : ¬ (fieldAt row1 7 ≠ [] ∧ failed (ParseInt (fieldAt row1 7)) = true) := by
    simp only [okIntField, Bool.or_eq_true, beq_iff_eq, Bool.not_eq_true'] at h7a
    rintro ⟨x, y⟩
    rcases h7a with h | h
    · exact x h
    · rw [h] at y; cases y
  have n7b : ¬ (fieldAt row2 7 ≠ [] ∧ failed (ParseInt (fieldAt row2 7)) = true) := by
    simp only [okIntField, Bool.or_eq_true, beq_iff_eq, Bool.not_eq_true'] at h7b
    rintro ⟨x, y⟩
    rcases h7b with h | h
    · exact x h
    · rw [h] at y; cases y
  unfold firstBadField
  rw [if_neg n5a, if_neg n5b, if_neg n7a, if_neg n7b, h4, h6]

theorem some_fieldAt_inj {row1 row2 : List GoString} {i : Nat} {x y : GoString}
    (h1 : row1.get? i = some x) (h2 : row2.get? i = some y)
    (h : fieldAt row1 i = fieldAt row2 i) : x = y := by
  rw [← fieldAt_of_get? h1, ← fieldAt_of_get? h2]; exact h

/-- C18. The line emitted for a row does not depend on the fields that are not
mapped to it: two rows of at least 13 fields that agree on the fields 0, 1, 2,
3, 4, 6, 9 and 10, and whose fields 5 and 7 are each empty or accepted by the
number parser, are both rejected or give the same line, whatever the fields 8,
11, 12 and those after 12 hold. -/
theorem unmapped_fields_do_not_matter (pf : Platform) (row1 row2 : List GoString)
    (hl1 : 13 ≤ row1.length) (hl2 : 13 ≤ row2.length)
    (hagree : ∀ i ∈ [0, 1, 2, 3, 4, 6, 9, 10], fieldAt row1 i = fieldAt row2 i)
    (h5a : okFloatField (fieldAt row1 5) = true) (h5b : okFloatField (fieldAt row2 5) = true)
    (h7a : okIntField (fieldAt row1 7) = true) (h7b : okIntField (fieldAt row2 7) = true) :
    rowResult pf row1 = rowResult pf row2 ∧ rejected pf row1 = rejected pf row2 := by
  have a0 := hagree 0 (by simp)
  have a1 := hagree 1 (by simp)
  have a2 := hagree 2 (by simp)
  have a3 := hagree 3 (by simp)
  have a4 := hagree 4 (by simp)
  have a6 := hagree 6 (by simp)
  have a9 := hagree 9 (by simp)
  have a10 := hagree 10 (by simp)
  have hfb := firstBadField_congr row1 row2 a4 a6 h5a h5b h7a h7b
  have n1 : ¬ row1.length < 13 := by omega
  have n2 : ¬ row2.length < 13 := by omega
  rcases parseCSVRecord_result row1 hl1 with ⟨f1, e1, hf1, hp1⟩ | ⟨hf1, r1, hp1⟩ <;>
    rcases parseCSVRecord_result row2 hl2 with ⟨f2, e2, hf2, hp2⟩ | ⟨hf2, r2, hp2⟩
  · simp [rowResult, rejected, hp1, hp2, n1, n2]
  · rw [hfb, hf2] at hf1; cases hf1
  · rw [hfb, hf2] at hf1; cases hf1
  · obtain ⟨⟨x0, x1, x2, x3, -, x9, x10, -, -⟩, x4, -, x6, -⟩ :=
      parseCSVRecord_ok_fields row1 hl1 r1 hp1
    obtain ⟨⟨y0, y1, y2, y3, -, y9, y10, -, -⟩, y4, -, y6, -⟩ :=
      parseCSVRecord_ok_fields row2 hl2 r2 hp2
    have e4 : r1.ExecutionTime = r2.ExecutionTime := by
      rw [a4] at x4
      by_cases hz : fieldAt row2 4 = []
      · rw [if_pos hz] at x4 y4; rw [x4, y4]
      · rw [if_neg hz] at x4 y4
        rw [x4] at y4
        exact Except.ok.inj y4
    have e6 : r1.ReturnRows = r2.ReturnRows := by
      rw [a6] at x6
      by_cases hz : fieldAt row2 6 = []
      · rw [if_pos hz] at x6 y6; rw [x6, y6]
      · rw [if_neg hz] at x6 y6
        rw [x6] at y6
        exact Except.ok.inj y6
    have hc := convertToJSON_congr pf r1 r2 (some_fieldAt_inj x0 y0 a0)
      (some_fieldAt_inj x1 y1 a1) (some_fieldAt_inj x2 y2 a2) (some_fieldAt_inj x3 y3 a3) e4 e6
      (some_fieldAt_inj x9 y9 a9) (some_fieldAt_inj x10 y10 a10)
    simp [rowResult, rejected, hp1, hp2, n1, n2, hc]

/-- C18, at `exampleRow` and a row that differs from it in the fields 5, 7, 8,
11, 12 and has a field more. -/
theorem unmapped_fields_do_not_matter_witness :
    rowResult examplePlatform exampleRow = rowResult examplePlatform otherUnmappedRow ∧
    rejected examplePlatform exampleRow = rejected examplePlatform otherUnmappedRow ∧
    rowResult examplePlatform exampleRow = some exampleEntry :=
  have h := unmapped_fields_do_not_matter examplePlatform exampleRow otherUnmappedRow
    (by decide) (by decide) (by decide) (by decide) (by decide) (by decide) (by decide)
  ⟨h.1, h.2, by decide⟩

/-! ## The integer fields -/

theorem decimalFrom_ge (ds : GoString) : ∀ n, n ≤ decimalFrom n ds := by
  induction ds with
  | nil => intro n; exact le_refl _
  | cons c cs ih =>
    intro n
    simp only [decimalFrom, List.foldl_cons]
    have := ih (n * 10 + digitVal c)
    simp only [decimalFrom] at this
    omega

theorem parseUintLoop_ok_iff (s0 : GoString) (ds : GoString) : ∀ (n v : Nat), n < 2 ^ 64 →
    (parseUintLoop s0 ds n = .ok v ↔
      ds.all isDigitChar = true ∧ v = decimalFrom n ds ∧ v < 2 ^ 64) := by
  induction ds with
  | nil =>
    intro n v hn
    simp only [parseUintLoop, List.all_nil, decimalFrom, List.foldl_nil, true_and,
      Except.ok.injEq]
    constructor
    · rintro rfl; exact ⟨rfl, hn⟩
    · rintro ⟨rfl, -⟩; rfl
  | cons c cs ih =>
    intro n v hn
    have hge := decimalFrom_ge cs (n * 10 + digitVal c)
    by_cases hc : isDigitChar c = true
    · have hd := digitVal_le hc
      have hd10 : ¬ 10 ≤ digitVal c := by omega
      simp only [parseUintLoop, hc, if_true, hd10, if_false, List.all_cons, Bool.true_and,
        decimalFrom, List.foldl_cons]
      simp only [decimalFrom] at hge
      by_cases hcut : (2 ^ 64 - 1) / 10 + 1 ≤ n
      · rw [if_pos hcut]
        constructor
        · intro h; cases h
        · rintro ⟨-, rfl, hlt⟩
          exfalso
          norm_num at hcut
          norm_num at hlt
          omega
      · rw [if_neg hcut]
        norm_num at hcut
        by_cases hov : n * 10 + digitVal c < 2 ^ 64
        · have hmod : (n * 10 + digitVal c) % 2 ^ 64 = n * 10 + digitVal c :=
            Nat.mod_eq_of_lt hov
          have hno : ¬ ((n * 10 + digitVal c) % 2 ^ 64 < n * 10 ∨
              2 ^ 64 - 1 < (n * 10 + digitVal c) % 2 ^ 64) := by
            rw [hmod]; norm_num; norm_num at hov; omega
          rw [if_neg hno, hmod]
          have := ih (n * 10 + digitVal c) v hov
          simpa [decimalFrom] using this
        · have hwrap : (n * 10 + digitVal c) % 2 ^ 64 < n * 10 := by
            norm_num at hov ⊢
            omega
          rw [if_pos (Or.inl hwrap)]
          constructor
          · intro h; cases h
          · rintro ⟨-, rfl, hlt⟩
            exfalso
            omega
    · have hc2 : isDigitChar c = false := by simpa using hc
      simp only [parseUintLoop, hc2, Bool.false_eq_true, if_false, List.all_cons,
        Bool.false_and, false_and, iff_false]
      split
      · intro h; cases h
      · rename_i d hlet
        have hd : 10 ≤ d := by
          split at hlet
          · cases hlet; omega
          · cases hlet
        rw [if_pos hd]
        intro h; cases h

theorem ParseUint_ok_iff (ds : GoString) (v : Nat) :
    ParseUint ds = .ok v ↔
      ds ≠ [] ∧ ds.all isDigitChar = true ∧ v = decimalFrom 0 ds ∧ v < 2 ^ 64 := by
  unfold ParseUint
  by_cases h : ds = []
  · simp [h]
  · rw [if_neg h, parseUintLoop_ok_iff ds ds 0 v (by norm_num)]
    simp [h]

theorem two63 : (2 : ℤ) ^ 63 = 9223372036854775808 := by norm_num

/-- `strconv.ParseInt(s, 10, 64)` accepts exactly the signed decimals whose
value is an int64, and returns that value. -/
theorem ParseInt_ok_iff (s : GoString) (z : ℤ) :
    ParseInt s = .ok z ↔
      signedDecimal s = some z ∧ -(2 : ℤ) ^ 63 ≤ z ∧ z < (2 : ℤ) ^ 63 := by
  cases s with
  | nil => simp [ParseInt, signedDecimal]
  | cons c rest =>
    simp only [ParseInt, signedDecimal]
    generalize hds : (if c = '+' ∨ c = '-' then rest else c :: rest) = ds
    rw [two63]
    cases hu : ParseUint ds with
    | error e =>
      have hno : ¬ (ds ≠ [] ∧ ds.all isDigitChar = true ∧ decimalFrom 0 ds < 2 ^ 64) := by
        rintro ⟨a, b, c⟩
        have := (ParseUint_ok_iff ds (decimalFrom 0 ds)).mpr ⟨a, b, rfl, c⟩
        rw [hu] at this; cases this
      simp only []
      constructor
      · intro h
        split_ifs at h
      · rintro ⟨h1, h2, h3⟩
        exfalso
        by_cases hd : ds ≠ [] ∧ ds.all isDigitChar = true
        · rw [if_pos hd] at h1
          simp only [Option.some.injEq] at h1
          apply hno
          refine ⟨hd.1, hd.2, ?_⟩
          by_cases hneg : c = '-'
          · simp only [hneg, if_true] at h1
            norm_num
            omega
          · simp only [hneg, if_false] at h1
            norm_num
            omega
        · rw [if_neg hd] at h1
          cases h1
    | ok un =>
      obtain ⟨hne, hall, hv, hlt⟩ := (ParseUint_ok_iff ds un).mp hu
      rw [if_pos ⟨hne, hall⟩, ← hv]
      simp only [decide_eq_true_eq, Option.some.injEq]
      by_cases hneg : c = '-'
      · simp only [hneg, not_true_eq_false, false_and, if_false, true_and, if_true]
        by_cases hr : 2 ^ 63 < un
        · rw [if_pos hr]
          constructor
          · intro h; cases h
          · rintro ⟨rfl, h2, -⟩
            exfalso
            norm_num at hr
            omega
        · rw [if_neg hr]
          norm_num at hr
          constructor
          · intro h
            cases h
            exact ⟨rfl, by omega, by omega⟩
          · rintro ⟨rfl, -, -⟩; rfl
      · simp only [hneg, not_false_eq_true, true_and, false_and, if_false]
        by_cases hr : 2 ^ 63 ≤ un
        · rw [if_pos hr]
          constructor
          · intro h; cases h
          · rintro ⟨rfl, -, h3⟩
            exfalso
            norm_num at hr
            omega
        · rw [if_neg hr]
          norm_num at hr
          constructor
          · intro h
            cases h
            exact ⟨rfl, by omega, by omega⟩
          · rintro ⟨rfl, -, -⟩; rfl

theorem failed_ParseInt_iff (s : GoString) :
    failed (ParseInt s) = false ↔ int64Text s = true := by
  unfold int64Text
  cases hp : ParseInt s with
  | ok z =>
    obtain ⟨h1, h2, h3⟩ := (ParseInt_ok_iff s z).mp hp
    rw [two63] at h2 h3
    simp [failed, h1, h2, h3]
  | error e =>
    simp only [failed, Bool.true_eq_false, false_iff]
    cases hs : signedDecimal s with
    | none => simp
    | some z =>
      simp only [decide_eq_true_eq]
      rintro ⟨h2, h3⟩
      have := (ParseInt_ok_iff s z).mpr ⟨hs, h2, h3⟩
      rw [hp] at this
      cases this

theorem not_bad_float {f : GoString} (h : okFloatField f = true) :
    ¬ (f ≠ [] ∧ failed (ParseFloat f) = true) := by
  simp only [okFloatField, Bool.or_eq_true, beq_iff_eq, Bool.not_eq_true'] at h
  rintro ⟨x, y⟩
  rcases h with h | h
  · exact x h
  · rw [h] at y; cases y

theorem bad_int_iff (f : GoString) :
    ¬ (f ≠ [] ∧ failed (ParseInt f) = true) ↔ (f = [] ∨ int64Text f = true) := by
  rw [← failed_ParseInt_iff]
  by_cases h : f = []
  · simp [h]
  · cases failed (ParseInt f) <;> simp [h]

/-- C16. For a row of at least 13 fields whose fields 4 and 5 do not fail,
`parseCSVRecord` returns a record exactly when each of the fields 6 and 7 is
empty or is an optional `+` or `-` followed by one or more decimal digits with
a value from `-2^63` to `2^63 - 1`; the attribute of a non-empty field is then
that integer. Any other text (a blank, a decimal point, an underscore between
digits, `9223372036854775808`) rejects the record. -/
theorem int_fields_accept_int64_text (row : List GoString) (hlen : 13 ≤ row.length)
    (h4 : okFloatField (fieldAt row 4) = true) (h5 : okFloatField (fieldAt row 5) = true) :
    ((∃ r, parseCSVRecord row = some (.ok r)) ↔
      (fieldAt row 6 = [] ∨ int64Text (fieldAt row 6) = true) ∧
      (fieldAt row 7 = [] ∨ int64Text (fieldAt row 7) = true)) ∧
    (∀ r, parseCSVRecord row = some (.ok r) →
      (fieldAt row 6 ≠ [] → signedDecimal (fieldAt row 6) = some r.ReturnRows) ∧
      (fieldAt row 7 ≠ [] → signedDecimal (fieldAt row 7) = some r.ScanRows)) ∧
    (∀ t ∈ notInt64Texts, int64Text t = false ∧
      (fieldAt row 6 = t ∨ fieldAt row 7 = t → ∃ e, parseCSVRecord row = some (.error e))) := by
  have n4 := not_bad_float h4
  have n5 := not_bad_float h5
  have hfb : firstBadField row = none ↔
      (fieldAt row 6 = [] ∨ int64Text (fieldAt row 6) = true) ∧
      (fieldAt row 7 = [] ∨ int64Text (fieldAt row 7) = true) := by
    rw [← bad_int_iff, ← bad_int_iff]
    unfold firstBadField
    rw [if_neg n4, if_neg n5]
    by_cases b6 : fieldAt row 6 ≠ [] ∧ failed (ParseInt (fieldAt row 6)) = true
    · simp [b6]
    · by_cases b7 : fieldAt row 7 ≠ [] ∧ failed (ParseInt (fieldAt row 7)) = true
      · simp [b6, b7]
      · simp [b6, b7]
  have hiff : (∃ r, parseCSVRecord row = some (.ok r)) ↔ firstBadField row = none := by
    rcases parseCSVRecord_result row hlen with ⟨f, err, hf, hp⟩ | ⟨hf, r, hp⟩
    · simp [hf, hp]
    · simp [hf, hp]
  refine ⟨hiff.trans hfb, ?_, ?_⟩
  · intro r hr
    obtain ⟨-, -, -, x6, x7⟩ := parseCSVRecord_ok_fields row hlen r hr
    constructor
    · intro h6
      rw [if_neg h6] at x6
      exact ((ParseInt_ok_iff _ _).mp x6).1
    · intro h7
      rw [if_neg h7] at x7
      exact ((ParseInt_ok_iff _ _).mp x7).1
  · intro t ht
    have hbad : int64Text t = false ∧ t ≠ [] := by
      revert t
      decide
    refine ⟨hbad.1, ?_⟩
    intro hor
    have hnone : firstBadField row ≠ none := by
      intro hx
      obtain ⟨c6, c7⟩ := hfb.mp hx
      rcases hor with h | h
      · rw [h] at c6
        rcases c6 with c | c
        · exact hbad.2 c
        · rw [hbad.1] at c; cases c
      · rw [h] at c7
        rcases c7 with c | c
        · exact hbad.2 c
        · rw [hbad.1] at c; cases c
    rcases parseCSVRecord_result row hlen with ⟨f, err, hf, hp⟩ | ⟨hf, r, hp⟩
    · exact ⟨_, hp⟩
    · exact absurd hf hnone

/-- C16, at a row with the two extreme int64 values. -/
theorem int_fields_accept_int64_text_witness :
    ∃ r, parseCSVRecord extremeIntsRow = some (.ok r) ∧
      r.ReturnRows = 9223372036854775807 ∧ r.ScanRows = -9223372036854775808 :=
  have h := int_fields_accept_int64_text extremeIntsRow (by decide) (by decide) (by decide)
  match h.1.mpr (by decide) with
  | ⟨r, hr⟩ =>
    have h6 := (h.2.1 r hr).1 (by decide)
    have h7 := (h.2.1 r hr).2 (by decide)
    ⟨r, hr, Option.some.inj (h6.symm.trans (by decide)),
      Option.some.inj (h7.symm.trans (by decide))⟩

/-! ## The SQL type as a token -/

theorem ofNat_add32_toNat (n : Nat) (h1 : 65 ≤ n) (h2 : n ≤ 90) :
    (Char.ofNat (n + 32)).toNat = n + 32 := by
  interval_cases n <;> rfl

theorem toLowerRune_ascii_upper (tbl : Char → Char) (c : Char)
    (h : 65 ≤ c.toNat ∧ c.toNat ≤ 90) :
    (toLowerRune tbl c).toNat = c.toNat + 32 := by
  unfold toLowerRune
  rw [if_pos (by omega), if_pos h]
  exact ofNat_add32_toNat _ h.1 h.2

theorem toLowerRune_idem (tbl : Char → Char) (h : LowerTableOK tbl) (c : Char) :
    toLowerRune tbl (toLowerRune tbl c) = toLowerRune tbl c := by
  by_cases ha : c.toNat ≤ 127
  · by_cases hu : 65 ≤ c.toNat ∧ c.toNat ≤ 90
    · have h1 := toLowerRune_ascii_upper tbl c hu
      generalize toLowerRune tbl c = d at h1
      unfold toLowerRune
      rw [if_pos (by omega), if_neg (by omega)]
    · have h1 : toLowerRune tbl c = c := by
        unfold toLowerRune
        rw [if_pos ha, if_neg hu]
      rw [h1, h1]
  · have h1 : toLowerRune tbl c = tbl c := by
      unfold toLowerRune
      rw [if_neg ha]
    rw [h1]
    exact (h c (by omega)).1

theorem isSpace_toNat (c d : Char) (h : c.toNat = d.toNat) : isSpace c = isSpace d := by
  unfold isSpace
  simp only [h]

theorem toLowerRune_not_space (tbl : Char → Char) (h : LowerTableOK tbl) (c : Char)
    (hc : isSpace c = false) : isSpace (toLowerRune tbl c) = false := by
  by_cases ha : c.toNat ≤ 127
  · by_cases hu : 65 ≤ c.toNat ∧ c.toNat ≤ 90
    · have h1 := toLowerRune_ascii_upper tbl c hu
      generalize toLowerRune tbl c = d at h1
      unfold isSpace
      simp only [h1]
      have e1 : ¬ (c.toNat + 32 ≤ 13) := by omega
      simp [e1]
      omega
    · have h1 : toLowerRune tbl c = c := by
        unfold toLowerRune
        rw [if_pos ha, if_neg hu]
      rw [h1]; exact hc
  · have h1 : toLowerRune tbl c = tbl c := by
      unfold toLowerRune
      rw [if_neg ha]
    rw [h1]
    exact (h c (by omega)).2 hc

theorem lowerTableOK_id : LowerTableOK id := by
  intro c hc
  refine ⟨?_, fun h => h⟩
  simp only [id, toLowerRune]
  rw [if_neg (by omega)]

theorem firstToken_ne_nil_iff (t : GoString) :
    firstToken t ≠ [] ↔ ∃ c ∈ t, isSpace c = false := by
  unfold firstToken
  constructor
  · intro h
    by_contra hall
    have hall2 : ∀ x ∈ t, isSpace x = true := by
      intro x hx
      by_contra hx2
      exact hall ⟨x, hx, by simpa using hx2⟩
    rw [List.dropWhile_eq_nil_iff.mpr hall2] at h
    exact h rfl
  · rintro ⟨c, hc, hs⟩
    have hne : t.dropWhile isSpace ≠ [] := by
      intro h0
      have := List.dropWhile_eq_nil_iff.mp h0 c hc
      rw [hs] at this; cases this
    cases hd : t.dropWhile isSpace with
    | nil => exact absurd hd hne
    | cons a as =>
      have ha := List.head?_dropWhile_not isSpace t
      rw [hd] at ha
      simp only [List.head?_cons] at ha
      simp [List.takeWhile, ha]

/-- C19. For a lower-case table with the two properties of `LowerTableOK`,
the result of `extractSQLType` holds no white space, is not changed by
`strings.ToLower`, and is non-empty exactly when the text, trimmed of white
space, of the double quotes at its ends and of white space again, holds a
character that is not white space. -/
theorem sqlType_is_lowercase_token (tbl : Char → Char) (s : GoString)
    (htbl : LowerTableOK tbl) :
    (∀ c ∈ extractSQLType tbl s, isSpace c = false) ∧
    ToLower tbl (extractSQLType tbl s) = extractSQLType tbl s ∧
    (extractSQLType tbl s ≠ [] ↔
      ∃ c ∈ TrimSpace (Trim (TrimSpace s) dquote), isSpace c = false) := by
  rw [extractSQLType_eq_spec]
  unfold sqlTypeSpec ToLower
  refine ⟨?_, ?_, ?_⟩
  · intro c hc
    obtain ⟨c0, hc0, rfl⟩ := List.mem_map.mp hc
    have h0 : isSpace c0 = false := by
      have := List.mem_takeWhile_imp hc0
      simpa using this
    exact toLowerRune_not_space tbl htbl c0 h0
  · rw [List.map_map]
    apply List.map_congr_left
    intro c _
    exact toLowerRune_idem tbl htbl c
  · rw [← firstToken_ne_nil_iff]
    simp

/-- C19, at the quoted example and the table that leaves every code point as
it is. -/
theorem sqlType_is_lowercase_token_witness :
    (∀ c ∈ extractSQLType id quotedSelect, isSpace c = false) ∧
    ToLower id (extractSQLType id quotedSelect) = extractSQLType id quotedSelect ∧
    extractSQLType id quotedSelect ≠ [] :=
  have h := sqlType_is_lowercase_token id quotedSelect lowerTableOK_id
  ⟨h.1, h.2.1, by decide⟩

/-! ## The query time -/

theorem floor_fin (m : Nat) (e : ℤ) :
    ⌊(m : ℚ) * (2 : ℚ) ^ e⌋ = (((m <<< e.toNat) >>> (-e).toNat : Nat) : ℤ) := by
  rw [two_zpow_split, Nat.shiftLeft_eq, Nat.shiftRight_eq_div_pow]
  have h : (m : ℚ) * ((2 : ℚ) ^ e.toNat / (2 : ℚ) ^ (-e).toNat) =
      ((m * 2 ^ e.toNat : Nat) : ℚ) / ((2 ^ (-e).toNat : Nat) : ℚ) := by
    push_cast; ring
  rw [h, Rat.floor_natCast_div_natCast]
  norm_cast

theorem truncRat_fin (s : Bool) (m : Nat) (e : ℤ) :
    truncRat ((if s then -1 else 1) * (m : ℚ) * (2 : ℚ) ^ e) =
      (if s then -((((m <<< e.toNat) >>> (-e).toNat : Nat) : ℤ))
        else (((m <<< e.toNat) >>> (-e).toNat : Nat) : ℤ)) := by
  have hpos : (0 : ℚ) ≤ (m : ℚ) * (2 : ℚ) ^ e := by positivity
  cases s with
  | false =>
    simp only [Bool.false_eq_true, if_false, one_mul]
    unfold truncRat
    rw [if_pos hpos, floor_fin]
  | true =>
    simp only [if_true]
    have h1 : (-1 : ℚ) * (m : ℚ) * (2 : ℚ) ^ e = -((m : ℚ) * (2 : ℚ) ^ e) := by ring
    rw [h1]
    unfold truncRat
    by_cases h0 : (0 : ℚ) ≤ -((m : ℚ) * (2 : ℚ) ^ e)
    · have hz : (m : ℚ) * (2 : ℚ) ^ e = 0 := le_antisymm (by linarith) hpos
      rw [if_pos h0, ← floor_fin, hz]
      simp
    · rw [if_neg h0, Int.ceil_neg, floor_fin]

set_option maxRecDepth 8192

theorem truncMicros_of_fin {x : F64} {s : Bool} {m : Nat} {e : ℤ}
    (h : F64.mul x (F64.ofInt 1000000) = .fin s m e) :
    truncMicros x = some (if s then -((((m <<< e.toNat) >>> (-e).toNat : Nat) : ℤ))
      else (((m <<< e.toNat) >>> (-e).toNat : Nat) : ℤ)) := by
  unfold truncMicros
  rw [h]
  simp only [F64.toRat, Option.map_some', truncRat_fin]

/-- C13 as stated fails. The execution time `Inf` is accepted, its product
with 1,000,000 is an infinity and has no truncation, and `QueryTime` is what
the platform makes of `int64(+Inf)`. An execution time of ten million million
seconds has the truncated product `10^19`, which is no int64, and `QueryTime`
is again the platform's value (here `-2^63`). And the product is the float64
product of the float64 nearest to the text: for the execution time `4.1`,
`QueryTime` is 4099999, while 4.1 times 1,000,000 is 4100000. -/
theorem queryTime_not_always_truncation :
    (parseCSVRecord infTimeRow = some (.ok infTimeRecord) ∧
      truncMicros infTimeRecord.ExecutionTime = none ∧
      convertToJSON examplePlatform infTimeRecord =
        .ok { exampleEntry with QueryTime := -9223372036854775808 }) ∧
    (parseCSVRecord hugeTimeRow = some (.ok hugeTimeRecord) ∧
      truncMicros hugeTimeRecord.ExecutionTime = some 10000000000000000000 ∧
      convertToJSON examplePlatform hugeTimeRecord =
        .ok { exampleEntry with QueryTime := -9223372036854775808 }) ∧
    (parseCSVRecord decimalTimeRow = some (.ok decimalTimeRecord) ∧
      truncRat ((41 : ℚ) / 10 * 1000000) = 4100000 ∧
      convertToJSON examplePlatform decimalTimeRecord =
        .ok { exampleEntry with QueryTime := 4099999 }) := by
  refine ⟨⟨by decide, by decide, by decide⟩, ⟨by decide, ?_, by decide⟩, by decide, ?_,
    by decide⟩
  swap
  · unfold truncRat
    norm_num
  have h : F64.mul hugeTimeRecord.ExecutionTime (F64.ofInt 1000000) =
      .fin false 4882812500000000 11 := by decide
  rw [truncMicros_of_fin h]
  decide

/-- C13, amended. When the float64 product of the execution time and
1,000,000 is finite and its truncation toward zero is an int64, `QueryTime`
is that truncation, for positive and for negative execution times. -/
theorem queryTime_is_truncated_product (pf : Platform) (r : CSVRecord) (e : LogEntry) (z : ℤ)
    (h : convertToJSON pf r = .ok e) (hz : truncMicros r.ExecutionTime = some z)
    (hlo : -(2 : ℤ) ^ 63 ≤ z) (hhi : z < (2 : ℤ) ^ 63) :
    e.QueryTime = z := by
  obtain ⟨-, -, -, -, -, hq⟩ := convertToJSON_strings h
  rw [hq]
  unfold truncMicros at hz
  cases hp : F64.mul r.ExecutionTime (F64.ofInt 1000000) with
  | fin s m ex =>
    rw [hp] at hz
    simp only [F64.toRat, Option.map_some', Option.some.injEq] at hz
    rw [truncRat_fin] at hz
    unfold F64.toInt64
    simp only []
    rw [hz, if_pos ⟨hlo, hhi⟩]
  | inf s => rw [hp] at hz; cases hz
  | nan => rw [hp] at hz; cases hz

/-- C13, amended, at execution times of 1.9 and of minus 1.9 microseconds:
`QueryTime` is 1 and -1, not 2 and -2. -/
theorem queryTime_is_truncated_product_witness :
    parseCSVRecord negTimeRow = some (.ok negTimeRecord) ∧
    convertToJSON examplePlatform negTimeRecord = .ok { exampleEntry with QueryTime := -1 } ∧
    convertToJSON examplePlatform posTimeRecord = .ok { exampleEntry with QueryTime := 1 } ∧
    ({ exampleEntry with QueryTime := -1 } : LogEntry).QueryTime = -1 ∧
    ({ exampleEntry with QueryTime := 1 } : LogEntry).QueryTime = 1 :=
  have hn : F64.mul negTimeRecord.ExecutionTime (F64.ofInt 1000000) =
      .fin true 8556839292003942 (-52) := by decide
  have hp : F64.mul posTimeRecord.ExecutionTime (F64.ofInt 1000000) =
      .fin false 8556839292003942 (-52) := by decide
  ⟨by decide, by decide, by decide,
    (queryTime_is_truncated_product examplePlatform negTimeRecord _ _ (by decide)
      (truncMicros_of_fin hn) (by decide) (by decide)).trans (by decide),
    (queryTime_is_truncated_product examplePlatform posTimeRecord _ _ (by decide)
      (truncMicros_of_fin hp) (by decide) (by decide)).trans (by decide)⟩

/-! ## The SQL type, stage by stage -/

theorem dropWhile_append_all {α : Type} (p : α → Bool) (a l : List α)
    (ha : ∀ c ∈ a, p c = true) : (a ++ l).dropWhile p = l.dropWhile p := by
  induction a with
  | nil => rfl
  | cons x xs ih =>
    have hx : p x = true := ha x (by simp)
    rw [List.cons_append, List.dropWhile_cons_of_pos hx]
    exact ih (fun c hc => ha c (by simp [hc]))

theorem dropWhile_self_of_head {α : Type} (p : α → Bool) (l : List α)
    (h : ∀ c, l.head? = some c → p c = false) : l.dropWhile p = l := by
  cases l with
  | nil => rfl
  | cons x xs =>
    have hx : p x = false := h x rfl
    simp [List.dropWhile, hx]

theorem rdropWhile_append_all {α : Type} (p : α → Bool) (l b : List α)
    (hb : ∀ c ∈ b, p c = true) : (l ++ b).rdropWhile p = l.rdropWhile p := by
  unfold List.rdropWhile
  rw [List.reverse_append, dropWhile_append_all p _ _ (by simpa using hb)]

theorem rdropWhile_self_of_last {α : Type} (p : α → Bool) (l : List α)
    (h : ∀ c, l.getLast? = some c → p c = false) : l.rdropWhile p = l := by
  unfold List.rdropWhile
  rw [dropWhile_self_of_head p _ (by simpa using h), List.reverse_reverse]

theorem trimsTo_eq {p : Char → Bool} {s t : GoString} (h : TrimsTo p s t) :
    t = (s.dropWhile p).rdropWhile p ∧ t = (s.rdropWhile p).dropWhile p := by
  obtain ⟨a, b, rfl, ha, hb, hh, hl⟩ := h
  by_cases ht : t = []
  · subst ht
    have hall : ∀ c ∈ a ++ [] ++ b, p c = true := by
      intro c hc
      simp only [List.append_nil, List.mem_append] at hc
      rcases hc with hc | hc
      · exact ha c hc
      · exact hb c hc
    constructor
    · rw [List.dropWhile_eq_nil_iff.mpr hall]; rfl
    · rw [List.rdropWhile_eq_nil_iff.mpr hall]; rfl
  · have hhead : ∀ c, (t ++ b).head? = some c → p c = false := by
      intro c hc
      cases t with
      | nil => exact absurd rfl ht
      | cons x xs => exact hh c (by simpa using hc)
    have hlast : ∀ c, (a ++ t).getLast? = some c → p c = false := by
      intro c hc
      apply hl c
      rw [List.getLast?_append] at hc
      cases hg : t.getLast? with
      | none => exact absurd (List.getLast?_eq_none_iff.mp hg) ht
      | some y => rw [hg] at hc; simpa using hc
    constructor
    · rw [List.append_assoc, dropWhile_append_all p a _ ha, dropWhile_self_of_head p _ hhead,
        rdropWhile_append_all p t b hb, rdropWhile_self_of_last p t hl]
    · rw [rdropWhile_append_all p _ b hb, rdropWhile_self_of_last p _ hlast,
        dropWhile_append_all p a t ha, dropWhile_self_of_head p t hh]

theorem trimsTo_trim (p : Char → Bool) (s : GoString) :
    TrimsTo p s ((s.rdropWhile p).dropWhile p) := by
  refine ⟨(s.rdropWhile p).takeWhile p, s.rtakeWhile p, ?_, ?_, ?_, ?_, ?_⟩
  · rw [List.takeWhile_append_dropWhile, rdropWhile_append_rtakeWhile]
  · intro c hc
    exact List.mem_takeWhile_imp hc
  · intro c hc
    exact List.mem_rtakeWhile_imp hc
  · intro c hc
    by_contra hp
    exact head?_dropWhile_ne p _ c (by simpa using hp) hc
  · intro c hc
    by_contra hp
    exact getLast?_dropWhile_rdropWhile_ne p _ c (by simpa using hp) hc

theorem trimsTo_isSpace_iff (s t : GoString) : TrimsTo isSpace s t ↔ t = TrimSpace s := by
  unfold TrimSpace
  constructor
  · intro h; exact (trimsTo_eq h).1
  · intro h
    have h0 := trimsTo_trim isSpace s
    rw [h, ← (trimsTo_eq h0).1]
    exact h0

theorem trimsTo_dquote_iff (s t : GoString) :
    TrimsTo (fun c => c == dquote) s t ↔ t = Trim s dquote := by
  unfold Trim trimLeftByte trimRightByte
  constructor
  · intro h; exact (trimsTo_eq h).2
  · intro h
    rw [h]
    exact trimsTo_trim _ s

theorem takeWhile_not_space_append (tok rest : GoString)
    (ht : ∀ c ∈ tok, isSpace c = false) (hr : ∀ c, rest.head? = some c → isSpace c = true) :
    (tok ++ rest).takeWhile (fun c => !isSpace c) = tok := by
  induction tok with
  | nil =>
    cases rest with
    | nil => rfl
    | cons x xs =>
      have hx : isSpace x = true := hr x rfl
      simp [List.takeWhile, hx]
  | cons x xs ih =>
    have hx : isSpace x = false := ht x (by simp)
    rw [List.cons_append, List.takeWhile_cons_of_pos (by simp [hx])]
    rw [ih (fun c hc => ht c (by simp [hc]))]

theorem firstTokenOf_iff (v tok : GoString) : FirstTokenOf v tok ↔ tok = firstToken v := by
  unfold firstToken
  constructor
  · rintro ⟨lead, rest, rfl, hl, ht, hr, he⟩
    rw [List.append_assoc, dropWhile_append_all isSpace lead _ hl]
    by_cases h0 : tok = []
    · rw [h0, he h0]; rfl
    · have hhead : ∀ c, (tok ++ rest).head? = some c → isSpace c = false := by
        intro c hc
        cases tok with
        | nil => exact absurd rfl h0
        | cons x xs =>
          have : x = c := by simpa using hc
          exact this ▸ ht x (by simp)
      rw [dropWhile_self_of_head isSpace _ hhead, takeWhile_not_space_append tok rest ht hr]
  · intro h
    refine ⟨v.takeWhile isSpace, (v.dropWhile isSpace).dropWhile (fun c => !isSpace c),
      ?_, ?_, ?_, ?_, ?_⟩
    · rw [h, List.append_assoc, List.takeWhile_append_dropWhile,
        List.takeWhile_append_dropWhile]
    · intro c hc
      exact List.mem_takeWhile_imp hc
    · intro c hc
      rw [h] at hc
      simpa using List.mem_takeWhile_imp hc
    · intro c hc
      have := List.head?_dropWhile_not (fun c => !isSpace c) (v.dropWhile isSpace)
      rw [hc] at this
      simpa using this
    · intro h0
      rw [h0] at h
      cases hd : v.dropWhile isSpace with
      | nil => rfl
      | cons x xs =>
        have hx := List.head?_dropWhile_not isSpace v
        rw [hd] at hx
        simp only [List.head?_cons] at hx
        rw [hd] at h
        simp [List.takeWhile, hx] at h

theorem cleansTo_iff (s t u v tok : GoString) :
    CleansTo s t u v tok ↔
      t = TrimSpace s ∧ u = Trim t dquote ∧ v = TrimSpace u ∧ tok = firstToken v := by
  unfold CleansTo
  rw [trimsTo_isSpace_iff, trimsTo_dquote_iff, trimsTo_isSpace_iff, firstTokenOf_iff]

/-- C8. For every SQL text `s`: whenever `t` is `s` trimmed of white space, `u`
is `t` stripped of the double quotes at both ends, `v` is `u` trimmed of white
space and `tok` is the first white-space delimited token of `v` (empty when
`v` has none), `extractSQLType` returns `tok` in lower case; and such `t`, `u`,
`v` and `tok` exist. For the text `"SELECT * FROM t"` with its quotes the
type is `select`, and the SQL emitted by `convertToJSON` is `SELECT * FROM t`;
white space outside the quotes is trimmed, a quote that is not at an end after
the first trimming stays. -/
theorem sqlType_is_first_token (pf : Platform) (s : GoString) :
    (∀ t u v tok, CleansTo s t u v tok → extractSQLType pf.lowerTable s =
      ToLower pf.lowerTable tok) ∧
    (∃ t u v tok, CleansTo s t u v tok) ∧
    extractSQLType pf.lowerTable quotedSelect = "select".toList ∧
    extractSQLType pf.lowerTable spacedSelect = "select".toList ∧
    extractSQLType pf.lowerTable nestedUpdate = "\"update".toList ∧
    (∀ r e, r.SQLText = quotedSelect → convertToJSON pf r = .ok e →
      e.SQLType = "select".toList ∧ e.SQL = "SELECT * FROM t".toList) := by
  have hq : extractSQLType pf.lowerTable quotedSelect = "select".toList := rfl
  refine ⟨?_, ?_, hq, rfl, rfl, ?_⟩
  · intro t u v tok h
    obtain ⟨rfl, rfl, rfl, rfl⟩ := (cleansTo_iff s t u v tok).mp h
    exact extractSQLType_eq_spec _ _
  · exact ⟨_, _, _, _, (cleansTo_iff s _ _ _ _).mpr ⟨rfl, rfl, rfl, rfl⟩⟩
  · intro r e hr he
    obtain ⟨-, h1, h2⟩ := convertToJSON_ok_fields he
    rw [hr] at h1 h2
    exact ⟨h1.trans hq, h2.trans (by decide)⟩

/-- C8, at the record of `exampleRow`, whose SQL text is the quoted example,
and at a text with white space outside its quotes, with the stages written
out. -/
theorem sqlType_is_first_token_witness :
    (exampleRecord.SQLText = quotedSelect ∧
      convertToJSON examplePlatform exampleRecord = .ok exampleEntry ∧
      exampleEntry.SQLType = "select".toList ∧ exampleEntry.SQL = "SELECT * FROM t".toList) ∧
    (CleansTo spacedSelect "\"SELECT 1\"".toList "SELECT 1".toList "SELECT 1".toList
        "SELECT".toList ∧
      extractSQLType examplePlatform.lowerTable spacedSelect = "select".toList) :=
  have hc : CleansTo spacedSelect "\"SELECT 1\"".toList "SELECT 1".toList "SELECT 1".toList
      "SELECT".toList :=
    ⟨⟨"  ".toList, [], by decide, by decide, by decide, by simp; decide, by simp; decide⟩,
     ⟨"\"".toList, "\"".toList, by decide, by decide, by decide, by simp [dquote],
       by simp [dquote]⟩,
     ⟨[], [], by decide, by decide, by decide, by simp; decide, by simp; decide⟩,
     ⟨[], " 1".toList, by decide, by decide, by decide, by simp; decide, by simp⟩⟩
  ⟨⟨by decide, convertToJSON_exampleRecord,
    (sqlType_is_first_token examplePlatform []).2.2.2.2.2 exampleRecord exampleEntry
      (by decide) convertToJSON_exampleRecord⟩,
   hc, ((sqlType_is_first_token examplePlatform spacedSelect).1 _ _ _ _ hc).trans (by decide)⟩

end SqlReplay
